import Mathlib

/-!
# EWKB codec and SQL scan adapter of `orb/encoding/ewkb`

A shallow embedding of `encoding/ewkb/wkb.go`, `encoding/ewkb/scanner.go` and
`encoding/internal/wkbcommon/line_string.go`, with the properties of the
codec and of `GeometryScanner.Scan` proved over it.

Conventions of the embedding:

* a byte is a natural number (a Go `byte` is one below 256); a byte slice is a
  `List Nat`;
* a `float64` coordinate is carried as its IEEE-754 bit pattern
  (`math.Float64bits`), a natural number below `2^64`;
* a Go function returning `(value, error)` returns `Except Err value`;
* a Go slice is a list: the nil slice and the empty slice of a geometry are
  the same value here.
-/

set_option autoImplicit false

/-! ## Geometry values (package `orb`) -/

namespace orb

/-- A coordinate pair `[2]float64`, each coordinate as its 64-bit pattern. -/
structure Point where
  x : Nat
  y : Nat
deriving DecidableEq, Repr

abbrev MultiPoint := List Point
abbrev LineString := List Point
abbrev Ring := List Point
abbrev MultiLineString := List LineString
abbrev Polygon := List Ring
abbrev MultiPolygon := List Polygon

/-- An axis-aligned bound, `orb.Bound`. -/
structure Bound where
  Min : Point
  Max : Point
deriving DecidableEq, Repr

/-- The seven geometry kinds that have a wire encoding. -/
inductive Geometry
  | point (p : Point)
  | multiPoint (mp : MultiPoint)
  | lineString (ls : LineString)
  | multiLineString (mls : MultiLineString)
  | polygon (p : Polygon)
  | multiPolygon (mp : MultiPolygon)
  | collection (c : List Geometry)

end orb

/-! ## Errors -/

/-- The `error` values that occur: the sentinels of `wkbcommon`, the sentinels
of `ewkb`, the two end-of-input errors of `io`, the two errors of
`encoding/hex`, errors freshly made by `fmt.Errorf` and `errors.New`, and a
run-time panic on a slice expression out of range. -/
inductive Err
  | wkbcommon_ErrUnsupportedDataType
  | wkbcommon_ErrNotWKB
  | wkbcommon_ErrIncorrectGeometry
  | wkbcommon_ErrUnsupportedGeometry
  | ErrUnsupportedDataType
  | ErrNotEWKB
  | ErrIncorrectGeometry
  | ErrUnsupportedGeometry
  | io_EOF
  | io_ErrUnexpectedEOF
  | hex_InvalidByteError (b : Nat)
  | hex_ErrLength
  | fmt_Errorf (msg : String) (cause : Err)
  | errors_New (msg : String)
  | panicSliceBounds
deriving DecidableEq, Repr

/-! ## Wire primitives -/

namespace wkbcommon

/-- The `byteOrder` of wkb.go: `bigEndian = 0`, `littleEndian = 1`. -/
inductive byteOrder
  | bigEndian
  | littleEndian
deriving DecidableEq, Repr

/-- The order marker byte written for a byte order. -/
def byteOrder.marker : byteOrder → Nat
  | .bigEndian => 0
  | .littleEndian => 1

def pointType : Nat := 1
def lineStringType : Nat := 2
def polygonType : Nat := 3
def multiPointType : Nat := 4
def multiLineStringType : Nat := 5
def multiPolygonType : Nat := 6
def geometryCollectionType : Nat := 7

/-- Bit 29 of the type code: a coordinate-system identifier follows. -/
def ewkbType : Nat := 0x20000000

def maxPointsAlloc : Nat := 10000
def maxMultiAlloc : Nat := 100

/-- The `width` low bytes of `v`, least significant first. -/
def leBytes : Nat → Nat → List Nat
  | 0, _ => []
  | width + 1, v => (v % 256) :: leBytes width (v / 256)

/-- The number a byte sequence spells, least significant byte first. -/
def leValue : List Nat → Nat
  | [] => 0
  | b :: bs => b + 256 * leValue bs

/-- `order.PutUint32` / `order.PutUint64`: `width` bytes of `v` in the order. -/
def putUint (order : byteOrder) (width v : Nat) : List Nat :=
  match order with
  | .littleEndian => leBytes width v
  | .bigEndian => (leBytes width v).reverse

/-- `order.Uint32` / `order.Uint64` of a byte sequence of exactly that width. -/
def getUint (order : byteOrder) (bs : List Nat) : Nat :=
  match order with
  | .littleEndian => leValue bs
  | .bigEndian => leValue bs.reverse

/-- `unmarshalUint32(order, data)`: the first four bytes of `data`. -/
def unmarshalUint32 (order : byteOrder) (data : List Nat) : Nat :=
  getUint order (data.take 4)

/-- The slice expression `data[k:]`, which panics when `k > len(data)`. -/
def sliceFrom (data : List Nat) (k : Nat) : Except Err (List Nat) :=
  if k ≤ data.length then .ok (data.drop k) else .error .panicSliceBounds

end wkbcommon

/-! ## Encoder (package `wkbcommon`) -/

namespace wkbcommon

open orb

/-- The start of every encoded unit (sections 4.3 and 6): the order marker,
the uint32 type code with the identifier flag set iff the identifier is not
0, and the identifier, converted to uint32, if it is present. -/
def writeHeader (order : byteOrder) (t : Nat) (srid : Int) : List Nat :=
  if srid = 0 then order.marker :: putUint order 4 t
  else order.marker :: (putUint order 4 (t + ewkbType) ++ putUint order 4 (srid % 2 ^ 32).toNat)

/-- Modelled from the spec: `Encoder.writeTypePrefix` is not among the sources.
Section 4.3: the order marker, the type code with the identifier flag set iff
the identifier is not 0, the identifier if present, then the uint32 count,
the length converted to uint32. -/
def writeTypePrefix (order : byteOrder) (t : Nat) (l : Nat) (srid : Int) : List Nat :=
  writeHeader order t srid ++ putUint order 4 (l % 2 ^ 32)

/-- The 16 bytes of a coordinate pair: `PutUint64` of `Float64bits` of each
coordinate (lines 52 to 54 of line_string.go). -/
def putPoint (order : byteOrder) (p : Point) : List Nat :=
  putUint order 8 (p.x % 2 ^ 64) ++ putUint order 8 (p.y % 2 ^ 64)

/-- The bytes of a sequence of coordinate pairs, in order. -/
def putPoints (order : byteOrder) : List Point → List Nat
  | [] => []
  | p :: ps => putPoint order p ++ putPoints order ps

/-- Modelled from the spec: `Encoder.writePoint` is not among the sources.
Section 4.3: the header (no count field) and two floats. -/
def writePoint (order : byteOrder) (p : Point) (srid : Int) : List Nat :=
  writeHeader order pointType srid ++ putPoint order p

/-- `Encoder.writeLineString` (line_string.go): the type prefix with the point
count, then each coordinate pair. -/
def writeLineString (order : byteOrder) (ls : LineString) (srid : Int) : List Nat :=
  writeTypePrefix order lineStringType ls.length srid ++ putPoints order ls

/-- The loop of `Encoder.writeMultiLineString`: `e.Encode(ls, 0)` for each
element, which for a LineString is `writeLineString(ls, 0)`. -/
def writeLineStrings (order : byteOrder) : List LineString → List Nat
  | [] => []
  | ls :: rest => writeLineString order ls 0 ++ writeLineStrings order rest

/-- `Encoder.writeMultiLineString` (line_string.go): the type prefix with the
element count and the identifier, then every element encoded with identifier
0. -/
def writeMultiLineString (order : byteOrder) (mls : MultiLineString) (srid : Int) : List Nat :=
  writeTypePrefix order multiLineStringType mls.length srid ++ writeLineStrings order mls

/-- The elements of a MultiPoint, each a full Point encoding with identifier 0. -/
def writePoints (order : byteOrder) : List Point → List Nat
  | [] => []
  | p :: ps => writePoint order p 0 ++ writePoints order ps

/-- Modelled from the spec: `Encoder.writeMultiPoint` is not among the sources.
Section 4.3: uint32 count, then per element the full encoding of a Point. -/
def writeMultiPoint (order : byteOrder) (mp : MultiPoint) (srid : Int) : List Nat :=
  writeTypePrefix order multiPointType mp.length srid ++ writePoints order mp

/-- The rings of a Polygon: per ring a uint32 point count and the pairs. -/
def writeRings (order : byteOrder) : List Ring → List Nat
  | [] => []
  | r :: rs => putUint order 4 (r.length % 2 ^ 32) ++ putPoints order r ++ writeRings order rs

/-- Modelled from the spec: `Encoder.writePolygon` is not among the sources.
Section 4.3: uint32 ring count, then per ring a uint32 point count and the
coordinate pairs. -/
def writePolygon (order : byteOrder) (p : Polygon) (srid : Int) : List Nat :=
  writeTypePrefix order polygonType p.length srid ++ writeRings order p

/-- The elements of a MultiPolygon, each a full Polygon encoding with
identifier 0. -/
def writePolygons (order : byteOrder) : List Polygon → List Nat
  | [] => []
  | p :: ps => writePolygon order p 0 ++ writePolygons order ps

/-- Modelled from the spec: `Encoder.writeMultiPolygon` is not among the
sources. Section 4.3: uint32 element count, then per element the full
recursive encoding, identifier absent. -/
def writeMultiPolygon (order : byteOrder) (mp : MultiPolygon) (srid : Int) : List Nat :=
  writeTypePrefix order multiPolygonType mp.length srid ++ writePolygons order mp

mutual
/-- Modelled from the spec: `Encoder.Encode` of wkbcommon is not among the
sources. Section 4.3: the bytes written for a geometry, by kind; the writers
of LineString and MultiLineString are those of line_string.go. -/
def Encode (order : byteOrder) : Geometry → Int → List Nat
  | .point p, srid => writePoint order p srid
  | .multiPoint mp, srid => writeMultiPoint order mp srid
  | .lineString ls, srid => writeLineString order ls srid
  | .multiLineString mls, srid => writeMultiLineString order mls srid
  | .polygon p, srid => writePolygon order p srid
  | .multiPolygon mp, srid => writeMultiPolygon order mp srid
  | .collection c, srid =>
    writeTypePrefix order geometryCollectionType c.length srid ++ EncodeAll order c
/-- The elements of a Collection, each encoded in full with identifier 0. -/
def EncodeAll (order : byteOrder) : List Geometry → List Nat
  | [] => []
  | g :: gs => Encode order g 0 ++ EncodeAll order gs
end

/-- The bytes of the rings of a polygon in `GeomLength`. -/
def ringsLength : List Ring → Nat
  | [] => 0
  | r :: rs => 4 + 16 * r.length + ringsLength rs

mutual
/-- Modelled from the spec: `GeomLength` is not among the sources. Section
4.3: 5 bytes (order and type), 4 bytes per count field and 16 bytes per
coordinate pair, summed recursively. `Marshal` calls it with the geometry
alone (wkb.go line 101), so the 4 bytes of an identifier are not part of it. -/
def GeomLength : Geometry → Nat
  | .point _ => 21
  | .multiPoint mp => 9 + 21 * mp.length
  | .lineString ls => 9 + 16 * ls.length
  | .multiLineString mls => 9 + (mls.map (fun ls => 9 + 16 * ls.length)).sum
  | .polygon p => 9 + ringsLength p
  | .multiPolygon mp => 9 + (mp.map (fun p => 9 + ringsLength p)).sum
  | .collection c => 9 + GeomLengthAll c
/-- The summed length of the elements of a collection. -/
def GeomLengthAll : List Geometry → Nat
  | [] => 0
  | g :: gs => GeomLength g + GeomLengthAll gs
end

end wkbcommon

/-! ## Buffer decoder (package `wkbcommon`) -/

namespace wkbcommon

open orb

/-- The byte order an order marker names: 0 big-endian, 1 little-endian. -/
def orderOfMarker : Nat → Option byteOrder
  | 0 => some .bigEndian
  | 1 => some .littleEndian
  | _ => none

/-- Modelled from the spec: `byteOrderType` is not among the sources. Sections
4.2 and 4.4 step 1: byte 0 must be 0 or 1, else "not valid wire format"; the
uint32 type code splits into the kind and the identifier flag (bit 29); the
kind must be in 1..7, else "unsupported geometry kind"; if the flag is set a
uint32 identifier follows, else the identifier is 0. A buffer too short for a
field is "not valid wire format". Returns the order, the kind, the identifier
and the bytes after the header. -/
def byteOrderType (buf : List Nat) : Except Err (byteOrder × Nat × Int × List Nat) :=
  match buf with
  | [] => .error .wkbcommon_ErrNotWKB
  | b :: rest =>
    match orderOfMarker b with
    | none => .error .wkbcommon_ErrNotWKB
    | some order =>
      if rest.length < 4 then .error .wkbcommon_ErrNotWKB
      else
        let typ := unmarshalUint32 order rest
        if typ / ewkbType % 2 = 1 then
          if typ - ewkbType < 1 ∨ 7 < typ - ewkbType then .error .wkbcommon_ErrUnsupportedGeometry
          else if (rest.drop 4).length < 4 then .error .wkbcommon_ErrNotWKB
          else .ok (order, typ - ewkbType, Int.ofNat (unmarshalUint32 order (rest.drop 4)),
            rest.drop 8)
        else
          if typ < 1 ∨ 7 < typ then .error .wkbcommon_ErrUnsupportedGeometry
          else .ok (order, typ, 0, rest.drop 4)

/-- Modelled from the spec: `unmarshalByteOrderType` is not among the sources.
Section 4.5, the vendor identifier quirk: when the header fails because the
first byte is not a valid order marker, skip exactly 4 bytes and try once
more; if that also fails the original error is returned. -/
def unmarshalByteOrderType (buf : List Nat) : Except Err (byteOrder × Nat × Int × List Nat) :=
  match byteOrderType buf with
  | .ok r => .ok r
  | .error e =>
    match buf with
    | [] => .error e
    | b :: _ =>
      match orderOfMarker b with
      | some _ => .error e
      | none =>
        match byteOrderType (buf.drop 4) with
        | .ok r => .ok r
        | .error _ => .error e

/-- Modelled from the spec: `unmarshalPoint` is not among the sources. Section
4.4 step 3: two floats; fewer than 16 bytes is "not valid wire format". -/
def unmarshalPoint (order : byteOrder) (data : List Nat) : Except Err Point :=
  if data.length < 16 then .error .wkbcommon_ErrNotWKB
  else .ok ⟨getUint order (data.take 8), getUint order ((data.drop 8).take 8)⟩

/-- The element loop of `unmarshalPoints`: `n` coordinate pairs, one at a time. -/
def unmarshalPointsLoop (order : byteOrder) : Nat → List Nat → Except Err (List Point)
  | 0, _ => .ok []
  | n + 1, data =>
    match unmarshalPoint order data with
    | .error e => .error e
    | .ok p =>
      match unmarshalPointsLoop order n (data.drop 16) with
      | .error e => .error e
      | .ok ps => .ok (p :: ps)

/-- Modelled from the spec: `unmarshalPoints` is not among the sources. Section
4.4 step 4: the uint32 declared count `n`, then exactly `n` coordinate pairs
read one at a time, failing at once when the input ends early. -/
def unmarshalPoints (order : byteOrder) (data : List Nat) : Except Err (List Point) :=
  if data.length < 4 then .error .wkbcommon_ErrNotWKB
  else unmarshalPointsLoop order (unmarshalUint32 order data) (data.drop 4)

/-- `unmarshalLineString` (line_string.go). -/
def unmarshalLineString (order : byteOrder) (data : List Nat) : Except Err LineString :=
  match unmarshalPoints order data with
  | .error e => .error e
  | .ok ps => .ok ps

/-- The loop `for i := 0; i < int(num); i++` of `unmarshalMultiLineString` and
of its siblings: scan one element at the front of `data`, return its error if
it fails, advance `data` by the encoded size of the element, append it. -/
def unmarshalElements {α : Type} (scan : List Nat → Except Err (α × Int)) (size : α → Nat) :
    Nat → List Nat → List α → Except Err (List α)
  | 0, _, result => .ok result
  | n + 1, data, result =>
    match scan data with
    | .error e => .error e
    | .ok (a, _) =>
      match sliceFrom data (size a) with
      | .error e => .error e
      | .ok data => unmarshalElements scan size n data (result ++ [a])

/-- `unmarshalMultiLineString` (line_string.go), with the `ScanLineString` it
calls as an argument: fewer than 4 bytes is `ErrNotWKB`; the count; then per
element `ScanLineString(data)` and `data = data[16*len(ls)+9:]`. The capacity
`alloc` of the result has no effect on the value. -/
def unmarshalMultiLineStringWith (ScanLineString : List Nat → Except Err (LineString × Int))
    (order : byteOrder) (data : List Nat) : Except Err MultiLineString :=
  if data.length < 4 then .error .wkbcommon_ErrNotWKB
  else
    unmarshalElements ScanLineString (fun ls => 16 * ls.length + 9)
      (unmarshalUint32 order data) (data.drop 4) []

/-- Modelled from the spec: `ScanLineString` is not among the sources. Section
4.4 step 7: the exact kind or "incorrect geometry for destination". One case
beyond the spec is kept, because `unmarshalMultiLineString` of line_string.go
calls this function for every element: a MultiLineString of exactly one
element also satisfies it, the case "single multi line string" of
TestScanLineString. The first argument bounds the nesting depth; with none
left the data is empty, which is not WKB. -/
def ScanLineStringFuel : Nat → List Nat → Except Err (LineString × Int)
  | 0, _ => .error .wkbcommon_ErrNotWKB
  | fuel + 1, data =>
    match unmarshalByteOrderType data with
    | .error e => .error e
    | .ok (order, typ, srid, data) =>
      if typ = lineStringType then
        match unmarshalLineString order data with
        | .error e => .error e
        | .ok ls => .ok (ls, srid)
      else if typ = multiLineStringType then
        match unmarshalMultiLineStringWith (ScanLineStringFuel fuel) order data with
        | .error e => .error e
        | .ok [ls] => .ok (ls, srid)
        | .ok _ => .error .wkbcommon_ErrIncorrectGeometry
      else .error .wkbcommon_ErrIncorrectGeometry

/-- `unmarshalMultiLineString` (line_string.go) at a nesting depth. -/
def unmarshalMultiLineString (fuel : Nat) (order : byteOrder) (data : List Nat) :
    Except Err MultiLineString :=
  unmarshalMultiLineStringWith (ScanLineStringFuel fuel) order data

/-- Modelled from the spec: `unmarshalMultiPoint` is not among the sources. The
sibling of `unmarshalMultiLineString`: the count, then per element a full
Point encoding of 21 bytes. -/
def unmarshalMultiPointWith (ScanPoint : List Nat → Except Err (Point × Int))
    (order : byteOrder) (data : List Nat) : Except Err MultiPoint :=
  if data.length < 4 then .error .wkbcommon_ErrNotWKB
  else
    unmarshalElements ScanPoint (fun _ => 21) (unmarshalUint32 order data) (data.drop 4) []

/-- Modelled from the spec: `ScanPoint` is not among the sources. Section 4.4
step 7: the exact kind is required, any other kind is "incorrect geometry for
destination"; of Point and MultiPoint only the promotion of a Point to a
MultiPoint is defined, not the reverse. The header is read as section 4.5 has
it, with the retry behind a 4-byte vendor prefix. Two cases of TestScanPoint
expect more than the spec says and are not reproduced: "single multi-point",
and "point with 0 SRID", whose first byte is a valid order marker. -/
def ScanPoint (data : List Nat) : Except Err (Point × Int) :=
  match unmarshalByteOrderType data with
  | .error e => .error e
  | .ok (order, typ, srid, data) =>
    if typ = pointType then
      match unmarshalPoint order data with
      | .error e => .error e
      | .ok p => .ok (p, srid)
    else .error .wkbcommon_ErrIncorrectGeometry

/-- The rings of a polygon: per ring a counted point sequence. -/
def unmarshalRingsLoop (order : byteOrder) : Nat → List Nat → Except Err (List Ring)
  | 0, _ => .ok []
  | n + 1, data =>
    match unmarshalPoints order data with
    | .error e => .error e
    | .ok r =>
      match unmarshalRingsLoop order n (data.drop (4 + 16 * r.length)) with
      | .error e => .error e
      | .ok rs => .ok (r :: rs)

/-- Modelled from the spec: `unmarshalPolygon` is not among the sources.
Section 4.4 step 5: the uint32 ring count, then per ring a nested
point-sequence read. -/
def unmarshalPolygon (order : byteOrder) (data : List Nat) : Except Err Polygon :=
  if data.length < 4 then .error .wkbcommon_ErrNotWKB
  else unmarshalRingsLoop order (unmarshalUint32 order data) (data.drop 4)

/-- Modelled from the spec: `unmarshalMultiPolygon` is not among the sources.
The sibling of `unmarshalMultiLineString`: the count, then per element a full
Polygon encoding, `9` bytes and its rings. -/
def unmarshalMultiPolygonWith (ScanPolygon : List Nat → Except Err (Polygon × Int))
    (order : byteOrder) (data : List Nat) : Except Err MultiPolygon :=
  if data.length < 4 then .error .wkbcommon_ErrNotWKB
  else
    unmarshalElements ScanPolygon (fun p => 9 + ringsLength p)
      (unmarshalUint32 order data) (data.drop 4) []

/-- Modelled from the spec: `ScanPolygon` is not among the sources. Section 4.4
step 7: the exact kind is required, any other kind is "incorrect geometry for
destination". The case "single multi polygon" of TestScanPolygon expects a
promotion the spec does not define and is not reproduced. -/
def ScanPolygon (data : List Nat) : Except Err (Polygon × Int) :=
  match unmarshalByteOrderType data with
  | .error e => .error e
  | .ok (order, typ, srid, data) =>
    if typ = polygonType then
      match unmarshalPolygon order data with
      | .error e => .error e
      | .ok p => .ok (p, srid)
    else .error .wkbcommon_ErrIncorrectGeometry

/-- Modelled from the spec: `unmarshalCollection` is not among the sources.
Section 4.4 step 6: the uint32 element count, then per element a full
recursive header and dispatch; the sibling of `unmarshalMultiLineString`,
advancing by the encoded length of the element. -/
def unmarshalCollectionWith (Unmarshal : List Nat → Except Err (Geometry × Int))
    (order : byteOrder) (data : List Nat) : Except Err (List Geometry) :=
  if data.length < 4 then .error .wkbcommon_ErrNotWKB
  else
    unmarshalElements Unmarshal GeomLength (unmarshalUint32 order data) (data.drop 4) []

/-- Modelled from the spec: `Unmarshal` of wkbcommon is not among the sources.
Section 4.4 steps 1 and 2: the header, then the reader of the kind; the
identifier of the header is returned. -/
def UnmarshalFuel : Nat → List Nat → Except Err (Geometry × Int)
  | 0, _ => .error .wkbcommon_ErrNotWKB
  | fuel + 1, data =>
    match unmarshalByteOrderType data with
    | .error e => .error e
    | .ok (order, typ, srid, data) =>
      if typ = pointType then
        match unmarshalPoint order data with
        | .error e => .error e
        | .ok p => .ok (.point p, srid)
      else if typ = lineStringType then
        match unmarshalLineString order data with
        | .error e => .error e
        | .ok ls => .ok (.lineString ls, srid)
      else if typ = polygonType then
        match unmarshalPolygon order data with
        | .error e => .error e
        | .ok p => .ok (.polygon p, srid)
      else if typ = multiPointType then
        match unmarshalMultiPointWith ScanPoint order data with
        | .error e => .error e
        | .ok mp => .ok (.multiPoint mp, srid)
      else if typ = multiLineStringType then
        match unmarshalMultiLineString fuel order data with
        | .error e => .error e
        | .ok mls => .ok (.multiLineString mls, srid)
      else if typ = multiPolygonType then
        match unmarshalMultiPolygonWith ScanPolygon order data with
        | .error e => .error e
        | .ok mp => .ok (.multiPolygon mp, srid)
      else if typ = geometryCollectionType then
        match unmarshalCollectionWith (UnmarshalFuel fuel) order data with
        | .error e => .error e
        | .ok c => .ok (.collection c, srid)
      else .error .wkbcommon_ErrUnsupportedGeometry

/-- `wkbcommon.Unmarshal(data)`: every nesting level consumes at least its
5-byte header, so the length of the data bounds the depth. -/
def Unmarshal (data : List Nat) : Except Err (Geometry × Int) :=
  UnmarshalFuel data.length data

/-- `wkbcommon.ScanLineString(data)`. -/
def ScanLineString (data : List Nat) : Except Err (LineString × Int) :=
  ScanLineStringFuel data.length data

/-- Modelled from the spec: `ScanMultiPoint` is not among the sources. Section
4.4 step 7: a MultiPoint, or a bare Point promoted to a single-element
sequence; any other kind is "incorrect geometry for destination". -/
def ScanMultiPoint (data : List Nat) : Except Err (MultiPoint × Int) :=
  match unmarshalByteOrderType data with
  | .error e => .error e
  | .ok (order, typ, srid, geomData) =>
    if typ = pointType then
      match unmarshalPoint order geomData with
      | .error e => .error e
      | .ok p => .ok ([p], srid)
    else if typ = multiPointType then
      match unmarshalMultiPointWith ScanPoint order geomData with
      | .error e => .error e
      | .ok mp => .ok (mp, srid)
    else .error .wkbcommon_ErrIncorrectGeometry

/-- Modelled from the spec: `ScanMultiLineString` is not among the sources.
Section 4.4 step 7: the exact kind is required, any other kind is "incorrect
geometry for destination". The case "line string" of TestScanMultiLineString
expects a promotion the spec does not define and is not reproduced. -/
def ScanMultiLineString (data : List Nat) : Except Err (MultiLineString × Int) :=
  match unmarshalByteOrderType data with
  | .error e => .error e
  | .ok (order, typ, srid, geomData) =>
    if typ = multiLineStringType then
      match unmarshalMultiLineString data.length order geomData with
      | .error e => .error e
      | .ok mls => .ok (mls, srid)
    else .error .wkbcommon_ErrIncorrectGeometry

/-- Modelled from the spec: `ScanMultiPolygon` is not among the sources.
Section 4.4 step 7: the exact kind is required, any other kind is "incorrect
geometry for destination". The case "polygon" of TestScanMultiPolygon expects
a promotion the spec does not define and is not reproduced. -/
def ScanMultiPolygon (data : List Nat) : Except Err (MultiPolygon × Int) :=
  match unmarshalByteOrderType data with
  | .error e => .error e
  | .ok (order, typ, srid, geomData) =>
    if typ = multiPolygonType then
      match unmarshalMultiPolygonWith ScanPolygon order geomData with
      | .error e => .error e
      | .ok mp => .ok (mp, srid)
    else .error .wkbcommon_ErrIncorrectGeometry

/-- Modelled from the spec: `ScanCollection` is not among the sources. Section
4.4 step 7: the exact kind or "incorrect geometry for destination". -/
def ScanCollection (data : List Nat) : Except Err (List Geometry × Int) :=
  match unmarshalByteOrderType data with
  | .error e => .error e
  | .ok (order, typ, srid, geomData) =>
    if typ = geometryCollectionType then
      match unmarshalCollectionWith (UnmarshalFuel data.length) order geomData with
      | .error e => .error e
      | .ok c => .ok (c, srid)
    else .error .wkbcommon_ErrIncorrectGeometry

end wkbcommon

/-! ## Package `ewkb`: wkb.go -/

namespace ewkb

open orb

/-- `mapCommonError` (wkb.go): the lookup in `commonErrorMap`; an error that is
not a key of the map is returned unchanged. -/
def mapCommonError (err : Err) : Err :=
  match err with
  | .wkbcommon_ErrUnsupportedDataType => .ErrUnsupportedDataType
  | .wkbcommon_ErrNotWKB => .ErrNotEWKB
  | .wkbcommon_ErrIncorrectGeometry => .ErrIncorrectGeometry
  | .wkbcommon_ErrUnsupportedGeometry => .ErrUnsupportedGeometry
  | e => e

/-- `DefaultByteOrder` (wkb.go). -/
def DefaultByteOrder : wkbcommon.byteOrder := .littleEndian

/-- `DefaultSRID` (wkb.go). -/
def DefaultSRID : Int := 4326

/-- `Marshal(geom, srid, byteOrder...)` (wkb.go): the encoder takes the default
byte order, then `srid`, then the first of the variadic byte orders if there is
one; an empty buffer is returned as nil. The encoder writes into a
`bytes.Buffer`, whose writes do not fail; a nil geometry writes nothing. -/
def Marshal (geom : Option Geometry) (srid : Int) (byteOrder : List wkbcommon.byteOrder) :
    Except Err (Option (List Nat)) :=
  let order := match byteOrder with
    | [] => DefaultByteOrder
    | o :: _ => o
  let buf := match geom with
    | none => []
    | some g => wkbcommon.Encode order g srid
  if buf.length = 0 then .ok none else .ok (some buf)

/-- `Unmarshal(data)` (wkb.go). -/
def Unmarshal (data : List Nat) : Except Err (Geometry × Int) :=
  match wkbcommon.Unmarshal data with
  | .error err => .error (mapCommonError err)
  | .ok (g, srid) => .ok (g, srid)

/-! ## Package `ewkb`: scanner.go -/

/-- `reverseHexTable` of `encoding/hex`: the value of a hexadecimal digit, and
255 for every other byte. -/
def reverseHexTable (c : Nat) : Nat :=
  if 48 ≤ c ∧ c ≤ 57 then c - 48
  else if 97 ≤ c ∧ c ≤ 102 then c - 87
  else if 65 ≤ c ∧ c ≤ 70 then c - 55
  else 255

/-- The loop of `hex.Decode(data, data[2:])` on the one buffer that `dst` and
`src` share: with `j = 2*i + 1`, `src[j-1]` and `src[j]` are `buf[2*i+2]` and
`buf[2*i+3]`, and `dst[i]` is `buf[i]`. The first argument counts the pairs
left. Returns the buffer, the number of bytes written and the error. -/
def hexDecodeLoop : Nat → Nat → List Nat → List Nat × Nat × Option Err
  | 0, i, buf => (buf, i, none)
  | pairs + 1, i, buf =>
    let p := buf.getD (2 * i + 2) 0
    let q := buf.getD (2 * i + 3) 0
    let a := reverseHexTable p
    let b := reverseHexTable q
    if a > 15 then (buf, i, some (.hex_InvalidByteError p))
    else if b > 15 then (buf, i, some (.hex_InvalidByteError q))
    else hexDecodeLoop pairs (i + 1) (buf.set i (a * 16 + b))

/-- `hex.Decode(data, data[2:])` for a buffer of more than 2 bytes: the loop
over the pairs, then for a source of odd length `InvalidByteError` of the last
character if it is no digit, and `ErrLength` otherwise. -/
def hexDecodeInPlace (data : List Nat) : List Nat × Nat × Option Err :=
  let srcLen := data.length - 2
  match hexDecodeLoop (srcLen / 2) 0 data with
  | (buf, i, some e) => (buf, i, some e)
  | (buf, i, none) =>
    if srcLen % 2 = 1 then
      if reverseHexTable (buf.getD (2 * i + 2) 0) > 15 then
        (buf, i, some (.hex_InvalidByteError (buf.getD (2 * i + 2) 0)))
      else (buf, i, some .hex_ErrLength)
    else (buf, i, none)

/-- Lines 87 to 96 of `Scan`: data that starts with the two characters
backslash and x is hex-decoded in place and cut to the decoded length; a hex
error is wrapped by `fmt.Errorf`. Other data is left as it is. -/
def hexStage (data : List Nat) : Except Err (List Nat) :=
  if data.length > 2 ∧ data.getD 0 0 = 92 ∧ data.getD 1 0 = 120 then
    match hexDecodeInPlace data with
    | (_, _, some err) => .error (.fmt_Errorf "thought the data was hex, but it is not: %v" err)
    | (buf, n, none) => .ok (buf.take n)
  else .ok data

/-- The value of the `Geometry` attribute of a scanner, an `orb.Geometry`: one
of the seven wire kinds, a Ring or a Bound. -/
inductive ScannedGeometry
  | geometry (g : Geometry)
  | ring (r : Ring)
  | bound (b : Bound)

/-- The destination `g interface{}` of a scanner: nil, a pointer to a value of
one of the nine types of the type switch together with the value it points
to, or any other non-nil value. -/
inductive Destination
  | nil
  | Point (v : Point)
  | MultiPoint (v : MultiPoint)
  | LineString (v : LineString)
  | MultiLineString (v : MultiLineString)
  | Ring (v : Ring)
  | Polygon (v : Polygon)
  | MultiPolygon (v : MultiPolygon)
  | Collection (v : List Geometry)
  | Bound (v : Bound)
  | other

/-- `GeometryScanner` (scanner.go). -/
structure GeometryScanner where
  g : Destination
  SRID : Int
  Geometry : Option ScannedGeometry
  Valid : Bool

/-- `Scanner(g)` (scanner.go). -/
def Scanner (g : Destination) : GeometryScanner :=
  { g := g, SRID := 0, Geometry := none, Valid := false }

/-- The argument `d interface{}` of `Scan`: nil, a `[]byte` (itself nil or
not), or a value of another type. -/
inductive ScanInput
  | nil
  | bytes (data : Option (List Nat))
  | other

/-- The end of every successful case of the type switch of `Scan`: the value
written through the destination pointer, the identifier, the Geometry
attribute, and Valid. -/
def scanned (s : GeometryScanner) (g : Destination) (srid : Int) (v : ScannedGeometry) :
    Option Err × GeometryScanner :=
  (none, { s with g := g, SRID := srid, Geometry := some v, Valid := true })

/-- `GeometryScanner.Scan(d)` (scanner.go): the error returned and the scanner
after the call. `Bound` is the method `orb.Geometry.Bound`, which is outside
the codec. -/
def Scan (Bound : Geometry → Bound) (s : GeometryScanner) (d : ScanInput) :
    Option Err × GeometryScanner :=
  let s := { s with Geometry := none, Valid := false }
  match d with
  | .nil => (none, s)
  | .other => (some .ErrUnsupportedDataType, s)
  | .bytes none => (none, s)
  | .bytes (some data) =>
    match hexStage data with
    | .error err => (some err, s)
    | .ok data =>
      match s.g with
      | .nil =>
        match Unmarshal data with
        | .error err => (some err, s)
        | .ok (m, srid) => scanned s .nil srid (.geometry m)
      | .Point _ =>
        match wkbcommon.ScanPoint data with
        | .error err => (some (mapCommonError err), s)
        | .ok (p, srid) => scanned s (.Point p) srid (.geometry (.point p))
      | .MultiPoint _ =>
        match wkbcommon.ScanMultiPoint data with
        | .error err => (some (mapCommonError err), s)
        | .ok (m, srid) => scanned s (.MultiPoint m) srid (.geometry (.multiPoint m))
      | .LineString _ =>
        match wkbcommon.ScanLineString data with
        | .error err => (some (mapCommonError err), s)
        | .ok (l, srid) => scanned s (.LineString l) srid (.geometry (.lineString l))
      | .MultiLineString _ =>
        match wkbcommon.ScanMultiLineString data with
        | .error err => (some (mapCommonError err), s)
        | .ok (m, srid) => scanned s (.MultiLineString m) srid (.geometry (.multiLineString m))
      | .Ring _ =>
        match Unmarshal data with
        | .error err => (some err, s)
        | .ok (m, srid) =>
          match m with
          | .polygon [r] => scanned s (.Ring r) srid (.ring r)
          | _ => (some .ErrIncorrectGeometry, s)
      | .Polygon _ =>
        match wkbcommon.ScanPolygon data with
        | .error err => (some (mapCommonError err), s)
        | .ok (p, srid) => scanned s (.Polygon p) srid (.geometry (.polygon p))
      | .MultiPolygon _ =>
        match wkbcommon.ScanMultiPolygon data with
        | .error err => (some (mapCommonError err), s)
        | .ok (m, srid) => scanned s (.MultiPolygon m) srid (.geometry (.multiPolygon m))
      | .Collection _ =>
        match wkbcommon.ScanCollection data with
        | .error err => (some (mapCommonError err), s)
        | .ok (c, srid) => scanned s (.Collection c) srid (.geometry (.collection c))
      | .Bound _ =>
        match Unmarshal data with
        | .error err => (some err, s)
        | .ok (m, srid) => scanned s (.Bound (Bound m)) srid (.bound (Bound m))
      | .other => (some .ErrIncorrectGeometry, s)

end ewkb

/-! ## Vocabulary of the statements -/

namespace orb

/-- Both coordinates of a point are 64-bit patterns. -/
def Point.WF (p : Point) : Prop := p.x < 2 ^ 64 ∧ p.y < 2 ^ 64

/-- A point sequence whose length fits the uint32 count field and whose
coordinates are 64-bit patterns. -/
def pointsWF (ps : List Point) : Prop := ps.length < 2 ^ 32 ∧ ∀ p ∈ ps, p.WF

/-- A sequence of point sequences, each fitting the wire, whose own length
fits the uint32 count field. -/
def ringsWF (rs : List (List Point)) : Prop := rs.length < 2 ^ 32 ∧ ∀ r ∈ rs, pointsWF r

mutual
/-- A geometry fits the wire: every sequence in it has fewer than `2^32`
elements, the range of the uint32 count field, and every coordinate is a
64-bit pattern. -/
def Geometry.WF : Geometry → Prop
  | .point p => p.WF
  | .multiPoint mp => pointsWF mp
  | .lineString ls => pointsWF ls
  | .multiLineString mls => ringsWF mls
  | .polygon p => ringsWF p
  | .multiPolygon mp => mp.length < 2 ^ 32 ∧ ∀ p ∈ mp, ringsWF p
  | .collection c => c.length < 2 ^ 32 ∧ Geometry.WFAll c
/-- Every geometry of a sequence fits the wire. -/
def Geometry.WFAll : List Geometry → Prop
  | [] => True
  | g :: gs => Geometry.WF g ∧ Geometry.WFAll gs
end

end orb

namespace wkbcommon

/-- The identifier as the wire carries it: the low 32 bits of the uint32
conversion (0 stays 0). -/
def wireSRID (srid : Int) : Int := Int.ofNat (srid % 2 ^ 32).toNat

end wkbcommon

namespace ewkb

/-- The hexadecimal digit of a value below 16, as a character code: `0`..`9`,
then `A`..`F` if `upper` and `a`..`f` otherwise. -/
def hexDigit (upper : Bool) (n : Nat) : Nat :=
  if n < 10 then 48 + n else if upper then 55 + n else 87 + n

/-- The hexadecimal text of a byte sequence, two digits per byte, high digit
first; `cases` chooses the case of each digit (lower case once it runs out). -/
def hexText : List (Bool × Bool) → List Nat → List Nat
  | _, [] => []
  | [], b :: bs => hexDigit false (b / 16) :: hexDigit false (b % 16) :: hexText [] bs
  | (u, v) :: cs, b :: bs => hexDigit u (b / 16) :: hexDigit v (b % 16) :: hexText cs bs

end ewkb

namespace wkbcommon

open orb

/-- The wire type code of the kind of a geometry. -/
def typeCode : Geometry → Nat
  | .point _ => pointType
  | .lineString _ => lineStringType
  | .polygon _ => polygonType
  | .multiPoint _ => multiPointType
  | .multiLineString _ => multiLineStringType
  | .multiPolygon _ => multiPolygonType
  | .collection _ => geometryCollectionType

/-- The bytes `Encode` writes after the header of a geometry. -/
def payload (order : byteOrder) : Geometry → List Nat
  | .point p => putPoint order p
  | .multiPoint mp => putUint order 4 (mp.length % 2 ^ 32) ++ writePoints order mp
  | .lineString ls => putUint order 4 (ls.length % 2 ^ 32) ++ putPoints order ls
  | .multiLineString mls => putUint order 4 (mls.length % 2 ^ 32) ++ writeLineStrings order mls
  | .polygon p => putUint order 4 (p.length % 2 ^ 32) ++ writeRings order p
  | .multiPolygon mp => putUint order 4 (mp.length % 2 ^ 32) ++ writePolygons order mp
  | .collection c => putUint order 4 (c.length % 2 ^ 32) ++ EncodeAll order c

end wkbcommon

namespace ewkb

open orb

/-- The pairs of destination and encoded geometry that `Scan` takes: the
geometry of the destination's own kind, a Point for a MultiPoint, a Polygon of
exactly one ring for a Ring, every geometry for a Bound and for no
destination; nothing for a destination the type switch does not know. -/
def accepts : Destination → Geometry → Bool
  | .nil, _ => true
  | .Bound _, _ => true
  | .Point _, .point _ => true
  | .MultiPoint _, .point _ => true
  | .MultiPoint _, .multiPoint _ => true
  | .LineString _, .lineString _ => true
  | .MultiLineString _, .multiLineString _ => true
  | .Ring _, .polygon [_] => true
  | .Polygon _, .polygon _ => true
  | .MultiPolygon _, .multiPolygon _ => true
  | .Collection _, .collection _ => true
  | _, _ => false

end ewkb

/-! ## Stream decoder (package `wkbcommon`)

The reader is an in-memory byte reader such as `bytes.NewReader(b)`: its state
is the list of bytes not yet read. A stream function returns its result and
the state of the reader after the call, also when it fails. -/

namespace wkbcommon

open orb

/-- `io.ReadFull(r, buf)` with `len(buf) = n`: the next `n` bytes; `io.EOF` if
the reader is at its end, `io.ErrUnexpectedEOF` if fewer than `n` bytes are
left, which are then consumed. -/
def readFull (n : Nat) (r : List Nat) : Except Err (List Nat) × List Nat :=
  if n ≤ r.length then (.ok (r.take n), r.drop n)
  else if r.length = 0 then (.error .io_EOF, r)
  else (.error .io_ErrUnexpectedEOF, [])

/-- Modelled from the spec: `readUint32` is not among the sources. Section 4.1:
a uint32 in the byte order, read into the scratch buffer; truncated input
fails. -/
def readUint32 (r : List Nat) (order : byteOrder) : Except Err Nat × List Nat :=
  match readFull 4 r with
  | (.error e, r) => (.error e, r)
  | (.ok bs, r) => (.ok (getUint order bs), r)

/-- A float64 in the byte order, as its bit pattern (section 4.1). -/
def readFloat64 (r : List Nat) (order : byteOrder) : Except Err Nat × List Nat :=
  match readFull 8 r with
  | (.error e, r) => (.error e, r)
  | (.ok bs, r) => (.ok (getUint order bs), r)

/-- Modelled from the spec: `readPoint` is not among the sources. Section 4.4
step 3: two floats. -/
def readPoint (r : List Nat) (order : byteOrder) : Except Err Point × List Nat :=
  match readFloat64 r order with
  | (.error e, r) => (.error e, r)
  | (.ok x, r) =>
    match readFloat64 r order with
    | (.error e, r) => (.error e, r)
    | (.ok y, r) => (.ok ⟨x, y⟩, r)

/-- Modelled from the spec: `readByteOrderType` is not among the sources.
Section 4.4 step 1: the order marker, which must be 0 or 1, else "not valid
wire format"; the uint32 type code, split into the kind and the identifier
flag; if the flag is set the 4-byte identifier is read. The caller receives
the order and the kind; the identifier is not returned. -/
def readByteOrderType (r : List Nat) : Except Err (byteOrder × Nat) × List Nat :=
  match readFull 1 r with
  | (.error e, r) => (.error e, r)
  | (.ok bs, r) =>
    match orderOfMarker (bs.getD 0 0) with
    | none => (.error .wkbcommon_ErrNotWKB, r)
    | some order =>
      match readUint32 r order with
      | (.error e, r) => (.error e, r)
      | (.ok typ, r) =>
        if typ / ewkbType % 2 = 1 then
          match readUint32 r order with
          | (.error e, r) => (.error e, r)
          | (.ok _, r) => (.ok (order, typ - ewkbType), r)
        else (.ok (order, typ), r)

/-- The loop `for i := 0; i < int(num); i++` of the stream readers: read one
element, return its error if that fails, append the element to the result. -/
def readElements {α : Type} (readOne : List Nat → Except Err α × List Nat) :
    Nat → List Nat → List α → Except Err (List α) × List Nat
  | 0, r, result => (.ok result, r)
  | n + 1, r, result =>
    match readOne r with
    | (.error e, r) => (.error e, r)
    | (.ok a, r) => readElements readOne n r (result ++ [a])

/-- The capacity `alloc` of the result of `readLineString` (lines 26 to 31 of
line_string.go). -/
def readLineStringAlloc (num : Nat) : Nat :=
  if num > maxPointsAlloc then maxPointsAlloc else num

/-- `readLineString` (line_string.go): the count, then `num` times `readPoint`,
returning its error at once. The capacity of the result, `readLineStringAlloc`,
has no effect on the value. -/
def readLineString (r : List Nat) (order : byteOrder) : Except Err LineString × List Nat :=
  match readUint32 r order with
  | (.error e, r) => (.error e, r)
  | (.ok num, r) => readElements (fun r => readPoint r order) num r []

/-- The body of the loop of `readMultiLineString` (lines 104 to 116 of
line_string.go): the header of the element, the check of its type, then
`readLineString` in the byte order of the element. -/
def readMultiLineStringElement (r : List Nat) : Except Err LineString × List Nat :=
  match readByteOrderType r with
  | (.error e, r) => (.error e, r)
  | (.ok (lOrder, typ), r) =>
    if typ ≠ lineStringType then
      (.error (.errors_New "expect multilines to contains lines, did not find a line"), r)
    else readLineString r lOrder

/-- `readMultiLineString` (line_string.go). -/
def readMultiLineString (r : List Nat) (order : byteOrder) :
    Except Err MultiLineString × List Nat :=
  match readUint32 r order with
  | (.error e, r) => (.error e, r)
  | (.ok num, r) => readElements readMultiLineStringElement num r []

/-- The body of the loop of `readMultiPoint`, modelled on that of
`readMultiLineString`: the header of the element, the check of its type, then
`readPoint`. -/
def readMultiPointElement (r : List Nat) : Except Err Point × List Nat :=
  match readByteOrderType r with
  | (.error e, r) => (.error e, r)
  | (.ok (pOrder, typ), r) =>
    if typ ≠ pointType then
      (.error (.errors_New "expect multipoint to contains points, did not find a point"), r)
    else readPoint r pOrder

/-- Modelled from the spec: `readMultiPoint` is not among the sources. Section
4.4 steps 4 and 6: the count, then per element a header and a Point. -/
def readMultiPoint (r : List Nat) (order : byteOrder) : Except Err MultiPoint × List Nat :=
  match readUint32 r order with
  | (.error e, r) => (.error e, r)
  | (.ok num, r) => readElements readMultiPointElement num r []

/-- Modelled from the spec: `readPolygon` is not among the sources. Section 4.4
step 5: the ring count, then per ring a nested point-sequence read. -/
def readPolygon (r : List Nat) (order : byteOrder) : Except Err Polygon × List Nat :=
  match readUint32 r order with
  | (.error e, r) => (.error e, r)
  | (.ok num, r) => readElements (fun r => readLineString r order) num r []

/-- The body of the loop of `readMultiPolygon`, modelled on that of
`readMultiLineString`. -/
def readMultiPolygonElement (r : List Nat) : Except Err Polygon × List Nat :=
  match readByteOrderType r with
  | (.error e, r) => (.error e, r)
  | (.ok (pOrder, typ), r) =>
    if typ ≠ polygonType then
      (.error (.errors_New "expect multipolygons to contains polygons, did not find a polygon"), r)
    else readPolygon r pOrder

/-- Modelled from the spec: `readMultiPolygon` is not among the sources. Section
4.4 step 6: the count, then per element a header and a Polygon. -/
def readMultiPolygon (r : List Nat) (order : byteOrder) : Except Err MultiPolygon × List Nat :=
  match readUint32 r order with
  | (.error e, r) => (.error e, r)
  | (.ok num, r) => readElements readMultiPolygonElement num r []

/-- Modelled from the spec: `Decoder.Decode` of wkbcommon is not among the
sources. Section 4.4 steps 1, 2 and 6: the header, the reader of the kind, a
Collection reading each element by a full recursive decode; a kind outside
1..7 is "unsupported geometry kind". The first argument bounds the nesting
depth; with none left the reader is at its end. -/
def DecodeFuel : Nat → List Nat → Except Err Geometry × List Nat
  | 0, r => (.error .io_EOF, r)
  | fuel + 1, r =>
    match readByteOrderType r with
    | (.error e, r) => (.error e, r)
    | (.ok (order, typ), r) =>
      if typ = pointType then
        match readPoint r order with
        | (.error e, r) => (.error e, r)
        | (.ok p, r) => (.ok (.point p), r)
      else if typ = lineStringType then
        match readLineString r order with
        | (.error e, r) => (.error e, r)
        | (.ok ls, r) => (.ok (.lineString ls), r)
      else if typ = polygonType then
        match readPolygon r order with
        | (.error e, r) => (.error e, r)
        | (.ok p, r) => (.ok (.polygon p), r)
      else if typ = multiPointType then
        match readMultiPoint r order with
        | (.error e, r) => (.error e, r)
        | (.ok mp, r) => (.ok (.multiPoint mp), r)
      else if typ = multiLineStringType then
        match readMultiLineString r order with
        | (.error e, r) => (.error e, r)
        | (.ok mls, r) => (.ok (.multiLineString mls), r)
      else if typ = multiPolygonType then
        match readMultiPolygon r order with
        | (.error e, r) => (.error e, r)
        | (.ok mp, r) => (.ok (.multiPolygon mp), r)
      else if typ = geometryCollectionType then
        match readUint32 r order with
        | (.error e, r) => (.error e, r)
        | (.ok num, r) =>
          match readElements (DecodeFuel fuel) num r [] with
          | (.error e, r) => (.error e, r)
          | (.ok c, r) => (.ok (.collection c), r)
      else (.error .wkbcommon_ErrUnsupportedGeometry, r)

/-- `Decoder.Decode()` of wkbcommon on a reader: every nesting level consumes
at least its header, so the bytes left bound the depth. -/
def Decode (r : List Nat) : Except Err Geometry × List Nat :=
  DecodeFuel r.length r

end wkbcommon

namespace ewkb

open orb

/-- `Decoder.Decode()` (wkb.go): the geometry, the identifier and the error
returned, and the reader after the call. -/
def Decode (r : List Nat) : (Option Geometry × Int × Option Err) × List Nat :=
  match wkbcommon.Decode r with
  | (.error err, r) => ((none, 0, some (mapCommonError err)), r)
  | (.ok g, r) => ((some g, 0, none), r)

/-- A call on the `Encoder` that `Marshal` creates. -/
inductive EncoderCall
  | NewEncoder
  | SetSRID (srid : Int)
  | SetByteOrder (bo : wkbcommon.byteOrder)
  | Encode (geom : Option Geometry)

/-- The calls `Marshal` makes on its encoder, in order (lines 103 to 110 of
wkb.go): `NewEncoder`, `SetSRID`, `SetByteOrder` if a byte order is given,
and `Encode(geom)`, whatever `geom` is. -/
def MarshalCalls (geom : Option Geometry) (srid : Int) (byteOrder : List wkbcommon.byteOrder) :
    List EncoderCall :=
  [.NewEncoder, .SetSRID srid]
    ++ (match byteOrder with
        | [] => []
        | bo :: _ => [.SetByteOrder bo])
    ++ [.Encode geom]

/-- The `value` of scanner.go. -/
structure value where
  srid : Int
  v : Option Geometry

/-- `Value(g, srid)` (scanner.go). -/
def Value (g : Option Geometry) (srid : Int) : value :=
  { srid := srid, v := g }

/-- `value.Value()` (scanner.go): the driver value, nil or a byte slice, and
the error. -/
def value.Value (v : value) : Option (List Nat) × Option Err :=
  match Marshal v.v v.srid [] with
  | .error err => (none, some err)
  | .ok none => (none, none)
  | .ok (some val) => (some val, none)

/-- The calls on the encoder during `value.Value()`: those of the one call of
`Marshal` at line 231 of scanner.go. -/
def value.ValueCalls (v : value) : List EncoderCall :=
  MarshalCalls v.v v.srid []

/-- A well-formed hex string: an even number of characters, each a
hexadecimal digit. -/
def hexWellFormed (src : List Nat) : Prop :=
  src.length % 2 = 0 ∧ ∀ c ∈ src, reverseHexTable c ≤ 15

end ewkb

namespace wkbcommon

/-- The payloads on which the two MultiLineString decoders are compared. Each
of the `n` elements the decoders reach starts with an order marker 0 or 1 and
has a type code that carries no identifier flag and is not that of a
MultiLineString. The walk follows the elements as both decoders do; an element
that is not a LineString, or that is cut short, ends it. -/
def plainElements : Nat → List Nat → Bool
  | 0, _ => true
  | _ + 1, [] => true
  | n + 1, b :: rest =>
    match orderOfMarker b with
    | none => false
    | some order =>
      if rest.length < 4 then true
      else if unmarshalUint32 order rest / ewkbType % 2 = 1 then false
      else if unmarshalUint32 order rest = multiLineStringType then false
      else if unmarshalUint32 order rest ≠ lineStringType then true
      else if (rest.drop 4).length < 4 then true
      else if (rest.drop 8).length < 16 * unmarshalUint32 order (rest.drop 4) then true
      else plainElements n (rest.drop (8 + 16 * unmarshalUint32 order (rest.drop 4)))

end wkbcommon

/-- The four sentinel errors of package `wkbcommon`, the keys of
`commonErrorMap` (wkb.go). -/
def Err.isCommonSentinel : Err → Bool
  | .wkbcommon_ErrUnsupportedDataType => true
  | .wkbcommon_ErrNotWKB => true
  | .wkbcommon_ErrIncorrectGeometry => true
  | .wkbcommon_ErrUnsupportedGeometry => true
  | _ => false

namespace ewkb

open orb

/-- The three values `Unmarshal(data)` returns (lines 153 to 160 of wkb.go):
the geometry, the identifier and the error; on failure `nil, 0` and the mapped
error. -/
def UnmarshalValues (data : List Nat) : Option Geometry × Int × Option Err :=
  match wkbcommon.Unmarshal data with
  | .error err => (none, 0, some (mapCommonError err))
  | .ok (g, srid) => (some g, srid, none)

/-- A call by which `Scan` hands the data to a decoder. -/
inductive DecoderCall
  | Unmarshal (data : List Nat)
  | ScanPoint (data : List Nat)
  | ScanMultiPoint (data : List Nat)
  | ScanLineString (data : List Nat)
  | ScanMultiLineString (data : List Nat)
  | ScanPolygon (data : List Nat)
  | ScanMultiPolygon (data : List Nat)
  | ScanCollection (data : List Nat)
deriving DecidableEq

/-- The decoder calls of `GeometryScanner.Scan(d)` (scanner.go): none on the
early returns of lines 74 to 94; then the one call of the case the type switch
takes; none when no case matches and line 215 is reached. -/
def ScanCalls (s : GeometryScanner) (d : ScanInput) : List DecoderCall :=
  match d with
  | .nil => []
  | .other => []
  | .bytes none => []
  | .bytes (some data) =>
    match hexStage data with
    | .error _ => []
    | .ok data =>
      match s.g with
      | .nil => [.Unmarshal data]
      | .Point _ => [.ScanPoint data]
      | .MultiPoint _ => [.ScanMultiPoint data]
      | .LineString _ => [.ScanLineString data]
      | .MultiLineString _ => [.ScanMultiLineString data]
      | .Ring _ => [.Unmarshal data]
      | .Polygon _ => [.ScanPolygon data]
      | .MultiPolygon _ => [.ScanMultiPolygon data]
      | .Collection _ => [.ScanCollection data]
      | .Bound _ => [.Unmarshal data]
      | .other => []

end ewkb

/-! # Properties -/

/-! ## Wire primitives: encode then decode -/

namespace wkbcommon

open orb

theorem leBytes_length (w v : Nat) : (leBytes w v).length = w := by
  induction w generalizing v with
  | zero => rfl
  | succ n ih => simp [leBytes, ih]

theorem leValue_leBytes (w v : Nat) : leValue (leBytes w v) = v % 256 ^ w := by
  induction w generalizing v with
  | zero => simp [leBytes, leValue, Nat.mod_one]
  | succ n ih => rw [leBytes, leValue, ih, pow_succ', Nat.mod_mul]

theorem putUint_length (order : byteOrder) (w v : Nat) : (putUint order w v).length = w := by
  cases order <;> simp [putUint, leBytes_length]

theorem getUint_putUint (order : byteOrder) (w v : Nat) :
    getUint order (putUint order w v) = v % 256 ^ w := by
  cases order <;> simp [getUint, putUint, leValue_leBytes]

theorem take_putUint_append (order : byteOrder) (w v : Nat) (rest : List Nat) :
    (putUint order w v ++ rest).take w = putUint order w v := by
  rw [List.take_append_of_le_length (by rw [putUint_length])]
  exact List.take_of_length_le (by rw [putUint_length])

theorem drop_putUint_append (order : byteOrder) (w v : Nat) (rest : List Nat) :
    (putUint order w v ++ rest).drop w = rest := by
  have h := putUint_length order w v
  rw [List.drop_append_of_le_length (by omega), List.drop_of_length_le (by omega)]
  rfl

theorem unmarshalUint32_putUint (order : byteOrder) (v : Nat) (rest : List Nat) :
    unmarshalUint32 order (putUint order 4 v ++ rest) = v % 2 ^ 32 := by
  simp [unmarshalUint32, take_putUint_append, getUint_putUint]

end wkbcommon

/-! ## Headers -/

namespace wkbcommon

open orb

theorem orderOfMarker_marker (order : byteOrder) : orderOfMarker order.marker = some order := by
  cases order <;> rfl

theorem writeHeader_length (order : byteOrder) (t : Nat) (srid : Int) :
    (writeHeader order t srid).length = if srid = 0 then 5 else 9 := by
  unfold writeHeader
  split <;> simp [putUint_length]

theorem byteOrderType_writeHeader (order : byteOrder) (t : Nat) (srid : Int) (rest : List Nat)
    (h1 : 1 ≤ t) (h7 : t ≤ 7) :
    byteOrderType (writeHeader order t srid ++ rest) = .ok (order, t, wireSRID srid, rest) := by
  unfold writeHeader
  by_cases hs : srid = 0
  · subst hs
    have hlen : ¬ (putUint order 4 t ++ rest).length < 4 := by
      simp [putUint_length]
    have ht : t % 2 ^ 32 = t := Nat.mod_eq_of_lt (by omega)
    have hflag : ¬ (t / ewkbType % 2 = 1) := by
      have : t / ewkbType = 0 := Nat.div_eq_of_lt (by unfold ewkbType; omega)
      simp [this]
    have hk : ¬ (t < 1 ∨ 7 < t) := by omega
    simp only [if_true, List.cons_append, byteOrderType, orderOfMarker_marker, hlen, if_false,
      unmarshalUint32_putUint, ht, hflag, hk, drop_putUint_append]
    simp [wireSRID]
  · have ht : (t + ewkbType) % 2 ^ 32 = t + ewkbType :=
      Nat.mod_eq_of_lt (by unfold ewkbType; omega)
    have hflag : (t + ewkbType) / ewkbType % 2 = 1 := by
      have : (t + ewkbType) / ewkbType = 1 := by unfold ewkbType; omega
      simp [this]
    have hsub : t + ewkbType - ewkbType = t := by omega
    have hk : ¬ (t < 1 ∨ 7 < t) := by omega
    have hlen2 : ¬ (putUint order 4 (srid % 2 ^ 32).toNat ++ rest).length < 4 := by
      simp [putUint_length]
    have hsr : (srid % 2 ^ 32).toNat % 2 ^ 32 = (srid % 2 ^ 32).toNat := by
      apply Nat.mod_eq_of_lt
      have := Int.emod_lt_of_pos srid (show (0 : Int) < 2 ^ 32 by norm_num)
      have := Int.emod_nonneg srid (show (2 ^ 32 : Int) ≠ 0 by norm_num)
      omega
    have hd8 : List.drop 8 (putUint order 4 (t + ewkbType)
        ++ (putUint order 4 (srid % 2 ^ 32).toNat ++ rest)) = rest := by
      have : (8 : Nat) = 4 + 4 := rfl
      rw [this, ← List.drop_drop, drop_putUint_append, drop_putUint_append]
    have hlen' : ¬ (putUint order 4 (t + ewkbType)
        ++ (putUint order 4 (srid % 2 ^ 32).toNat ++ rest)).length < 4 := by
      simp [putUint_length]
    simp only [hs, if_false, List.cons_append, List.append_assoc, byteOrderType,
      orderOfMarker_marker, unmarshalUint32_putUint, ht, hflag, hsub, hk, if_true,
      drop_putUint_append, hsr, hd8, hlen', hlen2]
    rfl

theorem byteOrderType_length {buf rest : List Nat} {order : byteOrder} {typ : Nat} {srid : Int}
    (h : byteOrderType buf = .ok (order, typ, srid, rest)) : rest.length + 5 ≤ buf.length := by
  cases buf with
  | nil => cases h
  | cons b tl =>
    simp only [byteOrderType] at h
    cases hb : orderOfMarker b with
    | none => rw [hb] at h; cases h
    | some o =>
      rw [hb] at h
      simp only at h
      by_cases hl : tl.length < 4
      · rw [if_pos hl] at h; cases h
      · rw [if_neg hl] at h
        by_cases hf : unmarshalUint32 o tl / ewkbType % 2 = 1
        · rw [if_pos hf] at h
          by_cases hk : unmarshalUint32 o tl - ewkbType < 1 ∨ 7 < unmarshalUint32 o tl - ewkbType
          · rw [if_pos hk] at h; cases h
          · rw [if_neg hk] at h
            by_cases hl2 : (tl.drop 4).length < 4
            · rw [if_pos hl2] at h; cases h
            · rw [if_neg hl2] at h
              injection h with h
              simp only [Prod.mk.injEq] at h
              obtain ⟨_, _, _, rfl⟩ := h
              simp only [List.length_drop, List.length_cons] at hl2 ⊢
              omega
        · rw [if_neg hf] at h
          by_cases hk : unmarshalUint32 o tl < 1 ∨ 7 < unmarshalUint32 o tl
          · rw [if_pos hk] at h; cases h
          · rw [if_neg hk] at h
            injection h with h
            simp only [Prod.mk.injEq] at h
            obtain ⟨_, _, _, rfl⟩ := h
            simp only [List.length_drop, List.length_cons]
            omega

theorem unmarshalByteOrderType_of_ok {buf : List Nat} {r : byteOrder × Nat × Int × List Nat}
    (h : byteOrderType buf = .ok r) : unmarshalByteOrderType buf = .ok r := by
  simp [unmarshalByteOrderType, h]

theorem unmarshalByteOrderType_nil : unmarshalByteOrderType [] = .error .wkbcommon_ErrNotWKB := rfl

theorem unmarshalByteOrderType_length {buf rest : List Nat} {order : byteOrder} {typ : Nat}
    {srid : Int} (h : unmarshalByteOrderType buf = .ok (order, typ, srid, rest)) :
    rest.length + 5 ≤ buf.length := by
  unfold unmarshalByteOrderType at h
  split at h
  · rename_i r hr
    injection h with h
    subst h
    exact byteOrderType_length hr
  · split at h
    · cases h
    · split at h
      · cases h
      · split at h
        · rename_i r hr
          injection h with h
          subst h
          have := byteOrderType_length hr
          simp only [List.length_drop, List.length_cons] at this ⊢
          omega
        · cases h

theorem unmarshalByteOrderType_writeHeader (order : byteOrder) (t : Nat) (srid : Int)
    (rest : List Nat) (h1 : 1 ≤ t) (h7 : t ≤ 7) :
    unmarshalByteOrderType (writeHeader order t srid ++ rest)
      = .ok (order, t, wireSRID srid, rest) :=
  unmarshalByteOrderType_of_ok (byteOrderType_writeHeader order t srid rest h1 h7)

end wkbcommon

/-! ## Payloads: encode then decode -/

namespace wkbcommon

open orb

theorem putPoint_length (order : byteOrder) (p : Point) : (putPoint order p).length = 16 := by
  simp [putPoint, putUint_length]

theorem putPoints_length (order : byteOrder) (ps : List Point) :
    (putPoints order ps).length = 16 * ps.length := by
  induction ps with
  | nil => rfl
  | cons p ps ih => simp [putPoints, putPoint_length, ih]; omega

theorem unmarshalPoint_putPoint (order : byteOrder) (p : Point) (rest : List Nat) (hp : p.WF) :
    unmarshalPoint order (putPoint order p ++ rest) = .ok p := by
  obtain ⟨hx, hy⟩ := hp
  have hlen : ¬ (putPoint order p ++ rest).length < 16 := by
    simp [putPoint_length]
  have h1 : (putPoint order p ++ rest).take 8 = putUint order 8 (p.x % 2 ^ 64) := by
    simp only [putPoint, List.append_assoc]
    exact take_putUint_append order 8 _ _
  have h2 : ((putPoint order p ++ rest).drop 8).take 8 = putUint order 8 (p.y % 2 ^ 64) := by
    simp only [putPoint, List.append_assoc]
    rw [drop_putUint_append]
    exact take_putUint_append order 8 _ _
  have e1 : p.x % 2 ^ 64 % 256 ^ 8 = p.x := by
    rw [Nat.mod_eq_of_lt hx]; exact Nat.mod_eq_of_lt (by norm_num; omega)
  have e2 : p.y % 2 ^ 64 % 256 ^ 8 = p.y := by
    rw [Nat.mod_eq_of_lt hy]; exact Nat.mod_eq_of_lt (by norm_num; omega)
  simp only [unmarshalPoint, hlen, if_false, h1, h2, getUint_putUint, e1, e2]

theorem drop_putPoint_append (order : byteOrder) (p : Point) (rest : List Nat) :
    (putPoint order p ++ rest).drop 16 = rest := by
  have h := putPoint_length order p
  rw [List.drop_append_of_le_length (by omega), List.drop_of_length_le (by omega)]
  rfl

theorem unmarshalPointsLoop_putPoints (order : byteOrder) (ps : List Point) (rest : List Nat)
    (hps : ∀ p ∈ ps, p.WF) :
    unmarshalPointsLoop order ps.length (putPoints order ps ++ rest) = .ok ps := by
  induction ps with
  | nil => rfl
  | cons p ps ih =>
    have hp : p.WF := hps p (List.mem_cons_self _ _)
    have ih' := ih (fun q hq => hps q (List.mem_cons_of_mem _ hq))
    simp only [List.length_cons, unmarshalPointsLoop, putPoints, List.append_assoc,
      unmarshalPoint_putPoint order p _ hp, drop_putPoint_append, ih']

theorem unmarshalPoints_putPoints (order : byteOrder) (ps : List Point) (rest : List Nat)
    (hps : pointsWF ps) :
    unmarshalPoints order (putUint order 4 (ps.length % 2 ^ 32) ++ putPoints order ps ++ rest)
      = .ok ps := by
  obtain ⟨hl, hps⟩ := hps
  have hlen : ¬ (putUint order 4 (ps.length % 2 ^ 32)
      ++ (putPoints order ps ++ rest)).length < 4 := by
    simp [putUint_length]
  have hm : ps.length % 2 ^ 32 % 2 ^ 32 = ps.length := by
    rw [Nat.mod_mod]; exact Nat.mod_eq_of_lt hl
  simp only [unmarshalPoints, List.append_assoc, hlen, if_false, unmarshalUint32_putUint, hm,
    drop_putUint_append]
  exact unmarshalPointsLoop_putPoints order ps rest hps

theorem unmarshalLineString_putPoints (order : byteOrder) (ps : List Point) (rest : List Nat)
    (hps : pointsWF ps) :
    unmarshalLineString order (putUint order 4 (ps.length % 2 ^ 32) ++ putPoints order ps ++ rest)
      = .ok ps := by
  simp only [unmarshalLineString, unmarshalPoints_putPoints order ps rest hps]

theorem writeRings_length (order : byteOrder) (rs : List Ring) :
    (writeRings order rs).length = ringsLength rs := by
  induction rs with
  | nil => rfl
  | cons r rs ih =>
    simp only [writeRings, ringsLength, List.length_append, putUint_length, putPoints_length, ih]

theorem unmarshalRingsLoop_writeRings (order : byteOrder) (rs : List Ring) (rest : List Nat)
    (hrs : ∀ r ∈ rs, pointsWF r) :
    unmarshalRingsLoop order rs.length (writeRings order rs ++ rest) = .ok rs := by
  induction rs with
  | nil => rfl
  | cons r rs ih =>
    have hr : pointsWF r := hrs r (List.mem_cons_self _ _)
    have ih' := ih (fun q hq => hrs q (List.mem_cons_of_mem _ hq))
    have hd : (putUint order 4 (r.length % 2 ^ 32) ++ (putPoints order r
        ++ (writeRings order rs ++ rest))).drop (4 + 16 * r.length) = writeRings order rs ++ rest := by
      rw [← List.drop_drop, drop_putUint_append]
      have h := putPoints_length order r
      rw [List.drop_append_of_le_length (by omega), List.drop_of_length_le (by omega)]
      rfl
    have hu := unmarshalPoints_putPoints order r (writeRings order rs ++ rest) hr
    simp only [List.append_assoc] at hu
    simp only [List.length_cons, unmarshalRingsLoop, writeRings, List.append_assoc, hu, hd, ih']

theorem unmarshalPolygon_writeRings (order : byteOrder) (rs : List Ring) (rest : List Nat)
    (hrs : ringsWF rs) :
    unmarshalPolygon order (putUint order 4 (rs.length % 2 ^ 32) ++ writeRings order rs ++ rest)
      = .ok rs := by
  obtain ⟨hl, hrs⟩ := hrs
  have hlen : ¬ (putUint order 4 (rs.length % 2 ^ 32)
      ++ (writeRings order rs ++ rest)).length < 4 := by
    simp [putUint_length]
  have hm : rs.length % 2 ^ 32 % 2 ^ 32 = rs.length := by
    rw [Nat.mod_mod]; exact Nat.mod_eq_of_lt hl
  simp only [unmarshalPolygon, List.append_assoc, hlen, if_false, unmarshalUint32_putUint, hm,
    drop_putUint_append]
  exact unmarshalRingsLoop_writeRings order rs rest hrs

/-- The element loop of the multi-kind decoders on the concatenated encodings
of a sequence: when every element scans back from the front of its own
encoding and `size` is the length of that encoding, the loop returns the
sequence appended to the accumulator. -/
theorem unmarshalElements_encoded {α : Type} (scan : List Nat → Except Err (α × Int))
    (size : α → Nat) (enc : α → List Nat) (L : Nat) (as : List α)
    (hscan : ∀ a ∈ as, ∀ rest : List Nat, (enc a ++ rest).length ≤ L →
      ∃ srid, scan (enc a ++ rest) = .ok (a, srid))
    (hsize : ∀ a ∈ as, (enc a).length = size a)
    (rest : List Nat) (acc : List α)
    (hL : ((as.map enc).flatten ++ rest).length ≤ L) :
    unmarshalElements scan size as.length ((as.map enc).flatten ++ rest) acc = .ok (acc ++ as) := by
  induction as generalizing acc with
  | nil => simp [unmarshalElements]
  | cons a as ih =>
    have hL' : (enc a ++ ((as.map enc).flatten ++ rest)).length ≤ L := by
      simpa [List.append_assoc] using hL
    obtain ⟨srid, hs⟩ := hscan a (List.mem_cons_self _ _) ((as.map enc).flatten ++ rest) hL'
    have hsz := hsize a (List.mem_cons_self _ _)
    have hslice : sliceFrom (enc a ++ ((as.map enc).flatten ++ rest)) (size a)
        = .ok ((as.map enc).flatten ++ rest) := by
      unfold sliceFrom
      rw [if_pos (by rw [List.length_append]; omega)]
      rw [List.drop_append_of_le_length (by omega), List.drop_of_length_le (by omega)]
      rfl
    have hL2 : ((as.map enc).flatten ++ rest).length ≤ L := by
      rw [List.length_append] at hL'; omega
    have ih' := ih (fun b hb => hscan b (List.mem_cons_of_mem _ hb))
      (fun b hb => hsize b (List.mem_cons_of_mem _ hb)) (acc ++ [a]) hL2
    simp only [List.map_cons, List.flatten_cons, List.append_assoc, List.length_cons,
      unmarshalElements, hs, hslice, ih', List.singleton_append]

end wkbcommon

/-! ## The nesting bound never cuts a decode short -/

namespace wkbcommon

open orb

theorem unmarshalElements_congr {α : Type} (scan1 scan2 : List Nat → Except Err (α × Int))
    (size : α → Nat) (L : Nat) (h : ∀ d : List Nat, d.length ≤ L → scan1 d = scan2 d)
    (n : Nat) (data : List Nat) (acc : List α) (hd : data.length ≤ L) :
    unmarshalElements scan1 size n data acc = unmarshalElements scan2 size n data acc := by
  induction n generalizing data acc with
  | zero => rfl
  | succ n ih =>
    simp only [unmarshalElements, h data hd]
    cases hs : scan2 data with
    | error e => rfl
    | ok r =>
      obtain ⟨a, srid⟩ := r
      simp only [sliceFrom]
      by_cases hk : size a ≤ data.length
      · simp only [if_pos hk]
        exact ih _ _ (by rw [List.length_drop]; omega)
      · simp only [if_neg hk]

theorem unmarshalMultiLineStringWith_congr (s1 s2 : List Nat → Except Err (LineString × Int))
    (order : byteOrder) (data : List Nat)
    (h : ∀ d : List Nat, d.length + 4 ≤ data.length → s1 d = s2 d) :
    unmarshalMultiLineStringWith s1 order data = unmarshalMultiLineStringWith s2 order data := by
  unfold unmarshalMultiLineStringWith
  by_cases hl : data.length < 4
  · simp only [if_pos hl]
  · simp only [if_neg hl]
    exact unmarshalElements_congr s1 s2 _ (data.length - 4) (fun d hd => h d (by omega)) _ _ _
      (by rw [List.length_drop])

theorem unmarshalMultiPointWith_congr (s1 s2 : List Nat → Except Err (Point × Int))
    (order : byteOrder) (data : List Nat)
    (h : ∀ d : List Nat, d.length + 4 ≤ data.length → s1 d = s2 d) :
    unmarshalMultiPointWith s1 order data = unmarshalMultiPointWith s2 order data := by
  unfold unmarshalMultiPointWith
  by_cases hl : data.length < 4
  · simp only [if_pos hl]
  · simp only [if_neg hl]
    exact unmarshalElements_congr s1 s2 _ (data.length - 4) (fun d hd => h d (by omega)) _ _ _
      (by rw [List.length_drop])

theorem unmarshalMultiPolygonWith_congr (s1 s2 : List Nat → Except Err (Polygon × Int))
    (order : byteOrder) (data : List Nat)
    (h : ∀ d : List Nat, d.length + 4 ≤ data.length → s1 d = s2 d) :
    unmarshalMultiPolygonWith s1 order data = unmarshalMultiPolygonWith s2 order data := by
  unfold unmarshalMultiPolygonWith
  by_cases hl : data.length < 4
  · simp only [if_pos hl]
  · simp only [if_neg hl]
    exact unmarshalElements_congr s1 s2 _ (data.length - 4) (fun d hd => h d (by omega)) _ _ _
      (by rw [List.length_drop])

theorem unmarshalCollectionWith_congr (s1 s2 : List Nat → Except Err (Geometry × Int))
    (order : byteOrder) (data : List Nat)
    (h : ∀ d : List Nat, d.length + 4 ≤ data.length → s1 d = s2 d) :
    unmarshalCollectionWith s1 order data = unmarshalCollectionWith s2 order data := by
  unfold unmarshalCollectionWith
  by_cases hl : data.length < 4
  · simp only [if_pos hl]
  · simp only [if_neg hl]
    exact unmarshalElements_congr s1 s2 _ (data.length - 4) (fun d hd => h d (by omega)) _ _ _
      (by rw [List.length_drop])

theorem ScanLineStringFuel_fuel (f1 f2 : Nat) (data : List Nat)
    (h1 : data.length ≤ f1) (h2 : data.length ≤ f2) :
    ScanLineStringFuel f1 data = ScanLineStringFuel f2 data := by
  induction f1 generalizing f2 data with
  | zero =>
    have hd : data = [] := List.length_eq_zero.mp (by omega)
    subst hd
    cases f2 <;> rfl
  | succ n ih =>
    cases f2 with
    | zero =>
      have hd : data = [] := List.length_eq_zero.mp (by omega)
      subst hd
      rfl
    | succ m =>
      simp only [ScanLineStringFuel]
      cases hh : unmarshalByteOrderType data with
      | error e => rfl
      | ok r =>
        obtain ⟨order, typ, srid, rest⟩ := r
        have hlen := unmarshalByteOrderType_length hh
        simp only
        rw [unmarshalMultiLineStringWith_congr (ScanLineStringFuel n) (ScanLineStringFuel m) order
          rest (fun d hd => ih m d (by omega) (by omega))]

theorem UnmarshalFuel_fuel (f1 f2 : Nat) (data : List Nat)
    (h1 : data.length ≤ f1) (h2 : data.length ≤ f2) :
    UnmarshalFuel f1 data = UnmarshalFuel f2 data := by
  induction f1 generalizing f2 data with
  | zero =>
    have hd : data = [] := List.length_eq_zero.mp (by omega)
    subst hd
    cases f2 <;> rfl
  | succ n ih =>
    cases f2 with
    | zero =>
      have hd : data = [] := List.length_eq_zero.mp (by omega)
      subst hd
      rfl
    | succ m =>
      simp only [UnmarshalFuel]
      cases hh : unmarshalByteOrderType data with
      | error e => rfl
      | ok r =>
        obtain ⟨order, typ, srid, rest⟩ := r
        have hlen := unmarshalByteOrderType_length hh
        simp only [unmarshalMultiLineString]
        rw [unmarshalMultiLineStringWith_congr (ScanLineStringFuel n) (ScanLineStringFuel m) order
            rest (fun d hd => ScanLineStringFuel_fuel n m d (by omega) (by omega)),
          unmarshalCollectionWith_congr (UnmarshalFuel n) (UnmarshalFuel m) order
            rest (fun d hd => ih m d (by omega) (by omega))]

end wkbcommon

/-! ## Encoded geometries decode to themselves -/

namespace wkbcommon

open orb

theorem wireSRID_zero : wireSRID 0 = 0 := rfl

theorem unmarshalByteOrderType_writeTypePrefix (order : byteOrder) (t l : Nat) (srid : Int)
    (rest : List Nat) (h1 : 1 ≤ t) (h7 : t ≤ 7) :
    unmarshalByteOrderType (writeTypePrefix order t l srid ++ rest)
      = .ok (order, t, wireSRID srid, putUint order 4 (l % 2 ^ 32) ++ rest) := by
  unfold writeTypePrefix
  rw [List.append_assoc]
  exact unmarshalByteOrderType_writeHeader order t srid _ h1 h7

theorem writeTypePrefix_length (order : byteOrder) (t l : Nat) (srid : Int) :
    (writeTypePrefix order t l srid).length = if srid = 0 then 9 else 13 := by
  unfold writeTypePrefix
  rw [List.length_append, writeHeader_length, putUint_length]
  split <;> rfl

theorem counted_elements {α : Type} (scan : List Nat → Except Err (α × Int))
    (size : α → Nat) (enc : α → List Nat) (order : byteOrder) (L : Nat) (as : List α)
    (hl : as.length < 2 ^ 32)
    (hscan : ∀ a ∈ as, ∀ rest : List Nat, (enc a ++ rest).length ≤ L →
      ∃ srid, scan (enc a ++ rest) = .ok (a, srid))
    (hsize : ∀ a ∈ as, (enc a).length = size a)
    (rest : List Nat) (hL : ((as.map enc).flatten ++ rest).length ≤ L) :
    unmarshalElements scan size
      (unmarshalUint32 order (putUint order 4 (as.length % 2 ^ 32) ++ ((as.map enc).flatten ++ rest)))
      ((putUint order 4 (as.length % 2 ^ 32) ++ ((as.map enc).flatten ++ rest)).drop 4) []
      = .ok as := by
  have hm : as.length % 2 ^ 32 % 2 ^ 32 = as.length := by
    rw [Nat.mod_mod]; exact Nat.mod_eq_of_lt hl
  rw [unmarshalUint32_putUint, hm, drop_putUint_append]
  have := unmarshalElements_encoded scan size enc L as hscan hsize rest [] hL
  simpa using this

theorem counted_length (order : byteOrder) (n : Nat) (body : List Nat) :
    ¬ (putUint order 4 n ++ body).length < 4 := by
  simp [putUint_length]

theorem writePoints_eq (order : byteOrder) (mp : List Point) :
    writePoints order mp = (mp.map (fun p => writePoint order p 0)).flatten := by
  induction mp with
  | nil => rfl
  | cons p ps ih => simp [writePoints, ih]

theorem writeLineStrings_eq (order : byteOrder) (mls : List LineString) :
    writeLineStrings order mls = (mls.map (fun ls => writeLineString order ls 0)).flatten := by
  induction mls with
  | nil => rfl
  | cons p ps ih => simp [writeLineStrings, ih]

theorem writePolygons_eq (order : byteOrder) (mp : List Polygon) :
    writePolygons order mp = (mp.map (fun p => writePolygon order p 0)).flatten := by
  induction mp with
  | nil => rfl
  | cons p ps ih => simp [writePolygons, ih]

theorem EncodeAll_eq (order : byteOrder) (c : List Geometry) :
    EncodeAll order c = (c.map (fun g => Encode order g 0)).flatten := by
  induction c with
  | nil => rfl
  | cons p ps ih => simp [EncodeAll, ih]

theorem writePoint_length (order : byteOrder) (p : Point) (srid : Int) :
    (writePoint order p srid).length = if srid = 0 then 21 else 25 := by
  unfold writePoint
  rw [List.length_append, writeHeader_length, putPoint_length]
  split <;> rfl

theorem writeLineString_length (order : byteOrder) (ls : LineString) (srid : Int) :
    (writeLineString order ls srid).length = (if srid = 0 then 9 else 13) + 16 * ls.length := by
  unfold writeLineString
  rw [List.length_append, writeTypePrefix_length, putPoints_length]

theorem writePolygon_length (order : byteOrder) (p : Polygon) (srid : Int) :
    (writePolygon order p srid).length = (if srid = 0 then 9 else 13) + ringsLength p := by
  unfold writePolygon
  rw [List.length_append, writeTypePrefix_length, writeRings_length]

theorem ScanPoint_writePoint (order : byteOrder) (p : Point) (srid : Int)
    (rest : List Nat) (hp : p.WF) :
    ScanPoint (writePoint order p srid ++ rest) = .ok (p, wireSRID srid) := by
  unfold writePoint
  rw [List.append_assoc]
  simp only [ScanPoint, unmarshalByteOrderType_writeHeader order pointType srid _
    (by decide) (by decide), if_true, unmarshalPoint_putPoint order p rest hp]

theorem ScanLineStringFuel_writeLineString (fuel : Nat) (order : byteOrder) (ls : LineString)
    (srid : Int) (rest : List Nat) (hls : pointsWF ls) :
    ScanLineStringFuel (fuel + 1) (writeLineString order ls srid ++ rest)
      = .ok (ls, wireSRID srid) := by
  unfold writeLineString
  rw [List.append_assoc]
  have hu := unmarshalLineString_putPoints order ls rest hls
  rw [List.append_assoc] at hu
  simp only [ScanLineStringFuel, unmarshalByteOrderType_writeTypePrefix order lineStringType _
    srid _ (by decide) (by decide), if_true, hu]

theorem ScanPolygon_writePolygon (order : byteOrder) (p : Polygon)
    (srid : Int) (rest : List Nat) (hp : ringsWF p) :
    ScanPolygon (writePolygon order p srid ++ rest)
      = .ok (p, wireSRID srid) := by
  unfold writePolygon
  rw [List.append_assoc]
  have hu := unmarshalPolygon_writeRings order p rest hp
  rw [List.append_assoc] at hu
  simp only [ScanPolygon, unmarshalByteOrderType_writeTypePrefix order polygonType _
    srid _ (by decide) (by decide), if_true, hu]

theorem unmarshalMultiPointWith_writePoints (order : byteOrder) (mp : MultiPoint)
    (rest : List Nat) (hmp : pointsWF mp) :
    unmarshalMultiPointWith ScanPoint order
      (putUint order 4 (mp.length % 2 ^ 32) ++ (writePoints order mp ++ rest)) = .ok mp := by
  unfold unmarshalMultiPointWith
  rw [if_neg (counted_length order _ _), writePoints_eq]
  exact counted_elements _ _ _ order _ mp hmp.1
    (fun p hp rest _ => ⟨_, ScanPoint_writePoint order p 0 rest (hmp.2 p hp)⟩)
    (fun p _ => by rw [writePoint_length]; rfl) rest (le_refl _)

theorem unmarshalMultiLineStringWith_writeLineStrings (fuel : Nat) (order : byteOrder)
    (mls : MultiLineString) (rest : List Nat) (hmls : ringsWF mls) :
    unmarshalMultiLineStringWith (ScanLineStringFuel (fuel + 1)) order
      (putUint order 4 (mls.length % 2 ^ 32) ++ (writeLineStrings order mls ++ rest))
      = .ok mls := by
  unfold unmarshalMultiLineStringWith
  rw [if_neg (counted_length order _ _), writeLineStrings_eq]
  exact counted_elements _ _ _ order _ mls hmls.1
    (fun ls hls rest _ =>
      ⟨_, ScanLineStringFuel_writeLineString fuel order ls 0 rest (hmls.2 ls hls)⟩)
    (fun ls _ => by rw [writeLineString_length]; simp; omega) rest (le_refl _)

theorem unmarshalMultiPolygonWith_writePolygons (order : byteOrder)
    (mp : MultiPolygon) (rest : List Nat) (hl : mp.length < 2 ^ 32)
    (hmp : ∀ p ∈ mp, ringsWF p) :
    unmarshalMultiPolygonWith ScanPolygon order
      (putUint order 4 (mp.length % 2 ^ 32) ++ (writePolygons order mp ++ rest))
      = .ok mp := by
  unfold unmarshalMultiPolygonWith
  rw [if_neg (counted_length order _ _), writePolygons_eq]
  exact counted_elements _ _ _ order _ mp hl
    (fun p hp rest _ => ⟨_, ScanPolygon_writePolygon order p 0 rest (hmp p hp)⟩)
    (fun p _ => by rw [writePolygon_length]; simp) rest (le_refl _)

theorem writeLineStrings_length (order : byteOrder) (mls : List LineString) :
    (writeLineStrings order mls).length = (mls.map (fun ls => 9 + 16 * ls.length)).sum := by
  induction mls with
  | nil => rfl
  | cons ls rest ih =>
    simp [writeLineStrings, writeLineString_length, ih]

theorem writePolygons_length (order : byteOrder) (mp : List Polygon) :
    (writePolygons order mp).length = (mp.map (fun p => 9 + ringsLength p)).sum := by
  induction mp with
  | nil => rfl
  | cons p rest ih =>
    simp [writePolygons, writePolygon_length, ih]

theorem writePoints_length (order : byteOrder) (mp : List Point) :
    (writePoints order mp).length = 21 * mp.length := by
  induction mp with
  | nil => rfl
  | cons p rest ih =>
    simp [writePoints, writePoint_length, ih]; omega

mutual
theorem Encode_length (order : byteOrder) :
    ∀ (g : Geometry) (srid : Int),
      (Encode order g srid).length = GeomLength g + (if srid = 0 then 0 else 4)
  | .point p, srid => by
    rw [Encode, GeomLength, writePoint_length]; split <;> rfl
  | .multiPoint mp, srid => by
    rw [Encode, GeomLength, writeMultiPoint, List.length_append, writeTypePrefix_length,
      writePoints_length]
    split <;> omega
  | .lineString ls, srid => by
    rw [Encode, GeomLength, writeLineString_length]; split <;> omega
  | .multiLineString mls, srid => by
    rw [Encode, GeomLength, writeMultiLineString, List.length_append, writeTypePrefix_length,
      writeLineStrings_length]
    split <;> omega
  | .polygon p, srid => by
    rw [Encode, GeomLength, writePolygon_length]; split <;> omega
  | .multiPolygon mp, srid => by
    rw [Encode, GeomLength, writeMultiPolygon, List.length_append, writeTypePrefix_length,
      writePolygons_length]
    split <;> omega
  | .collection c, srid => by
    rw [Encode, GeomLength, List.length_append, writeTypePrefix_length, EncodeAll_length order c]
    split <;> omega
theorem EncodeAll_length (order : byteOrder) :
    ∀ c : List Geometry, (EncodeAll order c).length = GeomLengthAll c
  | [] => rfl
  | g :: gs => by
    rw [EncodeAll, GeomLengthAll, List.length_append, Encode_length order g 0,
      EncodeAll_length order gs]
    simp
end

mutual
theorem UnmarshalFuel_Encode (order : byteOrder) :
    ∀ (g : Geometry), g.WF → ∀ (fuel : Nat) (srid : Int) (rest : List Nat),
      (Encode order g srid ++ rest).length ≤ fuel →
      UnmarshalFuel fuel (Encode order g srid ++ rest) = .ok (g, wireSRID srid)
  | .point p, hg, fuel, srid, rest, hf => by
    cases fuel with
    | zero =>
      rw [Encode, List.length_append, writePoint_length] at hf
      split at hf <;> omega
    | succ f =>
      rw [Geometry.WF] at hg
      rw [Encode, writePoint, List.append_assoc]
      simp only [UnmarshalFuel, unmarshalByteOrderType_writeHeader order pointType srid _
        (by decide) (by decide), if_true, unmarshalPoint_putPoint order p rest hg]
  | .multiPoint mp, hg, fuel, srid, rest, hf => by
    cases fuel with
    | zero =>
      rw [Encode, writeMultiPoint, List.length_append, List.length_append,
        writeTypePrefix_length] at hf
      split at hf <;> omega
    | succ f =>
      rw [Geometry.WF] at hg
      cases f with
      | zero =>
        rw [Encode, writeMultiPoint, List.length_append, List.length_append,
          writeTypePrefix_length] at hf
        split at hf <;> omega
      | succ f =>
        rw [Encode, writeMultiPoint, List.append_assoc]
        simp only [UnmarshalFuel, unmarshalByteOrderType_writeTypePrefix order multiPointType _
          srid _ (by decide) (by decide), unmarshalMultiPointWith_writePoints order mp rest hg]
        simp [multiPointType, pointType, lineStringType, polygonType]
  | .lineString ls, hg, fuel, srid, rest, hf => by
    cases fuel with
    | zero =>
      rw [Encode, List.length_append, writeLineString_length] at hf
      split at hf <;> omega
    | succ f =>
      rw [Geometry.WF] at hg
      rw [Encode, writeLineString, List.append_assoc]
      have hu := unmarshalLineString_putPoints order ls rest hg
      rw [List.append_assoc] at hu
      simp only [UnmarshalFuel, unmarshalByteOrderType_writeTypePrefix order lineStringType _
        srid _ (by decide) (by decide), hu]
      simp [pointType, lineStringType]
  | .multiLineString mls, hg, fuel, srid, rest, hf => by
    cases fuel with
    | zero =>
      rw [Encode, writeMultiLineString, List.length_append, List.length_append,
        writeTypePrefix_length] at hf
      split at hf <;> omega
    | succ f =>
      rw [Geometry.WF] at hg
      cases f with
      | zero =>
        rw [Encode, writeMultiLineString, List.length_append, List.length_append,
          writeTypePrefix_length] at hf
        split at hf <;> omega
      | succ f =>
        rw [Encode, writeMultiLineString, List.append_assoc]
        simp only [UnmarshalFuel, unmarshalMultiLineString,
          unmarshalByteOrderType_writeTypePrefix order multiLineStringType _
          srid _ (by decide) (by decide),
          unmarshalMultiLineStringWith_writeLineStrings f order mls rest hg]
        simp [multiPointType, pointType, lineStringType, polygonType, multiLineStringType]
  | .polygon p, hg, fuel, srid, rest, hf => by
    cases fuel with
    | zero =>
      rw [Encode, List.length_append, writePolygon_length] at hf
      split at hf <;> omega
    | succ f =>
      rw [Geometry.WF] at hg
      rw [Encode, writePolygon, List.append_assoc]
      have hu := unmarshalPolygon_writeRings order p rest hg
      rw [List.append_assoc] at hu
      simp only [UnmarshalFuel, unmarshalByteOrderType_writeTypePrefix order polygonType _
        srid _ (by decide) (by decide), hu]
      simp [pointType, lineStringType, polygonType]
  | .multiPolygon mp, hg, fuel, srid, rest, hf => by
    cases fuel with
    | zero =>
      rw [Encode, writeMultiPolygon, List.length_append, List.length_append,
        writeTypePrefix_length] at hf
      split at hf <;> omega
    | succ f =>
      rw [Geometry.WF] at hg
      cases f with
      | zero =>
        rw [Encode, writeMultiPolygon, List.length_append, List.length_append,
          writeTypePrefix_length] at hf
        split at hf <;> omega
      | succ f =>
        rw [Encode, writeMultiPolygon, List.append_assoc]
        simp only [UnmarshalFuel,
          unmarshalByteOrderType_writeTypePrefix order multiPolygonType _
          srid _ (by decide) (by decide),
          unmarshalMultiPolygonWith_writePolygons order mp rest hg.1 hg.2]
        simp [multiPointType, pointType, lineStringType, polygonType, multiLineStringType,
          multiPolygonType]
  | .collection c, hg, fuel, srid, rest, hf => by
    cases fuel with
    | zero =>
      rw [Encode, List.length_append, List.length_append, writeTypePrefix_length] at hf
      split at hf <;> omega
    | succ f =>
      rw [Geometry.WF] at hg
      rw [Encode, List.length_append, List.length_append, writeTypePrefix_length] at hf
      have hL : ((c.map (fun g => Encode order g 0)).flatten ++ rest).length ≤ f := by
        rw [← EncodeAll_eq, List.length_append]
        split at hf <;> omega
      have hc : unmarshalCollectionWith (UnmarshalFuel f) order
          (putUint order 4 (c.length % 2 ^ 32) ++ (EncodeAll order c ++ rest)) = .ok c := by
        unfold unmarshalCollectionWith
        rw [if_neg (counted_length order _ _), EncodeAll_eq]
        exact counted_elements _ _ _ order f c hg.1
          (fun g hgc rest hle => ⟨_, UnmarshalFuel_EncodeAll order c hg.2 g hgc f rest hle⟩)
          (fun g _ => by rw [Encode_length]; simp) rest hL
      rw [Encode, List.append_assoc]
      simp only [UnmarshalFuel,
        unmarshalByteOrderType_writeTypePrefix order geometryCollectionType _
        srid _ (by decide) (by decide), hc]
      simp [multiPointType, pointType, lineStringType, polygonType, multiLineStringType,
        multiPolygonType, geometryCollectionType]
theorem UnmarshalFuel_EncodeAll (order : byteOrder) :
    ∀ (c : List Geometry), Geometry.WFAll c → ∀ g ∈ c, ∀ (fuel : Nat) (rest : List Nat),
      (Encode order g 0 ++ rest).length ≤ fuel →
      UnmarshalFuel fuel (Encode order g 0 ++ rest) = .ok (g, 0)
  | [], _, g, hgc, _, _, _ => by cases hgc
  | g0 :: gs, hc, g, hgc, fuel, rest, hf => by
    rw [Geometry.WFAll] at hc
    rcases List.mem_cons.mp hgc with h | h
    · subst h
      exact UnmarshalFuel_Encode order g hc.1 fuel 0 rest hf
    · exact UnmarshalFuel_EncodeAll order gs hc.2 g h fuel rest hf
end

end wkbcommon

/-! ## `GeometryScanner.Scan`: null inputs, unsupported inputs, failures -/

namespace ewkb

open orb

/-- C6: for every scanner, whatever its fields and destination, `Scan(nil)`
and `Scan` of a nil byte slice return no error and leave Valid = false and
Geometry = nil; the destination and the identifier keep their values. -/
theorem Scan_null_input (Bound : Geometry → Bound) (s : GeometryScanner) :
    Scan Bound s .nil = (none, { s with Geometry := none, Valid := false })
    ∧ Scan Bound s (.bytes none) = (none, { s with Geometry := none, Valid := false }) :=
  ⟨rfl, rfl⟩

/-- C8: for every scanner and every non-nil input that is not a byte slice,
`Scan` returns exactly `ErrUnsupportedDataType`, whatever the destination is. -/
theorem Scan_unsupported_input (Bound : Geometry → Bound) (s : GeometryScanner) :
    (Scan Bound s .other).1 = some Err.ErrUnsupportedDataType :=
  rfl

/-- C3: for every scanner and every input, if `Scan` returns a non-nil error
then afterwards Valid is false, Geometry is nil and the typed destination holds
the value it held before the call. -/
theorem Scan_error_exposes_nothing (Bound : Geometry → Bound) (s : GeometryScanner)
    (d : ScanInput) (h : (Scan Bound s d).1 ≠ none) :
    (Scan Bound s d).2.Valid = false ∧ (Scan Bound s d).2.Geometry = none
      ∧ (Scan Bound s d).2.g = s.g := by
  cases d with
  | nil => exact ⟨rfl, rfl, rfl⟩
  | other => exact ⟨rfl, rfl, rfl⟩
  | bytes data =>
    cases data with
    | none => exact ⟨rfl, rfl, rfl⟩
    | some data =>
      simp only [Scan] at h ⊢
      cases hh : hexStage data with
      | error e => exact ⟨rfl, rfl, rfl⟩
      | ok data' =>
        simp only [hh] at h ⊢
        obtain ⟨g, srid, geo, valid⟩ := s
        cases g <;> simp only at h ⊢
        all_goals first
          | exact ⟨rfl, rfl, rfl⟩
          | exact ⟨trivial, trivial, trivial⟩
          | (split at h <;> first
              | exact ⟨rfl, rfl, rfl⟩
              | exact absurd rfl h
              | (split at h <;> first
                  | exact ⟨rfl, rfl, rfl⟩
                  | exact absurd rfl h))

/-- The witness of C3: a LineString scanned into a Point destination fails, and
the scanner shows nothing of it. -/
theorem Scan_error_exposes_nothing_witness :
    (Scan (fun _ => ⟨⟨0, 0⟩, ⟨0, 0⟩⟩) (Scanner (.Point ⟨7, 7⟩))
        (.bytes (some [1, 2, 0, 0, 0, 0, 0, 0, 0]))).1 ≠ none
    ∧ (Scan (fun _ => ⟨⟨0, 0⟩, ⟨0, 0⟩⟩) (Scanner (.Point ⟨7, 7⟩))
        (.bytes (some [1, 2, 0, 0, 0, 0, 0, 0, 0]))).2.Valid = false
    ∧ (Scan (fun _ => ⟨⟨0, 0⟩, ⟨0, 0⟩⟩) (Scanner (.Point ⟨7, 7⟩))
        (.bytes (some [1, 2, 0, 0, 0, 0, 0, 0, 0]))).2.Geometry = none
    ∧ (Scan (fun _ => ⟨⟨0, 0⟩, ⟨0, 0⟩⟩) (Scanner (.Point ⟨7, 7⟩))
        (.bytes (some [1, 2, 0, 0, 0, 0, 0, 0, 0]))).2.g = .Point ⟨7, 7⟩ :=
  ⟨by decide, Scan_error_exposes_nothing _ _ _ (by decide)⟩

/-- C7, as stated, fails: scanning an empty, non-nil byte slice returns an
error. Here the destination is a value the type switch does not know. -/
theorem Scan_empty_bytes_counterexample :
    (Scan (fun _ => ⟨⟨0, 0⟩, ⟨0, 0⟩⟩) (Scanner .other) (.bytes (some []))).1
      = some Err.ErrIncorrectGeometry
    ∧ (Scan (fun _ => ⟨⟨0, 0⟩, ⟨0, 0⟩⟩) (Scanner .other) (.bytes (some []))).1 ≠ none :=
  ⟨by decide, by decide⟩

/-- C7, amended: for every scanner, `Scan` of an empty, non-nil byte slice
returns a non-nil error, `ErrIncorrectGeometry` when the destination is none
of the supported pointers and the decoder's `ErrNotEWKB` otherwise, and leaves
Valid = false, Geometry = nil and the destination unchanged. -/
theorem Scan_empty_bytes (Bound : Geometry → Bound) (s : GeometryScanner) :
    (Scan Bound s (.bytes (some []))).1
      = some (match s.g with
        | .other => Err.ErrIncorrectGeometry
        | _ => Err.ErrNotEWKB)
    ∧ (Scan Bound s (.bytes (some []))).2.Valid = false
    ∧ (Scan Bound s (.bytes (some []))).2.Geometry = none
    ∧ (Scan Bound s (.bytes (some []))).2.g = s.g := by
  obtain ⟨g, srid, geo, valid⟩ := s
  cases g <;> exact ⟨rfl, rfl, rfl, rfl⟩

end ewkb

/-! ## The hex escape of `Scan` -/

namespace ewkb

open orb

theorem reverseHexTable_hexDigit (u : Bool) (n : Nat) (h : n < 16) :
    reverseHexTable (hexDigit u n) = n := by
  unfold hexDigit reverseHexTable
  cases u <;> simp only [Bool.false_eq_true, if_false, if_true] <;> split <;> split <;>
    (try split) <;> (try split) <;> omega

theorem hexText_length (cs : List (Bool × Bool)) (B : List Nat) :
    (hexText cs B).length = 2 * B.length := by
  induction B generalizing cs with
  | nil => cases cs <;> rfl
  | cons b bs ih =>
    cases cs with
    | nil => simp [hexText, ih]; omega
    | cons c cs => obtain ⟨u, v⟩ := c; simp [hexText, ih]; omega

/-- The first two characters of the hex text of a non-empty sequence decode to
its first byte. -/
theorem hexText_cons (cs : List (Bool × Bool)) (b : Nat) (bs : List Nat) (hb : b < 256) :
    ∃ p q cs', hexText cs (b :: bs) = p :: q :: hexText cs' bs
      ∧ reverseHexTable p = b / 16 ∧ reverseHexTable q = b % 16 := by
  cases cs with
  | nil =>
    exact ⟨_, _, [], rfl, reverseHexTable_hexDigit _ _ (by omega),
      reverseHexTable_hexDigit _ _ (by omega)⟩
  | cons c cs =>
    obtain ⟨u, v⟩ := c
    exact ⟨_, _, cs, rfl, reverseHexTable_hexDigit _ _ (by omega),
      reverseHexTable_hexDigit _ _ (by omega)⟩

/-- The invariant of the in-place loop: with `i` bytes written at the front
(`done`), the read position `2*i + 2` is `i + 2` places ahead (`gap`), and the
loop writes the remaining bytes without touching a character it has yet to
read. -/
theorem hexDecodeLoop_hexText (B : List Nat) (hB : ∀ b ∈ B, b < 256) :
    ∀ (cs : List (Bool × Bool)) (done gap : List Nat), gap.length = done.length + 2 →
      ∃ tail, hexDecodeLoop B.length done.length (done ++ gap ++ hexText cs B)
        = (done ++ B ++ tail, done.length + B.length, none) := by
  induction B with
  | nil =>
    intro cs done gap _
    refine ⟨gap ++ hexText cs [], ?_⟩
    simp [hexDecodeLoop]
  | cons b bs ih =>
    intro cs done gap hgap
    obtain ⟨p, q, cs', htext, hp, hq⟩ := hexText_cons cs b bs (hB b (List.mem_cons_self _ _))
    have hb : b < 256 := hB b (List.mem_cons_self _ _)
    cases gap with
    | nil => simp at hgap
    | cons g0 gap' =>
      have hlen : (done ++ g0 :: gap').length = 2 * done.length + 2 := by
        simp only [List.length_append, List.length_cons] at hgap ⊢; omega
      have hpget : (done ++ g0 :: gap' ++ hexText cs (b :: bs)).getD (2 * done.length + 2) 0 = p := by
        rw [htext, List.getD_eq_getElem?_getD, List.getElem?_append_right (by omega)]
        simp [hlen]
      have hqget : (done ++ g0 :: gap' ++ hexText cs (b :: bs)).getD (2 * done.length + 3) 0 = q := by
        rw [htext, List.getD_eq_getElem?_getD, List.getElem?_append_right (by omega)]
        simp [hlen]
      have hset : (done ++ g0 :: gap' ++ hexText cs (b :: bs)).set done.length
          (reverseHexTable p * 16 + reverseHexTable q)
          = (done ++ [b]) ++ (gap' ++ [p, q]) ++ hexText cs' bs := by
        rw [htext, hp, hq]
        have : b / 16 * 16 + b % 16 = b := by omega
        rw [this]
        simp [List.set_append]
      have hgap' : (gap' ++ [p, q]).length = (done ++ [b]).length + 2 := by
        simp only [List.length_append, List.length_cons, List.length_nil] at hgap ⊢; omega
      obtain ⟨tail, ht⟩ := ih (fun x hx => hB x (List.mem_cons_of_mem _ hx)) cs' (done ++ [b])
        (gap' ++ [p, q]) hgap'
      refine ⟨tail, ?_⟩
      have ha : ¬ reverseHexTable p > 15 := by rw [hp]; omega
      have hbq : ¬ reverseHexTable q > 15 := by rw [hq]; omega
      simp only [List.length_cons, hexDecodeLoop, hpget, hqget, ha, hbq, if_false, hset]
      simp only [List.length_append, List.length_cons, List.length_nil] at ht
      rw [ht]
      simp [Nat.add_assoc, Nat.add_comm 1]

/-- The hex stage of `Scan` on the escape prefix followed by the hex text of
`B`: the in-place decode reconstructs exactly `B`. -/
theorem hexStage_hexText (cs : List (Bool × Bool)) (B : List Nat) (hB : ∀ b ∈ B, b < 256)
    (hne : B ≠ []) : hexStage (92 :: 120 :: hexText cs B) = .ok B := by
  have hl := hexText_length cs B
  have hpos : 0 < B.length := List.length_pos.mpr hne
  have hcond : (92 :: 120 :: hexText cs B).length > 2
      ∧ (92 :: 120 :: hexText cs B).getD 0 0 = 92 ∧ (92 :: 120 :: hexText cs B).getD 1 0 = 120 := by
    refine ⟨?_, rfl, rfl⟩
    simp only [List.length_cons]; omega
  obtain ⟨tail, ht⟩ := hexDecodeLoop_hexText B hB cs [] [92, 120] rfl
  simp only [List.nil_append, List.length_nil, Nat.zero_add, List.cons_append] at ht
  have hsrc : (92 :: 120 :: hexText cs B).length - 2 = 2 * B.length := by
    simp only [List.length_cons]; omega
  have hdiv : 2 * B.length / 2 = B.length := by omega
  have hmod : ¬ (2 * B.length % 2 = 1) := by omega
  unfold hexStage
  rw [if_pos hcond]
  simp only [hexDecodeInPlace, hsrc, hdiv, ht, hmod, if_false]
  simp

end ewkb

namespace ewkb

open orb

/-- Data whose first byte is an order marker is not taken for hex text. -/
theorem hexStage_of_marker (order : wkbcommon.byteOrder) (rest : List Nat) :
    hexStage (order.marker :: rest) = .ok (order.marker :: rest) := by
  unfold hexStage
  rw [if_neg]
  rintro ⟨_, h, _⟩
  cases order <;> simp [wkbcommon.byteOrder.marker] at h

/-- C5: for every byte sequence `B` that starts with an order marker, as every
valid EWKB encoding does, and every scanner, `Scan` of the two characters
backslash and `x` followed by the hexadecimal text of `B`, in upper- or
lower-case digits, has the same outcome as `Scan` of `B`: the same error and
the same scanner fields. The in-place hex decode reconstructs exactly `B`. -/
theorem Scan_hex_escape (Bound : Geometry → Bound) (s : GeometryScanner)
    (cs : List (Bool × Bool)) (order : wkbcommon.byteOrder) (rest : List Nat)
    (hB : ∀ b ∈ order.marker :: rest, b < 256) :
    hexStage (92 :: 120 :: hexText cs (order.marker :: rest)) = .ok (order.marker :: rest)
    ∧ Scan Bound s (.bytes (some (92 :: 120 :: hexText cs (order.marker :: rest))))
      = Scan Bound s (.bytes (some (order.marker :: rest))) := by
  have h1 := hexStage_hexText cs (order.marker :: rest) hB (by simp)
  refine ⟨h1, ?_⟩
  simp only [Scan, h1, hexStage_of_marker]

/-- The witness of C5: the little-endian Point (1, 2), its hex text written
with digits of both cases. -/
theorem Scan_hex_escape_witness :
    (∀ b ∈ wkbcommon.byteOrder.littleEndian.marker
        :: [1, 0, 0, 0, 1, 0, 0, 0, 0, 0, 0, 171, 2, 0, 0, 0, 0, 0, 0, 0], b < 256)
    ∧ hexStage (92 :: 120 :: hexText [(true, false), (false, true)]
        (wkbcommon.byteOrder.littleEndian.marker
          :: [1, 0, 0, 0, 1, 0, 0, 0, 0, 0, 0, 171, 2, 0, 0, 0, 0, 0, 0, 0]))
      = .ok (wkbcommon.byteOrder.littleEndian.marker
          :: [1, 0, 0, 0, 1, 0, 0, 0, 0, 0, 0, 171, 2, 0, 0, 0, 0, 0, 0, 0])
    ∧ Scan (fun _ => ⟨⟨0, 0⟩, ⟨0, 0⟩⟩) (Scanner .nil)
        (.bytes (some (92 :: 120 :: hexText [(true, false), (false, true)]
          (wkbcommon.byteOrder.littleEndian.marker
            :: [1, 0, 0, 0, 1, 0, 0, 0, 0, 0, 0, 171, 2, 0, 0, 0, 0, 0, 0, 0]))))
      = Scan (fun _ => ⟨⟨0, 0⟩, ⟨0, 0⟩⟩) (Scanner .nil)
        (.bytes (some (wkbcommon.byteOrder.littleEndian.marker
          :: [1, 0, 0, 0, 1, 0, 0, 0, 0, 0, 0, 171, 2, 0, 0, 0, 0, 0, 0, 0]))) :=
  ⟨by decide, Scan_hex_escape _ _ _ _ _ (by decide)⟩

end ewkb

/-! ## `Unmarshal` after `Marshal` -/

namespace ewkb

open orb

theorem GeomLength_pos (g : Geometry) : 9 ≤ wkbcommon.GeomLength g := by
  cases g <;> simp [wkbcommon.GeomLength]

theorem Marshal_some (g : Geometry) (srid : Int) (os : List wkbcommon.byteOrder) :
    Marshal (some g) srid os
      = .ok (some (wkbcommon.Encode (os.headD DefaultByteOrder) g srid)) := by
  have hlen : ¬ (wkbcommon.Encode (os.headD DefaultByteOrder) g srid).length = 0 := by
    rw [wkbcommon.Encode_length]
    have := GeomLength_pos g
    omega
  cases os with
  | nil =>
    simp only [List.headD_nil] at hlen
    simp only [Marshal, hlen, if_false, List.headD_nil]
  | cons o os =>
    simp only [List.headD_cons] at hlen
    simp only [Marshal, hlen, if_false, List.headD_cons]

theorem Unmarshal_Encode (order : wkbcommon.byteOrder) (g : Geometry) (srid : Int)
    (hg : g.WF) :
    Unmarshal (wkbcommon.Encode order g srid) = .ok (g, wkbcommon.wireSRID srid) := by
  have h := wkbcommon.UnmarshalFuel_Encode order g hg
    (wkbcommon.Encode order g srid).length srid [] (by simp)
  rw [List.append_nil] at h
  simp only [Unmarshal, wkbcommon.Unmarshal, h]

/-- C1, amended: for every geometry of the seven kinds whose sequences each
have fewer than `2^32` elements (and whose coordinates are 64-bit patterns),
every identifier and every choice of byte order, `Marshal` returns bytes and
`Unmarshal` of them succeeds with a geometry equal to the one marshalled, and
with the low 32 bits of the identifier. -/
theorem Unmarshal_Marshal (g : Geometry) (srid : Int) (os : List wkbcommon.byteOrder)
    (hg : g.WF) :
    ∃ b, Marshal (some g) srid os = .ok (some b)
      ∧ Unmarshal b = .ok (g, wkbcommon.wireSRID srid) :=
  ⟨_, Marshal_some g srid os, Unmarshal_Encode _ g srid hg⟩

end ewkb

namespace ewkb

open orb

/-- A LineString whose length is `2^32` is written with the count field 0, and
the decoder, reading no points, returns the empty LineString. -/
theorem Unmarshal_Encode_overflow (ps : List Point) (hps : ps.length = 4294967296) :
    Unmarshal (wkbcommon.Encode .littleEndian (.lineString ps) 0) = .ok (.lineString [], 0) := by
  have hcount : ps.length % 2 ^ 32 = 0 := by rw [hps]; norm_num
  have hfuel : (wkbcommon.writeTypePrefix .littleEndian wkbcommon.lineStringType ps.length 0
        ++ wkbcommon.putPoints .littleEndian ps).length
      = ((wkbcommon.writeTypePrefix .littleEndian wkbcommon.lineStringType ps.length 0
        ++ wkbcommon.putPoints .littleEndian ps).length - 1) + 1 := by
    rw [List.length_append, wkbcommon.writeTypePrefix_length]
    simp only [if_true]
    omega
  have hlen : ¬ (wkbcommon.putUint .littleEndian 4 0
      ++ wkbcommon.putPoints .littleEndian ps).length < 4 := by
    simp [wkbcommon.putUint_length]
  simp only [Unmarshal, wkbcommon.Unmarshal, wkbcommon.Encode, wkbcommon.writeLineString]
  rw [hfuel]
  simp only [wkbcommon.UnmarshalFuel,
    wkbcommon.unmarshalByteOrderType_writeTypePrefix .littleEndian wkbcommon.lineStringType _
      0 _ (by decide) (by decide), hcount, wkbcommon.unmarshalLineString,
    wkbcommon.unmarshalPoints, hlen, if_false, wkbcommon.unmarshalUint32_putUint]
  simp [wkbcommon.unmarshalPointsLoop, wkbcommon.pointType, wkbcommon.lineStringType,
    wkbcommon.wireSRID_zero]

/-- C1, as stated, fails: a LineString of `2^32` points is marshalled with the
count field 0, the low 32 bits of its length, and unmarshals to the empty
LineString. -/
theorem Unmarshal_Marshal_counterexample :
    ∃ b, Marshal (some (.lineString (List.replicate 4294967296 ⟨0, 0⟩))) 0 [.littleEndian]
        = .ok (some b)
      ∧ Unmarshal b = .ok (.lineString [], 0)
      ∧ Geometry.lineString [] ≠ .lineString (List.replicate 4294967296 ⟨0, 0⟩) := by
  refine ⟨_, Marshal_some _ _ _, ?_, ?_⟩
  · exact Unmarshal_Encode_overflow _ (List.length_replicate _ _)
  · intro h
    injection h with h
    have hl := congrArg List.length h
    rw [List.length_replicate] at hl
    exact absurd hl (by decide)

end ewkb

namespace ewkb

open orb

/-- The witness of C1: a Collection holding a Point, a MultiLineString, a
Polygon and an empty MultiPoint, marshalled big-endian with identifier 4326. -/
theorem Unmarshal_Marshal_witness :
    Geometry.WF (.collection [.point ⟨1, 2⟩, .multiLineString [[⟨3, 4⟩], [⟨5, 6⟩, ⟨7, 8⟩]],
        .polygon [[⟨1, 1⟩, ⟨2, 2⟩]], .multiPoint []])
    ∧ ∃ b, Marshal (some (.collection [.point ⟨1, 2⟩,
          .multiLineString [[⟨3, 4⟩], [⟨5, 6⟩, ⟨7, 8⟩]],
          .polygon [[⟨1, 1⟩, ⟨2, 2⟩]], .multiPoint []])) 4326 [.bigEndian] = .ok (some b)
      ∧ Unmarshal b = .ok (.collection [.point ⟨1, 2⟩,
          .multiLineString [[⟨3, 4⟩], [⟨5, 6⟩, ⟨7, 8⟩]],
          .polygon [[⟨1, 1⟩, ⟨2, 2⟩]], .multiPoint []], wkbcommon.wireSRID 4326) :=
  ⟨by simp [Geometry.WF, Geometry.WFAll, pointsWF, ringsWF, Point.WF],
    Unmarshal_Marshal _ 4326 [.bigEndian]
      (by simp [Geometry.WF, Geometry.WFAll, pointsWF, ringsWF, Point.WF])⟩

end ewkb

/-! ## The targeted decoders on encoded geometries -/

namespace wkbcommon

open orb

theorem Encode_eq (order : byteOrder) (g : Geometry) (srid : Int) :
    Encode order g srid = writeHeader order (typeCode g) srid ++ payload order g := by
  cases g <;>
    simp [Encode, typeCode, payload, writePoint, writeMultiPoint, writeLineString,
      writeMultiLineString, writePolygon, writeMultiPolygon, writeTypePrefix]

theorem typeCode_range (g : Geometry) : 1 ≤ typeCode g ∧ typeCode g ≤ 7 := by
  cases g <;>
    simp [typeCode, pointType, lineStringType, polygonType, multiPointType,
      multiLineStringType, multiPolygonType, geometryCollectionType]

theorem Encode_marker (order : byteOrder) (g : Geometry) (srid : Int) :
    ∃ rest, Encode order g srid = order.marker :: rest := by
  rw [Encode_eq]
  unfold writeHeader
  split
  · exact ⟨_, rfl⟩
  · exact ⟨_, rfl⟩

theorem unmarshalByteOrderType_Encode (order : byteOrder) (g : Geometry) (srid : Int) :
    unmarshalByteOrderType (Encode order g srid)
      = .ok (order, typeCode g, wireSRID srid, payload order g) := by
  rw [Encode_eq]
  exact unmarshalByteOrderType_writeHeader order _ srid _ (typeCode_range g).1 (typeCode_range g).2

theorem unmarshalPoint_payload (order : byteOrder) (p : Point) (hp : p.WF) :
    unmarshalPoint order (putPoint order p) = .ok p := by
  have := unmarshalPoint_putPoint order p [] hp
  rwa [List.append_nil] at this

theorem unmarshalLineString_payload (order : byteOrder) (ls : LineString) (h : pointsWF ls) :
    unmarshalLineString order (putUint order 4 (ls.length % 2 ^ 32) ++ putPoints order ls)
      = .ok ls := by
  have := unmarshalLineString_putPoints order ls [] h
  rwa [List.append_nil] at this

theorem unmarshalPolygon_payload (order : byteOrder) (p : Polygon) (h : ringsWF p) :
    unmarshalPolygon order (putUint order 4 (p.length % 2 ^ 32) ++ writeRings order p)
      = .ok p := by
  have := unmarshalPolygon_writeRings order p [] h
  rwa [List.append_nil] at this

theorem unmarshalMultiPointWith_payload (order : byteOrder) (mp : MultiPoint)
    (h : pointsWF mp) :
    unmarshalMultiPointWith ScanPoint order
      (putUint order 4 (mp.length % 2 ^ 32) ++ writePoints order mp) = .ok mp := by
  have := unmarshalMultiPointWith_writePoints order mp [] h
  rwa [List.append_nil] at this

theorem unmarshalMultiLineStringWith_payload (fuel : Nat) (order : byteOrder)
    (mls : MultiLineString) (h : ringsWF mls) :
    unmarshalMultiLineStringWith (ScanLineStringFuel (fuel + 1)) order
      (putUint order 4 (mls.length % 2 ^ 32) ++ writeLineStrings order mls) = .ok mls := by
  have := unmarshalMultiLineStringWith_writeLineStrings fuel order mls [] h
  rwa [List.append_nil] at this

theorem unmarshalMultiPolygonWith_payload (order : byteOrder)
    (mp : MultiPolygon) (h : mp.length < 2 ^ 32 ∧ ∀ p ∈ mp, ringsWF p) :
    unmarshalMultiPolygonWith ScanPolygon order
      (putUint order 4 (mp.length % 2 ^ 32) ++ writePolygons order mp) = .ok mp := by
  have := unmarshalMultiPolygonWith_writePolygons order mp [] h.1 h.2
  rwa [List.append_nil] at this

theorem Encode_length_ge (order : byteOrder) (g : Geometry) (srid : Int) :
    9 ≤ (Encode order g srid).length := by
  rw [Encode_length]
  have : 9 ≤ GeomLength g := by cases g <;> simp [GeomLength]
  omega

/-- `ScanPoint` on an encoded geometry: a Point; every other geometry is
`ErrIncorrectGeometry`. -/
theorem ScanPoint_Encode (order : byteOrder) (g : Geometry) (srid : Int) (hg : g.WF) :
    ScanPoint (Encode order g srid)
      = match g with
        | .point p => .ok (p, wireSRID srid)
        | _ => .error .wkbcommon_ErrIncorrectGeometry := by
  simp only [ScanPoint, unmarshalByteOrderType_Encode]
  cases g with
  | point p =>
    rw [Geometry.WF] at hg
    simp only [typeCode, payload, unmarshalPoint_payload order p hg]
    simp [pointType]
  | multiPoint mp => simp [typeCode, multiPointType, pointType]
  | lineString ls => simp [typeCode, lineStringType, pointType]
  | multiLineString mls => simp [typeCode, multiLineStringType, pointType]
  | polygon p => simp [typeCode, polygonType, pointType]
  | multiPolygon mp => simp [typeCode, multiPolygonType, pointType]
  | collection c => simp [typeCode, geometryCollectionType, pointType]

/-- `ScanLineString` on an encoded geometry: a LineString, or a
MultiLineString of exactly one element. -/
theorem ScanLineString_Encode (order : byteOrder) (g : Geometry) (srid : Int) (hg : g.WF) :
    ScanLineString (Encode order g srid)
      = match g with
        | .lineString ls => .ok (ls, wireSRID srid)
        | .multiLineString [ls] => .ok (ls, wireSRID srid)
        | _ => .error .wkbcommon_ErrIncorrectGeometry := by
  unfold ScanLineString
  rw [ScanLineStringFuel_fuel _ ((Encode order g srid).length + 2) _ (le_refl _) (by omega)]
  rw [ScanLineStringFuel, unmarshalByteOrderType_Encode]
  simp only []
  cases g with
  | lineString ls =>
    rw [Geometry.WF] at hg
    simp only [typeCode, payload, unmarshalLineString_payload order ls hg]
    simp [lineStringType]
  | multiLineString mls =>
    rw [Geometry.WF] at hg
    simp only [typeCode, payload, unmarshalMultiLineStringWith_payload _ order mls hg]
    match mls with
    | [] => simp [multiLineStringType, lineStringType]
    | [p] => simp [multiLineStringType, lineStringType]
    | _ :: _ :: _ => simp [multiLineStringType, lineStringType]
  | point ls => simp [typeCode, lineStringType, multiLineStringType, pointType]
  | multiPoint mls => simp [typeCode, multiLineStringType, multiPointType, lineStringType]
  | polygon p => simp [typeCode, polygonType, multiLineStringType, lineStringType]
  | multiPolygon mp => simp [typeCode, multiPolygonType, multiLineStringType, lineStringType]
  | collection c => simp [typeCode, geometryCollectionType, multiLineStringType, lineStringType]

/-- `ScanPolygon` on an encoded geometry: a Polygon; every other geometry is
`ErrIncorrectGeometry`. -/
theorem ScanPolygon_Encode (order : byteOrder) (g : Geometry) (srid : Int) (hg : g.WF) :
    ScanPolygon (Encode order g srid)
      = match g with
        | .polygon p => .ok (p, wireSRID srid)
        | _ => .error .wkbcommon_ErrIncorrectGeometry := by
  simp only [ScanPolygon, unmarshalByteOrderType_Encode]
  cases g with
  | polygon p =>
    rw [Geometry.WF] at hg
    simp only [typeCode, payload, unmarshalPolygon_payload order p hg]
    simp [polygonType]
  | point ls => simp [typeCode, polygonType, pointType]
  | multiPoint mls => simp [typeCode, multiPointType, polygonType]
  | lineString p => simp [typeCode, polygonType, lineStringType]
  | multiLineString mp => simp [typeCode, multiLineStringType, polygonType]
  | multiPolygon mp => simp [typeCode, multiPolygonType, polygonType]
  | collection c => simp [typeCode, geometryCollectionType, polygonType]

end wkbcommon

namespace wkbcommon

open orb

theorem unmarshalCollectionWith_payload (fuel : Nat) (order : byteOrder) (c : List Geometry)
    (hc : c.length < 2 ^ 32 ∧ Geometry.WFAll c) (hf : (EncodeAll order c).length ≤ fuel) :
    unmarshalCollectionWith (UnmarshalFuel fuel) order
      (putUint order 4 (c.length % 2 ^ 32) ++ EncodeAll order c) = .ok c := by
  have h := counted_elements (UnmarshalFuel fuel) GeomLength (fun g => Encode order g 0) order
    fuel c hc.1
    (fun g hgc rest hle => ⟨_, UnmarshalFuel_EncodeAll order c hc.2 g hgc fuel rest hle⟩)
    (fun g _ => by rw [Encode_length]; simp) []
    (by rw [List.append_nil, ← EncodeAll_eq]; exact hf)
  rw [List.append_nil, ← EncodeAll_eq] at h
  unfold unmarshalCollectionWith
  rw [if_neg (counted_length order _ _)]
  exact h

/-- `ScanMultiPoint` on an encoded geometry: a MultiPoint, or a Point as a
sequence of one element. -/
theorem ScanMultiPoint_Encode (order : byteOrder) (g : Geometry) (srid : Int) (hg : g.WF) :
    ScanMultiPoint (Encode order g srid)
      = match g with
        | .point p => .ok ([p], wireSRID srid)
        | .multiPoint mp => .ok (mp, wireSRID srid)
        | _ => .error .wkbcommon_ErrIncorrectGeometry := by
  simp only [ScanMultiPoint, unmarshalByteOrderType_Encode]
  cases g with
  | point p =>
    rw [Geometry.WF] at hg
    simp only [typeCode, payload, unmarshalPoint_payload order p hg]
    simp [pointType]
  | multiPoint mp =>
    rw [Geometry.WF] at hg
    simp only [typeCode, payload, unmarshalMultiPointWith_payload order mp hg]
    simp [multiPointType, pointType]
  | lineString ls => simp [typeCode, lineStringType, multiPointType, pointType]
  | multiLineString mls => simp [typeCode, multiLineStringType, multiPointType, pointType]
  | polygon p => simp [typeCode, polygonType, multiPointType, pointType]
  | multiPolygon mp => simp [typeCode, multiPolygonType, multiPointType, pointType]
  | collection c => simp [typeCode, geometryCollectionType, multiPointType, pointType]

/-- `ScanMultiLineString` on an encoded geometry: a MultiLineString; every
other geometry is `ErrIncorrectGeometry`. -/
theorem ScanMultiLineString_Encode (order : byteOrder) (g : Geometry) (srid : Int)
    (hg : g.WF) :
    ScanMultiLineString (Encode order g srid)
      = match g with
        | .multiLineString mls => .ok (mls, wireSRID srid)
        | _ => .error .wkbcommon_ErrIncorrectGeometry := by
  obtain ⟨k, hk⟩ : ∃ k, (Encode order g srid).length = k + 1 :=
    ⟨(Encode order g srid).length - 1, by have := Encode_length_ge order g srid; omega⟩
  simp only [ScanMultiLineString, unmarshalMultiLineString, unmarshalByteOrderType_Encode, hk]
  cases g with
  | multiLineString mls =>
    rw [Geometry.WF] at hg
    simp only [typeCode, payload, unmarshalMultiLineStringWith_payload _ order mls hg]
    simp [multiLineStringType]
  | lineString ls => simp [typeCode, lineStringType, multiLineStringType]
  | point ls => simp [typeCode, multiLineStringType, pointType]
  | multiPoint mls => simp [typeCode, multiLineStringType, multiPointType]
  | polygon p => simp [typeCode, polygonType, multiLineStringType]
  | multiPolygon mp => simp [typeCode, multiPolygonType, multiLineStringType]
  | collection c => simp [typeCode, geometryCollectionType, multiLineStringType]

/-- `ScanMultiPolygon` on an encoded geometry: a MultiPolygon; every other
geometry is `ErrIncorrectGeometry`. -/
theorem ScanMultiPolygon_Encode (order : byteOrder) (g : Geometry) (srid : Int)
    (hg : g.WF) :
    ScanMultiPolygon (Encode order g srid)
      = match g with
        | .multiPolygon mp => .ok (mp, wireSRID srid)
        | _ => .error .wkbcommon_ErrIncorrectGeometry := by
  simp only [ScanMultiPolygon, unmarshalByteOrderType_Encode]
  cases g with
  | multiPolygon mp =>
    rw [Geometry.WF] at hg
    simp only [typeCode, payload, unmarshalMultiPolygonWith_payload order mp hg]
    simp [multiPolygonType]
  | polygon p => simp [typeCode, polygonType, multiPolygonType]
  | point ls => simp [typeCode, multiPolygonType, pointType]
  | multiPoint mls => simp [typeCode, multiPolygonType, multiPointType]
  | lineString p => simp [typeCode, multiPolygonType, lineStringType]
  | multiLineString mp => simp [typeCode, multiPolygonType, multiLineStringType]
  | collection c => simp [typeCode, geometryCollectionType, multiPolygonType]

/-- `ScanCollection` on an encoded geometry: a Collection only. -/
theorem ScanCollection_Encode (order : byteOrder) (g : Geometry) (srid : Int)
    (hg : g.WF) :
    ScanCollection (Encode order g srid)
      = match g with
        | .collection c => .ok (c, wireSRID srid)
        | _ => .error .wkbcommon_ErrIncorrectGeometry := by
  simp only [ScanCollection, unmarshalByteOrderType_Encode]
  cases g with
  | collection c =>
    rw [Geometry.WF] at hg
    have hf : (EncodeAll order c).length ≤ (Encode order (.collection c) srid).length := by
      rw [Encode, List.length_append]; omega
    simp only [typeCode, payload, unmarshalCollectionWith_payload _ order c hg hf]
    simp [geometryCollectionType]
  | point ls => simp [typeCode, geometryCollectionType, pointType]
  | multiPoint mls => simp [typeCode, geometryCollectionType, multiPointType]
  | lineString p => simp [typeCode, geometryCollectionType, lineStringType]
  | multiLineString mp => simp [typeCode, multiLineStringType, geometryCollectionType]
  | polygon c => simp [typeCode, geometryCollectionType, polygonType]
  | multiPolygon c => simp [typeCode, geometryCollectionType, multiPolygonType]

end wkbcommon

/-! ## `Scan` into a typed destination -/

namespace ewkb

open orb

theorem hexStage_Encode (order : wkbcommon.byteOrder) (g : Geometry) (srid : Int) :
    hexStage (wkbcommon.Encode order g srid) = .ok (wkbcommon.Encode order g srid) := by
  obtain ⟨rest, h⟩ := wkbcommon.Encode_marker order g srid
  rw [h]
  exact hexStage_of_marker order rest

/-- C2, as stated, fails: the encoding of a Point scanned into a Bound
destination, a kind mismatch outside the two exceptions, returns no error. -/
theorem Scan_kind_mismatch_counterexample :
    Marshal (some (.point ⟨1, 2⟩)) 0 []
      = .ok (some [1, 1, 0, 0, 0, 1, 0, 0, 0, 0, 0, 0, 0, 2, 0, 0, 0, 0, 0, 0, 0])
    ∧ (Scan (fun _ => ⟨⟨1, 2⟩, ⟨1, 2⟩⟩) (Scanner (.Bound ⟨⟨0, 0⟩, ⟨0, 0⟩⟩))
        (.bytes (some [1, 1, 0, 0, 0, 1, 0, 0, 0, 0, 0, 0, 0, 2, 0, 0, 0, 0, 0, 0, 0]))).1 = none
    ∧ (Scan (fun _ => ⟨⟨1, 2⟩, ⟨1, 2⟩⟩) (Scanner (.Bound ⟨⟨0, 0⟩, ⟨0, 0⟩⟩))
        (.bytes (some [1, 1, 0, 0, 0, 1, 0, 0, 0, 0, 0, 0, 0, 2, 0, 0, 0, 0, 0, 0, 0]))).1
      ≠ some Err.ErrIncorrectGeometry :=
  ⟨rfl, by decide, by decide⟩

/-- C2, amended: for every scanner and every valid encoding of a geometry
(one `Marshal` returns for a geometry that fits the wire), `Scan` returns
`ErrIncorrectGeometry` exactly when the pair of destination and geometry is not
accepted, and no error when it is. The accepted pairs are those of `accepts`:
the destination's own kind, a Point for a MultiPoint, a Polygon of exactly one
ring for a Ring, and every geometry for a Bound or for no destination. One
pair is left out, a MultiLineString of exactly one LineString scanned into a
LineString destination. -/
theorem Scan_kind_mismatch (Bound : Geometry → Bound) (s : GeometryScanner) (g : Geometry)
    (srid : Int) (os : List wkbcommon.byteOrder) (b : List Nat) (hg : g.WF)
    (hb : Marshal (some g) srid os = .ok (some b))
    (hopen : ∀ v ls, ¬ (s.g = .LineString v ∧ g = .multiLineString [ls])) :
    (Scan Bound s (.bytes (some b))).1
      = if accepts s.g g then none else some Err.ErrIncorrectGeometry := by
  rw [Marshal_some] at hb
  injection hb with hb
  injection hb with hb
  subst hb
  obtain ⟨d, sr, geo, valid⟩ := s
  simp only [Scan, hexStage_Encode]
  cases d with
  | nil => simp [Unmarshal_Encode _ g srid hg, scanned, accepts]
  | Bound v => simp [Unmarshal_Encode _ g srid hg, scanned, accepts]
  | other => simp [accepts]
  | Ring v =>
    simp only [Unmarshal_Encode _ g srid hg]
    cases g with
    | polygon p =>
      match p with
      | [] => simp [accepts]
      | [r] => simp [accepts, scanned]
      | _ :: _ :: _ => simp [accepts]
    | point _ => simp [accepts]
    | multiPoint _ => simp [accepts]
    | lineString _ => simp [accepts]
    | multiLineString _ => simp [accepts]
    | multiPolygon _ => simp [accepts]
    | collection _ => simp [accepts]
  | Point v =>
    simp only [wkbcommon.ScanPoint_Encode _ g srid hg]
    cases g <;> simp [accepts, mapCommonError, scanned]
  | LineString v =>
    simp only [wkbcommon.ScanLineString_Encode _ g srid hg]
    cases g with
    | multiLineString p =>
      match p, hopen with
      | [], _ => simp [accepts, mapCommonError]
      | [r], hopen => exact absurd ⟨rfl, rfl⟩ (hopen v r)
      | _ :: _ :: _, _ => simp [accepts, mapCommonError]
    | lineString _ => simp [accepts, scanned]
    | polygon _ => simp [accepts, mapCommonError]
    | point _ => simp [accepts, mapCommonError]
    | multiPoint _ => simp [accepts, mapCommonError]
    | multiPolygon _ => simp [accepts, mapCommonError]
    | collection _ => simp [accepts, mapCommonError]
  | Polygon v =>
    simp only [wkbcommon.ScanPolygon_Encode _ g srid hg]
    cases g <;> simp [accepts, mapCommonError, scanned]
  | MultiPoint v =>
    simp only [wkbcommon.ScanMultiPoint_Encode _ g srid hg]
    cases g <;> simp [accepts, mapCommonError, scanned]
  | MultiLineString v =>
    simp only [wkbcommon.ScanMultiLineString_Encode _ g srid hg]
    cases g <;> simp [accepts, mapCommonError, scanned]
  | MultiPolygon v =>
    simp only [wkbcommon.ScanMultiPolygon_Encode _ g srid hg]
    cases g <;> simp [accepts, mapCommonError, scanned]
  | Collection v =>
    simp only [wkbcommon.ScanCollection_Encode _ g srid hg]
    cases g <;> simp [accepts, mapCommonError, scanned]

/-- The witness of C2: a LineString marshalled big-endian with identifier 4326
and scanned into a Polygon destination. -/
theorem Scan_kind_mismatch_witness :
    Geometry.WF (.lineString [⟨1, 2⟩, ⟨3, 4⟩])
    ∧ Marshal (some (.lineString [⟨1, 2⟩, ⟨3, 4⟩])) 4326 [.bigEndian]
      = .ok (some [0, 32, 0, 0, 2, 0, 0, 16, 230, 0, 0, 0, 2,
          0, 0, 0, 0, 0, 0, 0, 1, 0, 0, 0, 0, 0, 0, 0, 2,
          0, 0, 0, 0, 0, 0, 0, 3, 0, 0, 0, 0, 0, 0, 0, 4])
    ∧ (∀ v ls, ¬ ((Scanner (.Polygon [])).g = .LineString v
        ∧ Geometry.lineString [⟨1, 2⟩, ⟨3, 4⟩] = .multiLineString [ls]))
    ∧ (Scan (fun _ => ⟨⟨0, 0⟩, ⟨0, 0⟩⟩) (Scanner (.Polygon []))
        (.bytes (some [0, 32, 0, 0, 2, 0, 0, 16, 230, 0, 0, 0, 2,
          0, 0, 0, 0, 0, 0, 0, 1, 0, 0, 0, 0, 0, 0, 0, 2,
          0, 0, 0, 0, 0, 0, 0, 3, 0, 0, 0, 0, 0, 0, 0, 4]))).1
      = if accepts (Scanner (.Polygon [])).g (.lineString [⟨1, 2⟩, ⟨3, 4⟩]) then none
        else some Err.ErrIncorrectGeometry :=
  ⟨by simp [Geometry.WF, pointsWF, Point.WF], rfl,
    (by intro v ls h; cases h.2),
    Scan_kind_mismatch _ _ _ 4326 [.bigEndian] _
      (by simp [Geometry.WF, pointsWF, Point.WF]) rfl (by intro v ls h; cases h.2)⟩

end ewkb

/-! ## A decoder sees its input only through the header -/

namespace wkbcommon

open orb

theorem ScanLineStringFuel_header_congr (f1 f2 : Nat) (d1 d2 : List Nat)
    (h1 : d1.length ≤ f1) (h2 : d2.length ≤ f2)
    (h : unmarshalByteOrderType d1 = unmarshalByteOrderType d2) :
    ScanLineStringFuel f1 d1 = ScanLineStringFuel f2 d2 := by
  have e1 := ScanLineStringFuel_fuel f1 (f1 + f2 + 1) d1 h1 (by omega)
  have e2 := ScanLineStringFuel_fuel f2 (f1 + f2 + 1) d2 h2 (by omega)
  rw [e1, e2]
  simp only [ScanLineStringFuel, h]

theorem UnmarshalFuel_header_congr (f1 f2 : Nat) (d1 d2 : List Nat)
    (h1 : d1.length ≤ f1) (h2 : d2.length ≤ f2)
    (h : unmarshalByteOrderType d1 = unmarshalByteOrderType d2) :
    UnmarshalFuel f1 d1 = UnmarshalFuel f2 d2 := by
  have e1 := UnmarshalFuel_fuel f1 (f1 + f2 + 1) d1 h1 (by omega)
  have e2 := UnmarshalFuel_fuel f2 (f1 + f2 + 1) d2 h2 (by omega)
  rw [e1, e2]
  simp only [UnmarshalFuel, h]

theorem Unmarshal_header_congr (d1 d2 : List Nat)
    (h : unmarshalByteOrderType d1 = unmarshalByteOrderType d2) :
    Unmarshal d1 = Unmarshal d2 :=
  UnmarshalFuel_header_congr _ _ d1 d2 (le_refl _) (le_refl _) h

theorem ScanPoint_header_congr (d1 d2 : List Nat)
    (h : unmarshalByteOrderType d1 = unmarshalByteOrderType d2) :
    ScanPoint d1 = ScanPoint d2 := by
  simp only [ScanPoint, h]

theorem ScanLineString_header_congr (d1 d2 : List Nat)
    (h : unmarshalByteOrderType d1 = unmarshalByteOrderType d2) :
    ScanLineString d1 = ScanLineString d2 :=
  ScanLineStringFuel_header_congr _ _ d1 d2 (le_refl _) (le_refl _) h

theorem ScanPolygon_header_congr (d1 d2 : List Nat)
    (h : unmarshalByteOrderType d1 = unmarshalByteOrderType d2) :
    ScanPolygon d1 = ScanPolygon d2 := by
  simp only [ScanPolygon, h]

theorem ScanMultiPoint_header_congr (d1 d2 : List Nat)
    (h : unmarshalByteOrderType d1 = unmarshalByteOrderType d2) :
    ScanMultiPoint d1 = ScanMultiPoint d2 := by
  simp only [ScanMultiPoint, h]

theorem ScanMultiLineString_header_congr (d1 d2 : List Nat)
    (h : unmarshalByteOrderType d1 = unmarshalByteOrderType d2) :
    ScanMultiLineString d1 = ScanMultiLineString d2 := by
  simp only [ScanMultiLineString, unmarshalMultiLineString, h]
  cases hh : unmarshalByteOrderType d2 with
  | error e => rfl
  | ok r =>
    obtain ⟨order, typ, srid, rest⟩ := r
    have l2 := unmarshalByteOrderType_length hh
    have l1 := unmarshalByteOrderType_length (h.trans hh)
    simp only
    rw [unmarshalMultiLineStringWith_congr (ScanLineStringFuel d1.length)
      (ScanLineStringFuel d2.length) order
      rest (fun d hd => ScanLineStringFuel_fuel _ _ d (by omega) (by omega))]

theorem ScanMultiPolygon_header_congr (d1 d2 : List Nat)
    (h : unmarshalByteOrderType d1 = unmarshalByteOrderType d2) :
    ScanMultiPolygon d1 = ScanMultiPolygon d2 := by
  simp only [ScanMultiPolygon, h]

theorem ScanCollection_header_congr (d1 d2 : List Nat)
    (h : unmarshalByteOrderType d1 = unmarshalByteOrderType d2) :
    ScanCollection d1 = ScanCollection d2 := by
  simp only [ScanCollection, h]
  cases hh : unmarshalByteOrderType d2 with
  | error e => rfl
  | ok r =>
    obtain ⟨order, typ, srid, rest⟩ := r
    have l2 := unmarshalByteOrderType_length hh
    have l1 := unmarshalByteOrderType_length (h.trans hh)
    simp only
    rw [unmarshalCollectionWith_congr (UnmarshalFuel d1.length)
      (UnmarshalFuel d2.length) order
      rest (fun d hd => UnmarshalFuel_fuel _ _ d (by omega) (by omega))]

/-- The vendor prefix: four bytes whose first is no order marker, in front of
data with a valid header, leave the header as the decoders see it unchanged. -/
theorem unmarshalByteOrderType_skip (p0 p1 p2 p3 : Nat) (B : List Nat)
    (r : byteOrder × Nat × Int × List Nat) (h0 : p0 ≠ 0) (h1 : p0 ≠ 1)
    (hB : byteOrderType B = .ok r) :
    unmarshalByteOrderType (p0 :: p1 :: p2 :: p3 :: B) = unmarshalByteOrderType B := by
  have hm : orderOfMarker p0 = none := by
    match p0, h0, h1 with
    | 0, h0, _ => exact absurd rfl h0
    | 1, _, h1 => exact absurd rfl h1
    | _ + 2, _, _ => rfl
  rw [unmarshalByteOrderType_of_ok hB]
  simp only [unmarshalByteOrderType, byteOrderType, hm, List.drop_succ_cons, List.drop_zero]
  cases B with
  | nil => cases hB
  | cons b rest =>
    simp only [byteOrderType] at hB
    simp only [hB]

end wkbcommon

/-! ## `Scan` past the hex stage -/

namespace ewkb

open orb

theorem ewkb_Unmarshal_header_congr (d1 d2 : List Nat)
    (h : wkbcommon.unmarshalByteOrderType d1 = wkbcommon.unmarshalByteOrderType d2) :
    Unmarshal d1 = Unmarshal d2 := by
  simp only [Unmarshal, wkbcommon.Unmarshal_header_congr d1 d2 h]

/-- Past the hex stage, `Scan` depends on its data only through the header the
decoders read. -/
theorem Scan_header_congr (Bound : Geometry → Bound) (s : GeometryScanner) (d1 d2 : List Nat)
    (x1 : hexStage d1 = .ok d1) (x2 : hexStage d2 = .ok d2)
    (h : wkbcommon.unmarshalByteOrderType d1 = wkbcommon.unmarshalByteOrderType d2) :
    Scan Bound s (.bytes (some d1)) = Scan Bound s (.bytes (some d2)) := by
  simp only [Scan, x1, x2, ewkb_Unmarshal_header_congr d1 d2 h,
    wkbcommon.ScanPoint_header_congr d1 d2 h, wkbcommon.ScanLineString_header_congr d1 d2 h,
    wkbcommon.ScanPolygon_header_congr d1 d2 h, wkbcommon.ScanMultiPoint_header_congr d1 d2 h,
    wkbcommon.ScanMultiLineString_header_congr d1 d2 h,
    wkbcommon.ScanMultiPolygon_header_congr d1 d2 h,
    wkbcommon.ScanCollection_header_congr d1 d2 h]

theorem hexStage_of_not_escape (p0 p1 : Nat) (rest : List Nat) (h : ¬ (p0 = 92 ∧ p1 = 120)) :
    hexStage (p0 :: p1 :: rest) = .ok (p0 :: p1 :: rest) := by
  unfold hexStage
  rw [if_neg]
  rintro ⟨_, ha, hb⟩
  exact h ⟨ha, hb⟩

end ewkb

/-! ## `Scan` into a Ring and into the seven typed destinations -/

namespace ewkb

open orb

/-- C9: for a scanner whose destination is a Ring and every non-null input on
which `Unmarshal` succeeds with geometry `m`, where `Unmarshal` is the call
`Scan` makes on the bytes `data'` it decodes (the input itself, or its
hex-decoded form when the input starts with backslash and `x`): if `m` is a
Polygon with exactly one ring, `Scan` returns nil and writes that ring to the
destination and to Geometry, with the identifier and Valid = true; in every
other case `Scan` returns `ErrIncorrectGeometry`. -/
theorem Scan_ring (Bound : Geometry → Bound) (s : GeometryScanner) (data data' : List Nat)
    (m : Geometry) (srid : Int) (r0 : Ring) (hs : s.g = .Ring r0)
    (hh : hexStage data = .ok data') (hu : Unmarshal data' = .ok (m, srid)) :
    (∀ r, m = .polygon [r] →
      Scan Bound s (.bytes (some data))
        = (none,
            { s with
              g := .Ring r
              SRID := srid
              Geometry := some (.ring r)
              Valid := true }))
    ∧ ((∀ r, m ≠ .polygon [r]) →
      (Scan Bound s (.bytes (some data))).1 = some Err.ErrIncorrectGeometry) := by
  obtain ⟨d, sr, geo, valid⟩ := s
  simp only at hs
  subst hs
  simp only [Scan, hh, hu]
  constructor
  · intro r hr
    subst hr
    rfl
  · intro hne
    cases m with
    | polygon p =>
      match p, hne with
      | [], _ => rfl
      | [r], hne => exact absurd rfl (hne r)
      | _ :: _ :: _, _ => rfl
    | point _ => rfl
    | multiPoint _ => rfl
    | lineString _ => rfl
    | multiLineString _ => rfl
    | multiPolygon _ => rfl
    | collection _ => rfl

/-- The witness of C9: the little-endian Polygon of one ring, scanned into a
Ring. -/
theorem Scan_ring_witness :
    hexStage [1, 3, 0, 0, 0, 1, 0, 0, 0, 1, 0, 0, 0,
        1, 0, 0, 0, 0, 0, 0, 0, 2, 0, 0, 0, 0, 0, 0, 0]
      = .ok [1, 3, 0, 0, 0, 1, 0, 0, 0, 1, 0, 0, 0,
        1, 0, 0, 0, 0, 0, 0, 0, 2, 0, 0, 0, 0, 0, 0, 0]
    ∧ Unmarshal [1, 3, 0, 0, 0, 1, 0, 0, 0, 1, 0, 0, 0,
        1, 0, 0, 0, 0, 0, 0, 0, 2, 0, 0, 0, 0, 0, 0, 0] = .ok (.polygon [[⟨1, 2⟩]], 0)
    ∧ Scan (fun _ => ⟨⟨0, 0⟩, ⟨0, 0⟩⟩) (Scanner (.Ring []))
        (.bytes (some [1, 3, 0, 0, 0, 1, 0, 0, 0, 1, 0, 0, 0,
          1, 0, 0, 0, 0, 0, 0, 0, 2, 0, 0, 0, 0, 0, 0, 0]))
      = (none,
          { g := .Ring [⟨1, 2⟩]
            SRID := 0
            Geometry := some (.ring [⟨1, 2⟩])
            Valid := true }) :=
  ⟨rfl, rfl,
    (Scan_ring (fun _ => ⟨⟨0, 0⟩, ⟨0, 0⟩⟩) (Scanner (.Ring []))
      [1, 3, 0, 0, 0, 1, 0, 0, 0, 1, 0, 0, 0,
        1, 0, 0, 0, 0, 0, 0, 0, 2, 0, 0, 0, 0, 0, 0, 0]
      [1, 3, 0, 0, 0, 1, 0, 0, 0, 1, 0, 0, 0,
        1, 0, 0, 0, 0, 0, 0, 0, 2, 0, 0, 0, 0, 0, 0, 0]
      (.polygon [[⟨1, 2⟩]]) 0 [] rfl rfl rfl).1 [⟨1, 2⟩] rfl⟩

/-- C10: for a scanner whose destination is a pointer to a Point, MultiPoint,
LineString, MultiLineString, Polygon, MultiPolygon or Collection and every
input on which the targeted decode of that kind succeeds with value `v` and
identifier `id`, where the targeted decode is the call `Scan` makes on the
bytes `data'` it decodes (the input itself, or its hex-decoded form when the
input starts with backslash and `x`), `Scan` returns nil and leaves
destination = `v`, Geometry = `v`, SRID = `id` and Valid = true: the
destination and the Geometry attribute agree. -/
theorem Scan_typed_success (Bound : Geometry → Bound) (s : GeometryScanner)
    (data data' : List Nat) (id : Int) (hh : hexStage data = .ok data') :
    (∀ v0 v, s.g = .Point v0 → wkbcommon.ScanPoint data' = .ok (v, id) →
      Scan Bound s (.bytes (some data))
        = (none, ⟨.Point v, id, some (.geometry (.point v)), true⟩))
    ∧ (∀ v0 v, s.g = .MultiPoint v0 → wkbcommon.ScanMultiPoint data' = .ok (v, id) →
      Scan Bound s (.bytes (some data))
        = (none, ⟨.MultiPoint v, id, some (.geometry (.multiPoint v)), true⟩))
    ∧ (∀ v0 v, s.g = .LineString v0 → wkbcommon.ScanLineString data' = .ok (v, id) →
      Scan Bound s (.bytes (some data))
        = (none, ⟨.LineString v, id, some (.geometry (.lineString v)), true⟩))
    ∧ (∀ v0 v, s.g = .MultiLineString v0 →
      wkbcommon.ScanMultiLineString data' = .ok (v, id) →
      Scan Bound s (.bytes (some data))
        = (none, ⟨.MultiLineString v, id, some (.geometry (.multiLineString v)), true⟩))
    ∧ (∀ v0 v, s.g = .Polygon v0 → wkbcommon.ScanPolygon data' = .ok (v, id) →
      Scan Bound s (.bytes (some data))
        = (none, ⟨.Polygon v, id, some (.geometry (.polygon v)), true⟩))
    ∧ (∀ v0 v, s.g = .MultiPolygon v0 → wkbcommon.ScanMultiPolygon data' = .ok (v, id) →
      Scan Bound s (.bytes (some data))
        = (none, ⟨.MultiPolygon v, id, some (.geometry (.multiPolygon v)), true⟩))
    ∧ (∀ v0 v, s.g = .Collection v0 → wkbcommon.ScanCollection data' = .ok (v, id) →
      Scan Bound s (.bytes (some data))
        = (none, ⟨.Collection v, id, some (.geometry (.collection v)), true⟩)) := by
  obtain ⟨d, sr, geo, valid⟩ := s
  refine ⟨?_, ?_, ?_, ?_, ?_, ?_, ?_⟩ <;>
  · intro v0 v hs hd
    simp only at hs
    subst hs
    simp only [Scan, hh, hd, scanned]

/-- The witness of C10: the hex text of a little-endian Point with identifier
4326, scanned into a Point. -/
theorem Scan_typed_success_witness :
    hexStage (92 :: 120 :: hexText []
        [1, 1, 0, 0, 32, 230, 16, 0, 0, 1, 0, 0, 0, 0, 0, 0, 0, 2, 0, 0, 0, 0, 0, 0, 0])
      = .ok [1, 1, 0, 0, 32, 230, 16, 0, 0, 1, 0, 0, 0, 0, 0, 0, 0, 2, 0, 0, 0, 0, 0, 0, 0]
    ∧ wkbcommon.ScanPoint
        [1, 1, 0, 0, 32, 230, 16, 0, 0, 1, 0, 0, 0, 0, 0, 0, 0, 2, 0, 0, 0, 0, 0, 0, 0]
      = .ok (⟨1, 2⟩, 4326)
    ∧ Scan (fun _ => ⟨⟨0, 0⟩, ⟨0, 0⟩⟩) (Scanner (.Point ⟨9, 9⟩))
        (.bytes (some (92 :: 120 :: hexText []
          [1, 1, 0, 0, 32, 230, 16, 0, 0, 1, 0, 0, 0, 0, 0, 0, 0, 2, 0, 0, 0, 0, 0, 0, 0])))
      = (none, ⟨.Point ⟨1, 2⟩, 4326, some (.geometry (.point ⟨1, 2⟩)), true⟩) :=
  ⟨rfl, rfl,
    (Scan_typed_success (fun _ => ⟨⟨0, 0⟩, ⟨0, 0⟩⟩) (Scanner (.Point ⟨9, 9⟩))
      (92 :: 120 :: hexText []
        [1, 1, 0, 0, 32, 230, 16, 0, 0, 1, 0, 0, 0, 0, 0, 0, 0, 2, 0, 0, 0, 0, 0, 0, 0])
      [1, 1, 0, 0, 32, 230, 16, 0, 0, 1, 0, 0, 0, 0, 0, 0, 0, 2, 0, 0, 0, 0, 0, 0, 0]
      4326 rfl).1 ⟨9, 9⟩ ⟨1, 2⟩ rfl rfl⟩

end ewkb

/-! ## The stream readers of line_string.go -/

namespace wkbcommon

open orb

theorem readFull_append (pre rest : List Nat) :
    readFull pre.length (pre ++ rest) = (.ok pre, rest) := by
  unfold readFull
  rw [if_pos (by simp)]
  simp

theorem readFull_short (n : Nat) (r : List Nat) (h : r.length < n) :
    ∃ e, readFull n r = (.error e, []) := by
  unfold readFull
  rw [if_neg (by omega)]
  by_cases h0 : r.length = 0
  · rw [if_pos h0, List.length_eq_zero.mp h0]
    exact ⟨_, rfl⟩
  · rw [if_neg h0]
    exact ⟨_, rfl⟩

theorem readFull_nil (n : Nat) (h : 0 < n) : readFull n [] = (.error .io_EOF, []) := by
  unfold readFull
  rw [if_neg (by simp; omega)]
  rfl

theorem readUint32_putUint (order : byteOrder) (v : Nat) (rest : List Nat) :
    readUint32 (putUint order 4 v ++ rest) order = (.ok (v % 2 ^ 32), rest) := by
  have h := readFull_append (putUint order 4 v) rest
  rw [putUint_length] at h
  simp only [readUint32, h, getUint_putUint]
  norm_num

theorem readFloat64_putUint (order : byteOrder) (v : Nat) (rest : List Nat) (hv : v < 2 ^ 64) :
    readFloat64 (putUint order 8 (v % 2 ^ 64) ++ rest) order = (.ok v, rest) := by
  have h := readFull_append (putUint order 8 (v % 2 ^ 64)) rest
  rw [putUint_length] at h
  have e : v % 2 ^ 64 % 256 ^ 8 = v := by
    rw [Nat.mod_eq_of_lt hv]; exact Nat.mod_eq_of_lt (by norm_num; omega)
  simp only [readFloat64, h, getUint_putUint, e]

theorem readPoint_putPoint (order : byteOrder) (p : Point) (rest : List Nat) (hp : p.WF) :
    readPoint (putPoint order p ++ rest) order = (.ok p, rest) := by
  obtain ⟨hx, hy⟩ := hp
  simp only [readPoint, putPoint, List.append_assoc, readFloat64_putUint order p.x _ hx,
    readFloat64_putUint order p.y _ hy]

/-- The element loop of the stream readers on the concatenated encodings of a
sequence: when every element reads back from the front of its own encoding,
the loop returns the sequence appended to the accumulator and stops right
behind the last element. -/
theorem readElements_encoded {α : Type} (readOne : List Nat → Except Err α × List Nat)
    (enc : α → List Nat) (as : List α)
    (hread : ∀ a ∈ as, ∀ rest : List Nat, readOne (enc a ++ rest) = (.ok a, rest))
    (rest : List Nat) (acc : List α) :
    readElements readOne as.length ((as.map enc).flatten ++ rest) acc
      = (.ok (acc ++ as), rest) := by
  induction as generalizing acc with
  | nil => simp [readElements]
  | cons a as ih =>
    have h1 := hread a (List.mem_cons_self _ _) ((as.map enc).flatten ++ rest)
    have ih' := ih (fun b hb => hread b (List.mem_cons_of_mem _ hb)) (acc ++ [a])
    simp only [List.map_cons, List.flatten_cons, List.append_assoc, List.length_cons,
      readElements, h1, ih', List.singleton_append]

theorem putPoints_eq (order : byteOrder) (ps : List Point) :
    putPoints order ps = (ps.map (putPoint order)).flatten := by
  induction ps with
  | nil => rfl
  | cons p ps ih => simp [putPoints, ih]

theorem readLineString_putPoints (order : byteOrder) (ps : List Point) (rest : List Nat)
    (hps : pointsWF ps) :
    readLineString (putUint order 4 (ps.length % 2 ^ 32) ++ (putPoints order ps ++ rest)) order
      = (.ok ps, rest) := by
  have hm : ps.length % 2 ^ 32 % 2 ^ 32 = ps.length := by
    rw [Nat.mod_mod]; exact Nat.mod_eq_of_lt hps.1
  have h := readElements_encoded (fun r => readPoint r order) (putPoint order) ps
    (fun p hp rest => readPoint_putPoint order p rest (hps.2 p hp)) rest []
  rw [← putPoints_eq, List.nil_append] at h
  simp only [readLineString, readUint32_putUint, hm, h]

theorem readLineStringAlloc_eq (num : Nat) : readLineStringAlloc num = min num 10000 := by
  unfold readLineStringAlloc maxPointsAlloc
  split <;> omega

/-- C18: for every byte order, every declared count `n` (the length of `ps`, a
uint32, above the ceiling of 10000 points or not) and every stream that
supplies the `n` coordinate pairs after the count, `readLineString` succeeds,
returns exactly those points in stream order and stops right behind them; the
ceiling bounds only the capacity `alloc`, which is `min(n, 10000)`. -/
theorem readLineString_complete (order : byteOrder) (ps : List Point) (rest : List Nat)
    (hps : pointsWF ps) :
    readLineString (putUint order 4 ps.length ++ (putPoints order ps ++ rest)) order
      = (.ok ps, rest)
    ∧ readLineStringAlloc ps.length = min ps.length 10000 := by
  have h := readLineString_putPoints order ps rest hps
  rw [Nat.mod_eq_of_lt hps.1] at h
  exact ⟨h, readLineStringAlloc_eq _⟩

/-- The witness of C18: 10001 points, one more than the ceiling. -/
theorem readLineString_complete_witness :
    pointsWF (List.replicate 10001 ⟨7, 9⟩)
    ∧ readLineString (putUint .bigEndian 4 (List.replicate 10001 (⟨7, 9⟩ : Point)).length
        ++ (putPoints .bigEndian (List.replicate 10001 ⟨7, 9⟩) ++ [1, 2, 3])) .bigEndian
      = (.ok (List.replicate 10001 ⟨7, 9⟩), [1, 2, 3])
    ∧ readLineStringAlloc (List.replicate 10001 (⟨7, 9⟩ : Point)).length
      = min (List.replicate 10001 (⟨7, 9⟩ : Point)).length 10000 :=
  have hw : pointsWF (List.replicate 10001 ⟨7, 9⟩) :=
    ⟨by rw [List.length_replicate]; norm_num,
      fun p hp => by rw [List.eq_of_mem_replicate hp]; exact ⟨by norm_num, by norm_num⟩⟩
  ⟨hw, readLineString_complete .bigEndian _ [1, 2, 3] hw⟩

theorem readPoint_nil (order : byteOrder) : readPoint [] order = (.error .io_EOF, []) := rfl

theorem readPoint_of_length (order : byteOrder) (r : List Nat) (h : 16 ≤ r.length) :
    ∃ p, readPoint r order = (.ok p, r.drop 16) := by
  have h1 : readFull 8 r = (.ok (r.take 8), r.drop 8) := by
    unfold readFull
    rw [if_pos (by omega)]
  have h2 : readFull 8 (r.drop 8) = (.ok ((r.drop 8).take 8), r.drop 16) := by
    unfold readFull
    rw [if_pos (by rw [List.length_drop]; omega), List.drop_drop]
  refine ⟨⟨getUint order (r.take 8), getUint order ((r.drop 8).take 8)⟩, ?_⟩
  simp only [readPoint, readFloat64, h1, h2]

theorem readElements_truncated (order : byteOrder) (k : Nat) :
    ∀ (n : Nat) (body : List Nat) (acc : List Point), body.length = 16 * k → k < n →
      readElements (fun r => readPoint r order) n body acc = (.error .io_EOF, []) := by
  induction k with
  | zero =>
    intro n body acc hb hk
    have hnil : body = [] := List.length_eq_zero.mp (by omega)
    subst hnil
    obtain ⟨m, rfl⟩ : ∃ m, n = m + 1 := ⟨n - 1, by omega⟩
    simp only [readElements, readPoint_nil]
  | succ k ih =>
    intro n body acc hb hk
    obtain ⟨m, rfl⟩ : ∃ m, n = m + 1 := ⟨n - 1, by omega⟩
    obtain ⟨p, hp⟩ := readPoint_of_length order body (by omega)
    simp only [readElements, hp]
    exact ih m _ _ (by rw [List.length_drop]; omega) (by omega)

/-- C11: for every byte order, every declared count `n` (a uint32) and every
`k < n`: when the stream holds the count `n` followed by exactly `k` complete
16-byte coordinate pairs and then ends, `readLineString` fails with the error
of the reader for the end of its input, `io.EOF`, returns no LineString, and
leaves the reader at its end, having consumed the `4 + 16k` bytes of the stream. -/
theorem readLineString_truncated (order : byteOrder) (n k : Nat) (body : List Nat)
    (hn : n < 2 ^ 32) (hk : k < n) (hb : body.length = 16 * k) :
    readLineString (putUint order 4 n ++ body) order = (.error .io_EOF, [])
    ∧ (putUint order 4 n ++ body).length = 4 + 16 * k := by
  constructor
  · simp only [readLineString, readUint32_putUint, Nat.mod_eq_of_lt hn]
    exact readElements_truncated order k n body [] hb hk
  · rw [List.length_append, putUint_length, hb]

/-- The witness of C11: the instance of the spec, a declared count of
50,000,000 and 2 coordinate pairs. -/
theorem readLineString_truncated_witness :
    (50000000 < 2 ^ 32) ∧ (2 < 50000000)
    ∧ (List.replicate 32 7).length = 16 * 2
    ∧ readLineString (putUint .littleEndian 4 50000000 ++ List.replicate 32 7) .littleEndian
      = (.error .io_EOF, [])
    ∧ (putUint .littleEndian 4 50000000 ++ List.replicate 32 7).length = 4 + 16 * 2 :=
  ⟨by norm_num, by norm_num, by rfl,
    readLineString_truncated .littleEndian 50000000 2 (List.replicate 32 7)
      (by norm_num) (by norm_num) (by rfl)⟩

end wkbcommon

/-! ## The identifier in the encoding, and the length of the encoding -/

namespace wkbcommon

open orb

/-- C13: for every MultiLineString and every identifier, zero or not,
`writeMultiLineString` attaches the identifier to the outer header only: the
bytes are the header with `srid`, the element count, and every contained
LineString encoded with identifier 0. Each element re-emits its own order
marker and the plain type code of a LineString, whose identifier flag is
clear, followed at once by its point count, with no identifier field; read
back, its header carries identifier 0. -/
theorem writeMultiLineString_identifier (order : byteOrder) (mls : MultiLineString)
    (srid : Int) :
    writeMultiLineString order mls srid
      = writeHeader order multiLineStringType srid ++ putUint order 4 (mls.length % 2 ^ 32)
        ++ (mls.map (fun ls => Encode order (.lineString ls) 0)).flatten
    ∧ (∀ ls : LineString, Encode order (.lineString ls) 0
        = order.marker :: (putUint order 4 lineStringType
          ++ (putUint order 4 (ls.length % 2 ^ 32) ++ putPoints order ls)))
    ∧ lineStringType / ewkbType % 2 = 0
    ∧ (∀ (ls : LineString) (rest : List Nat),
        byteOrderType (Encode order (.lineString ls) 0 ++ rest)
          = .ok (order, lineStringType, 0,
              putUint order 4 (ls.length % 2 ^ 32) ++ putPoints order ls ++ rest)) := by
  refine ⟨?_, ?_, by decide, ?_⟩
  · have h : (mls.map (fun ls => Encode order (.lineString ls) 0))
        = mls.map (fun ls => writeLineString order ls 0) := by
      apply List.map_congr_left
      intro ls _
      rw [Encode]
    rw [h, ← writeLineStrings_eq]
    rfl
  · intro ls
    simp [Encode, writeLineString, writeTypePrefix, writeHeader]
  · intro ls rest
    have h := byteOrderType_writeHeader order lineStringType 0
      (putUint order 4 (ls.length % 2 ^ 32) ++ putPoints order ls ++ rest) (by decide) (by decide)
    rw [wireSRID_zero] at h
    rw [← h, Encode, writeLineString, writeTypePrefix]
    simp only [List.append_assoc]

end wkbcommon

namespace ewkb

open orb

/-- The length of what `Marshal` returns: `GeomLength` of the geometry, and 4
bytes more when the identifier is not 0. -/
theorem Marshal_length (g : Geometry) (srid : Int) (os : List wkbcommon.byteOrder)
    (b : List Nat) (hb : Marshal (some g) srid os = .ok (some b)) :
    b.length = wkbcommon.GeomLength g + (if srid = 0 then 0 else 4) := by
  rw [Marshal_some] at hb
  injection hb with hb
  injection hb with hb
  subst hb
  exact wkbcommon.Encode_length _ g srid

/-- C12 fails on the code: `Marshal` of the Point (1, 2) with identifier 4326
returns 25 bytes, while `GeomLength` of that Point, the capacity `Marshal`
gives its buffer, is 21; with identifier 0 it returns 21 bytes. -/
theorem Marshal_length_identifier :
    Marshal (some (.point ⟨1, 2⟩)) 4326 []
      = .ok (some [1, 1, 0, 0, 32, 230, 16, 0, 0,
          1, 0, 0, 0, 0, 0, 0, 0, 2, 0, 0, 0, 0, 0, 0, 0])
    ∧ [1, 1, 0, 0, 32, 230, 16, 0, 0,
        1, 0, 0, 0, 0, 0, 0, 0, 2, 0, 0, 0, 0, 0, 0, 0].length = 25
    ∧ wkbcommon.GeomLength (.point ⟨1, 2⟩) = 21
    ∧ Marshal (some (.point ⟨1, 2⟩)) 0 []
      = .ok (some [1, 1, 0, 0, 0, 1, 0, 0, 0, 0, 0, 0, 0, 2, 0, 0, 0, 0, 0, 0, 0]) :=
  ⟨rfl, rfl, rfl, rfl⟩

end ewkb

/-! ## `readMultiLineString` and `unmarshalMultiLineString` -/

namespace wkbcommon

open orb

theorem readElements_encoded_map {α β : Type} (readOne : List Nat → Except Err β × List Nat)
    (enc : α → List Nat) (val : α → β) (as : List α)
    (hread : ∀ a ∈ as, ∀ rest : List Nat, readOne (enc a ++ rest) = (.ok (val a), rest))
    (rest : List Nat) (acc : List β) :
    readElements readOne as.length ((as.map enc).flatten ++ rest) acc
      = (.ok (acc ++ as.map val), rest) := by
  induction as generalizing acc with
  | nil => simp [readElements]
  | cons a as ih =>
    have h1 := hread a (List.mem_cons_self _ _) ((as.map enc).flatten ++ rest)
    have ih' := ih (fun b hb => hread b (List.mem_cons_of_mem _ hb)) (acc ++ [val a])
    simp only [List.map_cons, List.flatten_cons, List.append_assoc, List.length_cons,
      readElements, h1, ih', List.singleton_append]

theorem readByteOrderType_writeHeader (order : byteOrder) (t : Nat) (srid : Int)
    (rest : List Nat) (h1 : 1 ≤ t) (h7 : t ≤ 7) :
    readByteOrderType (writeHeader order t srid ++ rest) = (.ok (order, t), rest) := by
  have hmark : ∀ body : List Nat,
      readFull 1 (order.marker :: body) = (.ok [order.marker], body) :=
    fun body => readFull_append [order.marker] body
  unfold writeHeader
  by_cases hs : srid = 0
  · have ht : t % 2 ^ 32 = t := Nat.mod_eq_of_lt (by omega)
    have hflag : ¬ (t / ewkbType % 2 = 1) := by
      have : t / ewkbType = 0 := Nat.div_eq_of_lt (by unfold ewkbType; omega)
      simp [this]
    simp only [hs, if_true, List.cons_append, readByteOrderType, hmark, List.getD_cons_zero,
      orderOfMarker_marker, readUint32_putUint, ht, hflag, if_false]
  · have ht : (t + ewkbType) % 2 ^ 32 = t + ewkbType :=
      Nat.mod_eq_of_lt (by unfold ewkbType; omega)
    have hflag : (t + ewkbType) / ewkbType % 2 = 1 := by
      have : (t + ewkbType) / ewkbType = 1 := by unfold ewkbType; omega
      simp [this]
    have hsub : t + ewkbType - ewkbType = t := by omega
    simp only [hs, if_false, List.cons_append, List.append_assoc, readByteOrderType, hmark,
      List.getD_cons_zero, orderOfMarker_marker, readUint32_putUint, ht, hflag, if_true, hsub]

theorem readMultiLineStringElement_writeLineString (order : byteOrder) (ls : LineString)
    (rest : List Nat) (hls : pointsWF ls) :
    readMultiLineStringElement (writeLineString order ls 0 ++ rest) = (.ok ls, rest) := by
  have hh := readByteOrderType_writeHeader order lineStringType 0
    (putUint order 4 (ls.length % 2 ^ 32) ++ (putPoints order ls ++ rest)) (by decide) (by decide)
  simp only [readMultiLineStringElement, writeLineString, writeTypePrefix, List.append_assoc, hh,
    ne_eq, not_true_eq_false, if_false, readLineString_putPoints order ls rest hls]

theorem Decode_writeLineString (order : byteOrder) (ls : LineString) (hls : pointsWF ls) :
    Decode (writeLineString order ls 0) = (.ok (.lineString ls), []) := by
  have hh := readByteOrderType_writeHeader order lineStringType 0
    (putUint order 4 (ls.length % 2 ^ 32) ++ (putPoints order ls ++ [])) (by decide) (by decide)
  have hr := readLineString_putPoints order ls [] hls
  obtain ⟨k, hk⟩ : ∃ k, (writeLineString order ls 0).length = k + 1 :=
    ⟨(writeLineString order ls 0).length - 1, by rw [writeLineString_length]; simp; omega⟩
  have he : writeLineString order ls 0
      = writeHeader order lineStringType 0
        ++ (putUint order 4 (ls.length % 2 ^ 32) ++ (putPoints order ls ++ [])) := by
    simp [writeLineString, writeTypePrefix]
  unfold Decode
  rw [hk, DecodeFuel, he, hh]
  simp only [hr]
  simp [lineStringType, pointType]

/-- C14: for every outer byte order and every stream of LineString elements,
each written in a byte order of its own, `readMultiLineString` decodes each
element in the byte order its own marker names, not in the outer order: the
result is the sequence of the LineStrings, each the one the element decodes to
when it is decoded on its own. -/
theorem readMultiLineString_element_order (outer : byteOrder)
    (els : List (byteOrder × LineString)) (rest : List Nat) (hl : els.length < 2 ^ 32)
    (hw : ∀ e ∈ els, pointsWF e.2) :
    readMultiLineString
        (putUint outer 4 els.length
          ++ ((els.map (fun e => writeLineString e.1 e.2 0)).flatten ++ rest)) outer
      = (.ok (els.map Prod.snd), rest)
    ∧ ∀ e ∈ els, Decode (writeLineString e.1 e.2 0) = (.ok (.lineString e.2), []) := by
  constructor
  · have h := readElements_encoded_map readMultiLineStringElement
      (fun e : byteOrder × LineString => writeLineString e.1 e.2 0) Prod.snd els
      (fun e he rest => readMultiLineStringElement_writeLineString e.1 e.2 rest (hw e he)) rest []
    rw [List.nil_append] at h
    simp only [readMultiLineString, readUint32_putUint, Nat.mod_eq_of_lt hl, h]
  · intro e he
    exact Decode_writeLineString e.1 e.2 (hw e he)

/-- The witness of C14: a big-endian and a little-endian element inside a
little-endian MultiLineString. -/
theorem readMultiLineString_element_order_witness :
    ([(byteOrder.bigEndian, [⟨1, 2⟩]), (byteOrder.littleEndian, [⟨3, 4⟩, ⟨5, 6⟩])]
        : List (byteOrder × LineString)).length < 2 ^ 32
    ∧ readMultiLineString
        (putUint .littleEndian 4
            ([(byteOrder.bigEndian, [⟨1, 2⟩]), (byteOrder.littleEndian, [⟨3, 4⟩, ⟨5, 6⟩])]
              : List (byteOrder × LineString)).length
          ++ ((([(byteOrder.bigEndian, [⟨1, 2⟩]), (byteOrder.littleEndian, [⟨3, 4⟩, ⟨5, 6⟩])]
              : List (byteOrder × LineString)).map
                (fun e => writeLineString e.1 e.2 0)).flatten ++ [9])) .littleEndian
      = (.ok (([(byteOrder.bigEndian, [⟨1, 2⟩]), (byteOrder.littleEndian, [⟨3, 4⟩, ⟨5, 6⟩])]
              : List (byteOrder × LineString)).map Prod.snd), [9]) :=
  ⟨by norm_num,
    (readMultiLineString_element_order .littleEndian
      [(byteOrder.bigEndian, [⟨1, 2⟩]), (byteOrder.littleEndian, [⟨3, 4⟩, ⟨5, 6⟩])] [9]
      (by norm_num) (by simp [pointsWF, Point.WF])).1⟩

end wkbcommon

namespace wkbcommon

open orb

theorem sliceFrom_writeLineString (order : byteOrder) (ls : LineString) (rest : List Nat) :
    sliceFrom (writeLineString order ls 0 ++ rest) (16 * ls.length + 9) = .ok rest := by
  have hlen : (writeLineString order ls 0).length = 16 * ls.length + 9 := by
    rw [writeLineString_length]; simp; omega
  unfold sliceFrom
  rw [if_pos (by rw [List.length_append]; omega)]
  rw [List.drop_append_of_le_length (by omega), List.drop_of_length_le (by omega)]
  rfl

theorem payload_multiLineString_length (order : byteOrder) (mls : MultiLineString) :
    ∃ k, (payload order (.multiLineString mls)).length = k + 1 :=
  ⟨(payload order (.multiLineString mls)).length - 1, by
    simp only [payload, List.length_append, putUint_length]; omega⟩

/-- A LineString whose length is a multiple of `2^32` scans back, from its own
encoding, as the empty LineString. -/
theorem ScanLineStringFuel_overflow (fuel : Nat) (order : byteOrder) (ps : LineString)
    (rest : List Nat) (hps : ps.length % 2 ^ 32 = 0) :
    ScanLineStringFuel (fuel + 1) (writeLineString order ps 0 ++ rest) = .ok ([], 0) := by
  have hlen : ¬ (putUint order 4 0 ++ (putPoints order ps ++ rest)).length < 4 := by
    simp [putUint_length]
  unfold writeLineString
  rw [List.append_assoc, ScanLineStringFuel,
    unmarshalByteOrderType_writeTypePrefix order lineStringType _ 0 _ (by decide) (by decide)]
  simp only [hps, unmarshalLineString, unmarshalPoints, hlen, if_false,
    unmarshalUint32_putUint, wireSRID_zero]
  simp [unmarshalPointsLoop]

/-- The payload of a MultiLineString whose one LineString has a length that is
a multiple of `2^32` decodes to a MultiLineString of one empty LineString. -/
theorem unmarshalMultiLineString_overflow (order : byteOrder) (ps : LineString)
    (hps : ps.length % 2 ^ 32 = 0) :
    unmarshalMultiLineString (payload order (.multiLineString [ps])).length order
        (payload order (.multiLineString [ps])) = .ok [[]] := by
  obtain ⟨k, hk⟩ := payload_multiLineString_length order [ps]
  rw [hk]
  have hscan := ScanLineStringFuel_overflow k order ps [] hps
  have hslice : sliceFrom (writeLineString order ps 0 ++ []) (16 * 0 + 9)
      = .ok (List.drop 9 (writeLineString order ps 0 ++ [])) := by
    unfold sliceFrom
    rw [if_pos (by rw [List.length_append, writeLineString_length, if_pos rfl]; omega)]
  have hone : (1 : Nat) % 2 ^ 32 % 2 ^ 32 = 1 := by norm_num
  have hcnt : ¬ (putUint order 4 (1 % 2 ^ 32)
      ++ (writeLineString order ps 0 ++ [])).length < 4 := by
    rw [List.length_append, putUint_length]; omega
  simp only [unmarshalMultiLineString, unmarshalMultiLineStringWith, payload,
    writeLineStrings, List.length_cons, List.length_nil, Nat.zero_add, hcnt, if_false,
    unmarshalUint32_putUint, hone, drop_putUint_append, unmarshalElements, hscan,
    hslice, List.nil_append]

/-- C19, as stated, fails: for the MultiLineString whose one LineString has
`2^32` points, the payload carries the point count 0, and
`unmarshalMultiLineString` returns a MultiLineString of one empty LineString. -/
theorem unmarshalMultiLineString_counterexample :
    unmarshalMultiLineString
        (payload .littleEndian
          (.multiLineString [List.replicate 4294967296 ⟨0, 0⟩])).length .littleEndian
        (payload .littleEndian (.multiLineString [List.replicate 4294967296 ⟨0, 0⟩]))
      = .ok [[]]
    ∧ ([[]] : MultiLineString) ≠ [List.replicate 4294967296 ⟨0, 0⟩] := by
  constructor
  · apply unmarshalMultiLineString_overflow
    rw [List.length_replicate]
    norm_num
  · intro h
    injection h with h _
    have hl := congrArg List.length h
    rw [List.length_replicate] at hl
    exact absurd hl (by decide)

/-- C19, amended: for every MultiLineString whose sequences each have fewer
than `2^32` elements (and whose coordinates are 64-bit patterns) and both byte
orders, `unmarshalMultiLineString` applied to the payload
`writeMultiLineString` emits after the outer header returns a MultiLineString
equal to the one written; the advance of `9 + 16*len(ls)` bytes behind an
element is exactly the length of its encoding, so it lands on the first byte
of the next element and never slices past the end of the buffer. -/
theorem unmarshalMultiLineString_payload (order : byteOrder) (mls : MultiLineString)
    (hmls : ringsWF mls) :
    unmarshalMultiLineString (payload order (.multiLineString mls)).length order
        (payload order (.multiLineString mls)) = .ok mls
    ∧ ∀ (ls : LineString) (rest : List Nat),
        sliceFrom (writeLineString order ls 0 ++ rest) (16 * ls.length + 9) = .ok rest := by
  refine ⟨?_, sliceFrom_writeLineString order⟩
  obtain ⟨k, hk⟩ := payload_multiLineString_length order mls
  rw [hk]
  exact unmarshalMultiLineStringWith_payload k order mls hmls

/-- The witness of C19: two LineStrings, big-endian. -/
theorem unmarshalMultiLineString_payload_witness :
    ringsWF [[⟨1, 2⟩], [⟨3, 4⟩, ⟨5, 6⟩]]
    ∧ unmarshalMultiLineString
        (payload .bigEndian (.multiLineString [[⟨1, 2⟩], [⟨3, 4⟩, ⟨5, 6⟩]])).length .bigEndian
        (payload .bigEndian (.multiLineString [[⟨1, 2⟩], [⟨3, 4⟩, ⟨5, 6⟩]]))
      = .ok [[⟨1, 2⟩], [⟨3, 4⟩, ⟨5, 6⟩]] :=
  ⟨by simp [ringsWF, pointsWF, Point.WF],
    (unmarshalMultiLineString_payload .bigEndian [[⟨1, 2⟩], [⟨3, 4⟩, ⟨5, 6⟩]]
      (by simp [ringsWF, pointsWF, Point.WF])).1⟩

/-- C20, as stated, fails, for each of the three kinds of element it names.
An element that is itself a MultiLineString of one LineString: the buffer
decoder promotes it and succeeds, the stream decoder rejects its type. An
element behind a 4-byte vendor prefix: the buffer decoder skips the prefix and
succeeds, the stream decoder rejects the order marker. A first element that
carries an identifier: the stream decoder reads both elements, the buffer
decoder advances 4 bytes too few and fails on the second. -/
theorem multiLineString_decoders_counterexample :
    (unmarshalMultiLineString 38 .littleEndian
        [1, 0, 0, 0, 1, 5, 0, 0, 0, 1, 0, 0, 0, 1, 2, 0, 0, 0, 1, 0, 0, 0,
          1, 0, 0, 0, 0, 0, 0, 0, 2, 0, 0, 0, 0, 0, 0, 0]
      = .ok [[⟨1, 2⟩]]
    ∧ readMultiLineString
        [1, 0, 0, 0, 1, 5, 0, 0, 0, 1, 0, 0, 0, 1, 2, 0, 0, 0, 1, 0, 0, 0,
          1, 0, 0, 0, 0, 0, 0, 0, 2, 0, 0, 0, 0, 0, 0, 0] .littleEndian
      = (.error (.errors_New "expect multilines to contains lines, did not find a line"),
          [1, 0, 0, 0, 1, 2, 0, 0, 0, 1, 0, 0, 0,
            1, 0, 0, 0, 0, 0, 0, 0, 2, 0, 0, 0, 0, 0, 0, 0]))
    ∧ (unmarshalMultiLineString 17 .littleEndian
        [1, 0, 0, 0, 9, 9, 9, 9, 1, 2, 0, 0, 0, 0, 0, 0, 0]
      = .ok [[]]
    ∧ readMultiLineString
        [1, 0, 0, 0, 9, 9, 9, 9, 1, 2, 0, 0, 0, 0, 0, 0, 0] .littleEndian
      = (.error .wkbcommon_ErrNotWKB, [9, 9, 9, 1, 2, 0, 0, 0, 0, 0, 0, 0]))
    ∧ (unmarshalMultiLineString 26 .littleEndian
        [2, 0, 0, 0, 1, 2, 0, 0, 32, 230, 16, 0, 0, 0, 0, 0, 0,
          1, 2, 0, 0, 0, 0, 0, 0, 0]
      = .error .wkbcommon_ErrIncorrectGeometry
    ∧ readMultiLineString
        [2, 0, 0, 0, 1, 2, 0, 0, 32, 230, 16, 0, 0, 0, 0, 0, 0,
          1, 2, 0, 0, 0, 0, 0, 0, 0] .littleEndian
      = (.ok [[], []], [])) :=
  ⟨⟨rfl, rfl⟩, ⟨rfl, rfl⟩, ⟨rfl, rfl⟩⟩

/-- On the payload `writeMultiLineString` emits for a MultiLineString that fits
the wire, the buffer decoder `unmarshalMultiLineString` and the stream decoder
`readMultiLineString` both succeed and return the MultiLineString written. -/
theorem multiLineString_decoders_encoded (order : byteOrder) (mls : MultiLineString)
    (hmls : ringsWF mls) :
    unmarshalMultiLineString (payload order (.multiLineString mls)).length order
        (payload order (.multiLineString mls)) = .ok mls
    ∧ readMultiLineString (payload order (.multiLineString mls)) order = (.ok mls, []) := by
  constructor
  · obtain ⟨k, hk⟩ := payload_multiLineString_length order mls
    rw [hk]
    exact unmarshalMultiLineStringWith_payload k order mls hmls
  · have h := readElements_encoded readMultiLineStringElement
      (fun ls => writeLineString order ls 0) mls
      (fun ls hls rest => readMultiLineStringElement_writeLineString order ls rest
        (hmls.2 ls hls)) [] []
    rw [List.nil_append, List.append_nil, ← writeLineStrings_eq] at h
    have hm : mls.length % 2 ^ 32 % 2 ^ 32 = mls.length := by
      rw [Nat.mod_mod]; exact Nat.mod_eq_of_lt hmls.1
    simp only [readMultiLineString, payload, readUint32_putUint, hm, h]

/-- Two LineStrings, little-endian, through both decoders. -/
theorem multiLineString_decoders_encoded_witness :
    ringsWF [[⟨1, 2⟩], [⟨3, 4⟩, ⟨5, 6⟩]]
    ∧ unmarshalMultiLineString
        (payload .littleEndian (.multiLineString [[⟨1, 2⟩], [⟨3, 4⟩, ⟨5, 6⟩]])).length
        .littleEndian (payload .littleEndian (.multiLineString [[⟨1, 2⟩], [⟨3, 4⟩, ⟨5, 6⟩]]))
      = .ok [[⟨1, 2⟩], [⟨3, 4⟩, ⟨5, 6⟩]]
    ∧ readMultiLineString
        (payload .littleEndian (.multiLineString [[⟨1, 2⟩], [⟨3, 4⟩, ⟨5, 6⟩]])) .littleEndian
      = (.ok [[⟨1, 2⟩], [⟨3, 4⟩, ⟨5, 6⟩]], []) :=
  ⟨by simp [ringsWF, pointsWF, Point.WF],
    multiLineString_decoders_encoded .littleEndian [[⟨1, 2⟩], [⟨3, 4⟩, ⟨5, 6⟩]]
      (by simp [ringsWF, pointsWF, Point.WF])⟩

end wkbcommon

/-! ## `Decoder.Decode` and `value.Value` -/

namespace ewkb

open orb

/-- C15: for every input stream, the streaming `Decoder.Decode` returns 0 as
the identifier: on success the decoded geometry with identifier 0 and no
error, on failure a nil geometry, 0 and the mapped error. The stream of a
Point whose header carries the identifier 4326 decodes to that Point with
identifier 0. -/
theorem Decode_identifier_zero (r : List Nat) :
    (Decode r).1.2.1 = 0
    ∧ (∀ g r', wkbcommon.Decode r = (.ok g, r') → Decode r = ((some g, 0, none), r'))
    ∧ (∀ err r', wkbcommon.Decode r = (.error err, r') →
        Decode r = ((none, 0, some (mapCommonError err)), r'))
    ∧ Decode [1, 1, 0, 0, 32, 230, 16, 0, 0, 1, 0, 0, 0, 0, 0, 0, 0, 2, 0, 0, 0, 0, 0, 0, 0]
      = ((some (.point ⟨1, 2⟩), 0, none), []) := by
  refine ⟨?_, ?_, ?_, rfl⟩
  · unfold Decode
    split <;> rfl
  · intro g r' h
    simp only [Decode, h]
  · intro err r' h
    simp only [Decode, h]

/-- C16, as stated, fails: during `Value(nil, 4326).Value()` the encoder is
called; `Marshal` calls `Encode` with the nil geometry. -/
theorem Value_nil_counterexample :
    (Value none 4326).ValueCalls = [.NewEncoder, .SetSRID 4326, .Encode none] :=
  rfl

/-- C16, amended: for every identifier, the value built by `Value(nil, srid)`
produces the null representation, a nil driver value and not an empty byte
slice, and a nil error; it does so through `Marshal`, which creates an encoder
and calls its `Encode` once with the nil geometry, for which nothing is
written. -/
theorem Value_nil (srid : Int) :
    (Value none srid).Value = (none, none)
    ∧ (Value none srid).ValueCalls = [.NewEncoder, .SetSRID srid, .Encode none]
    ∧ Marshal none srid [] = .ok none :=
  ⟨rfl, rfl, rfl⟩

end ewkb

/-! ## Malformed hex text -/

namespace ewkb

open orb

/-- The loop of the in-place hex decode fails only with `InvalidByteError`. -/
theorem hexDecodeLoop_error (k : Nat) :
    ∀ (i : Nat) (buf : List Nat), ∃ buf' n,
      hexDecodeLoop k i buf = (buf', n, none)
      ∨ ∃ c, hexDecodeLoop k i buf = (buf', n, some (.hex_InvalidByteError c)) := by
  induction k with
  | zero => intro i buf; exact ⟨buf, i, Or.inl rfl⟩
  | succ k ih =>
    intro i buf
    simp only [hexDecodeLoop]
    split
    · exact ⟨_, _, Or.inr ⟨_, rfl⟩⟩
    · split
      · exact ⟨_, _, Or.inr ⟨_, rfl⟩⟩
      · exact ih _ _

/-- When the loop of the in-place hex decode ends without an error, every
character it has read is a hexadecimal digit: with the read position `2*i + 2`
behind `front`, the loop reads the characters of `src` themselves, never a
byte it has written. -/
theorem hexDecodeLoop_none (k : Nat) :
    ∀ (src : List Nat) (i : Nat) (front buf' : List Nat) (n : Nat),
      front.length = 2 * i + 2 → 2 * k ≤ src.length →
      hexDecodeLoop k i (front ++ src) = (buf', n, none) →
      ∀ c ∈ src.take (2 * k), reverseHexTable c ≤ 15 := by
  induction k with
  | zero => intro src i front buf' n _ _ _ c hc; simp at hc
  | succ k ih =>
    intro src i front buf' n hf hl h c hc
    match src, hl with
    | p :: q :: src', hl =>
      have hp : (front ++ p :: q :: src').getD (2 * i + 2) 0 = p := by
        rw [List.getD_eq_getElem?_getD, List.getElem?_append_right (by omega)]
        simp [hf]
      have hq : (front ++ p :: q :: src').getD (2 * i + 3) 0 = q := by
        rw [List.getD_eq_getElem?_getD, List.getElem?_append_right (by omega)]
        simp [hf]
      simp only [hexDecodeLoop, hp, hq] at h
      by_cases ha : reverseHexTable p > 15
      · rw [if_pos ha] at h
        simp at h
      · rw [if_neg ha] at h
        by_cases hb : reverseHexTable q > 15
        · rw [if_pos hb] at h
          simp at h
        · rw [if_neg hb] at h
          have hset : (front ++ p :: q :: src').set i
              (reverseHexTable p * 16 + reverseHexTable q)
              = (front.set i (reverseHexTable p * 16 + reverseHexTable q) ++ [p, q])
                ++ src' := by
            rw [List.set_append, if_pos (by omega)]
            simp
          rw [hset] at h
          have hrec := ih src' (i + 1)
            (front.set i (reverseHexTable p * 16 + reverseHexTable q) ++ [p, q]) buf' n
            (by simp [hf]; omega) (by simp only [List.length_cons] at hl; omega) h
          have h2 : 2 * (k + 1) = (2 * k) + 1 + 1 := by omega
          rw [h2, List.take_succ_cons, List.take_succ_cons] at hc
          rcases List.mem_cons.mp hc with rfl | hc
          · omega
          · rcases List.mem_cons.mp hc with rfl | hc
            · omega
            · exact hrec c hc
    | [_], hl => simp at hl; omega
    | [], hl => simp at hl

/-- The in-place hex decode of the escape prefix followed by text that is not
a well-formed hex string returns an error. -/
theorem hexDecodeInPlace_malformed (src : List Nat) (hbad : ¬ hexWellFormed src) :
    ∃ buf n e, hexDecodeInPlace (92 :: 120 :: src) = (buf, n, some e)
      ∧ (e = .hex_ErrLength ∨ ∃ c, e = .hex_InvalidByteError c) := by
  have hsrc : (92 :: 120 :: src).length - 2 = src.length := by
    simp only [List.length_cons]; omega
  simp only [hexDecodeInPlace, hsrc]
  obtain ⟨buf', n, hloop | ⟨c, hloop⟩⟩ := hexDecodeLoop_error (src.length / 2) 0 (92 :: 120 :: src)
  · rw [hloop]
    simp only
    by_cases hodd : src.length % 2 = 1
    · rw [if_pos hodd]
      by_cases hc : reverseHexTable (buf'.getD (2 * n + 2) 0) > 15
      · rw [if_pos hc]
        exact ⟨_, _, _, rfl, Or.inr ⟨_, rfl⟩⟩
      · rw [if_neg hc]
        exact ⟨_, _, _, rfl, Or.inl rfl⟩
    · exfalso
      apply hbad
      refine ⟨by omega, ?_⟩
      have hall := hexDecodeLoop_none (src.length / 2) src 0 [92, 120] buf' n rfl (by omega)
        hloop
      have htake : src.take (2 * (src.length / 2)) = src :=
        List.take_of_length_le (by omega)
      rw [htake] at hall
      exact hall
  · rw [hloop]
    exact ⟨_, _, _, rfl, Or.inr ⟨_, rfl⟩⟩

/-- The hex stage on the escape prefix followed by text that is not a
well-formed hex string fails, with the wrapped error of `hex.Decode`. -/
theorem hexStage_malformed (src : List Nat) (hne : src ≠ []) (hbad : ¬ hexWellFormed src) :
    ∃ e, hexStage (92 :: 120 :: src)
        = .error (.fmt_Errorf "thought the data was hex, but it is not: %v" e)
      ∧ (e = .hex_ErrLength ∨ ∃ c, e = .hex_InvalidByteError c) := by
  have hpos : 0 < src.length := List.length_pos.mpr hne
  have hcond : (92 :: 120 :: src).length > 2
      ∧ (92 :: 120 :: src).getD 0 0 = 92 ∧ (92 :: 120 :: src).getD 1 0 = 120 := by
    refine ⟨?_, rfl, rfl⟩
    simp only [List.length_cons]; omega
  obtain ⟨buf, n, e, hdec, hshape⟩ := hexDecodeInPlace_malformed src hbad
  refine ⟨e, ?_, hshape⟩
  unfold hexStage
  rw [if_pos hcond, hdec]

/-- C17: for every input longer than 2 bytes that begins with backslash and
`x` and whose remaining bytes are not a well-formed hex string (a character
that is no hexadecimal digit, or an odd length), `Scan` returns a non-nil
error, the wrapped error of the hex decode, and decodes no geometry: the
scanner is left with Valid = false, Geometry = nil and its destination and
identifier unchanged. -/
theorem Scan_malformed_hex (Bound : Geometry → Bound) (s : GeometryScanner) (src : List Nat)
    (hne : src ≠ []) (hbad : ¬ hexWellFormed src) :
    ∃ e, Scan Bound s (.bytes (some (92 :: 120 :: src)))
        = (some (.fmt_Errorf "thought the data was hex, but it is not: %v" e),
            { s with Geometry := none, Valid := false })
      ∧ (e = .hex_ErrLength ∨ ∃ c, e = .hex_InvalidByteError c) := by
  obtain ⟨e, he, hshape⟩ := hexStage_malformed src hne hbad
  exact ⟨e, by simp only [Scan, he], hshape⟩

/-- The witness of C17: the escape prefix followed by the three characters
`0`, `1`, `a`, an odd length. -/
theorem Scan_malformed_hex_witness :
    ([48, 49, 97] : List Nat) ≠ [] ∧ ¬ hexWellFormed [48, 49, 97]
    ∧ ∃ e, Scan (fun _ => ⟨⟨0, 0⟩, ⟨0, 0⟩⟩) (Scanner (.Point ⟨7, 7⟩))
          (.bytes (some (92 :: 120 :: [48, 49, 97])))
        = (some (.fmt_Errorf "thought the data was hex, but it is not: %v" e),
            { Scanner (.Point ⟨7, 7⟩) with Geometry := none, Valid := false })
      ∧ (e = .hex_ErrLength ∨ ∃ c, e = .hex_InvalidByteError c) :=
  ⟨by decide, by simp [hexWellFormed],
    Scan_malformed_hex _ _ [48, 49, 97] (by decide) (by simp [hexWellFormed])⟩

end ewkb

/-! ## The two MultiLineString decoders on the same payload -/

namespace wkbcommon

open orb

theorem unmarshalPoint_of_length (order : byteOrder) (data : List Nat) (h : 16 ≤ data.length) :
    unmarshalPoint order data
      = .ok ⟨getUint order (data.take 8), getUint order ((data.drop 8).take 8)⟩ := by
  unfold unmarshalPoint
  rw [if_neg (by omega)]

theorem unmarshalPoint_short (order : byteOrder) (data : List Nat) (h : data.length < 16) :
    unmarshalPoint order data = .error .wkbcommon_ErrNotWKB := by
  unfold unmarshalPoint
  rw [if_pos h]

theorem readPoint_of_length_eq (order : byteOrder) (r : List Nat) (h : 16 ≤ r.length) :
    readPoint r order
      = (.ok ⟨getUint order (r.take 8), getUint order ((r.drop 8).take 8)⟩, r.drop 16) := by
  have h1 : readFull 8 r = (.ok (r.take 8), r.drop 8) := by
    unfold readFull
    rw [if_pos (by omega)]
  have h2 : readFull 8 (r.drop 8) = (.ok ((r.drop 8).take 8), r.drop 16) := by
    unfold readFull
    rw [if_pos (by rw [List.length_drop]; omega), List.drop_drop]
  simp only [readPoint, readFloat64, h1, h2]

theorem readPoint_short (order : byteOrder) (r : List Nat) (h : r.length < 16) :
    ∃ e r', readPoint r order = (.error e, r') := by
  by_cases h8 : 8 ≤ r.length
  · have h1 : readFull 8 r = (.ok (r.take 8), r.drop 8) := by
      unfold readFull
      rw [if_pos h8]
    obtain ⟨e, he⟩ := readFull_short 8 (r.drop 8) (by rw [List.length_drop]; omega)
    exact ⟨e, [], by simp only [readPoint, readFloat64, h1, he]⟩
  · obtain ⟨e, he⟩ := readFull_short 8 r (by omega)
    exact ⟨e, [], by simp only [readPoint, readFloat64, he]⟩

/-- The point loops of the two decoders on the same bytes: with fewer than
`16 * n` bytes both fail, otherwise both return the same `n` points and the
stream reader stops right behind them. -/
theorem points_agree (order : byteOrder) :
    ∀ (n : Nat) (body : List Nat) (acc : List Point),
      (body.length < 16 * n →
        (∃ e, unmarshalPointsLoop order n body = .error e)
        ∧ ∃ e r, readElements (fun r => readPoint r order) n body acc = (.error e, r))
      ∧ (16 * n ≤ body.length →
        ∃ ps, ps.length = n ∧ unmarshalPointsLoop order n body = .ok ps
          ∧ readElements (fun r => readPoint r order) n body acc
            = (.ok (acc ++ ps), body.drop (16 * n))) := by
  intro n
  induction n with
  | zero =>
    intro body acc
    refine ⟨fun h => absurd h (by omega), fun _ => ⟨[], rfl, rfl, ?_⟩⟩
    simp [readElements]
  | succ n ih =>
    intro body acc
    by_cases h16 : 16 ≤ body.length
    · obtain ⟨p, hp⟩ : ∃ p : Point,
          p = ⟨getUint order (body.take 8), getUint order ((body.drop 8).take 8)⟩ := ⟨_, rfl⟩
      have hu := unmarshalPoint_of_length order body h16
      have hr := readPoint_of_length_eq order body h16
      rw [← hp] at hu hr
      have hl : (body.drop 16).length = body.length - 16 := List.length_drop _ _
      constructor
      · intro h
        obtain ⟨⟨e, he⟩, e', r, hr'⟩ := (ih (body.drop 16) (acc ++ [p])).1 (by omega)
        exact ⟨⟨e, by simp only [unmarshalPointsLoop, hu, he]⟩,
          e', r, by simp only [readElements, hr, hr']⟩
      · intro h
        obtain ⟨ps, hlen, hu', hr'⟩ := (ih (body.drop 16) (acc ++ [p])).2 (by omega)
        refine ⟨p :: ps, by simp [hlen], by simp only [unmarshalPointsLoop, hu, hu'], ?_⟩
        simp only [readElements, hr, hr', List.append_assoc, List.singleton_append,
          List.drop_drop]
        rw [show 16 + 16 * n = 16 * (n + 1) from by ring]
    · constructor
      · intro _
        obtain ⟨e, r, hr⟩ := readPoint_short order body (by omega)
        exact ⟨⟨.wkbcommon_ErrNotWKB,
            by simp only [unmarshalPointsLoop, unmarshalPoint_short order body (by omega)]⟩,
          e, r, by simp only [readElements, hr]⟩
      · intro h
        exact absurd h (by omega)

end wkbcommon

namespace wkbcommon

open orb

theorem unmarshalByteOrderType_plain (b : Nat) (rest : List Nat) (order : byteOrder)
    (ho : orderOfMarker b = some order) (h4 : ¬ rest.length < 4)
    (hflag : ¬ unmarshalUint32 order rest / ewkbType % 2 = 1) :
    unmarshalByteOrderType (b :: rest)
      = if unmarshalUint32 order rest < 1 ∨ 7 < unmarshalUint32 order rest
        then .error .wkbcommon_ErrUnsupportedGeometry
        else .ok (order, unmarshalUint32 order rest, 0, rest.drop 4) := by
  have hb : byteOrderType (b :: rest)
      = if unmarshalUint32 order rest < 1 ∨ 7 < unmarshalUint32 order rest
        then .error .wkbcommon_ErrUnsupportedGeometry
        else .ok (order, unmarshalUint32 order rest, 0, rest.drop 4) := by
    simp only [byteOrderType, ho, h4, hflag, if_false]
  unfold unmarshalByteOrderType
  rw [hb]
  by_cases hk : unmarshalUint32 order rest < 1 ∨ 7 < unmarshalUint32 order rest
  · simp only [if_pos hk, ho]
  · simp only [if_neg hk]

theorem unmarshalByteOrderType_short (b : Nat) (rest : List Nat) (order : byteOrder)
    (ho : orderOfMarker b = some order) (h4 : rest.length < 4) :
    unmarshalByteOrderType (b :: rest) = .error .wkbcommon_ErrNotWKB := by
  have hb : byteOrderType (b :: rest) = .error .wkbcommon_ErrNotWKB := by
    simp only [byteOrderType, ho, h4, if_true]
  unfold unmarshalByteOrderType
  rw [hb]
  simp only [ho]

theorem readFull_of_length (n : Nat) (r : List Nat) (h : n ≤ r.length) :
    readFull n r = (.ok (r.take n), r.drop n) := by
  unfold readFull
  rw [if_pos h]

theorem readUint32_of_length (order : byteOrder) (r : List Nat) (h : ¬ r.length < 4) :
    readUint32 r order = (.ok (unmarshalUint32 order r), r.drop 4) := by
  simp only [readUint32, readFull_of_length 4 r (by omega), unmarshalUint32]

theorem readUint32_short (order : byteOrder) (r : List Nat) (h : r.length < 4) :
    ∃ e, readUint32 r order = (.error e, []) := by
  obtain ⟨e, he⟩ := readFull_short 4 r h
  exact ⟨e, by simp only [readUint32, he]⟩

theorem readByteOrderType_plain (b : Nat) (rest : List Nat) (order : byteOrder)
    (ho : orderOfMarker b = some order) (h4 : ¬ rest.length < 4)
    (hflag : ¬ unmarshalUint32 order rest / ewkbType % 2 = 1) :
    readByteOrderType (b :: rest) = (.ok (order, unmarshalUint32 order rest), rest.drop 4) := by
  have h1 : readFull 1 (b :: rest) = (.ok [b], rest) := readFull_append [b] rest
  simp only [readByteOrderType, h1, List.getD_cons_zero, ho, readUint32_of_length order rest h4,
    hflag, if_false]

theorem readByteOrderType_short (b : Nat) (rest : List Nat) (order : byteOrder)
    (ho : orderOfMarker b = some order) (h4 : rest.length < 4) :
    ∃ e, readByteOrderType (b :: rest) = (.error e, []) := by
  have h1 : readFull 1 (b :: rest) = (.ok [b], rest) := readFull_append [b] rest
  obtain ⟨e, he⟩ := readUint32_short order rest h4
  exact ⟨e, by simp only [readByteOrderType, h1, List.getD_cons_zero, ho, he]⟩

/-- One element of the two loops on the same bytes, when the element is plain:
both fail, or both return the same LineString, and the advance of the buffer
decoder leaves it where the stream reader stands. -/
theorem element_agree (fuel n : Nat) (data : List Nat)
    (h : plainElements (n + 1) data = true) :
    ((∃ e, ScanLineStringFuel (fuel + 1) data = .error e)
      ∧ ∃ e r, readMultiLineStringElement data = (.error e, r))
    ∨ (∃ ls srid rest, ScanLineStringFuel (fuel + 1) data = .ok (ls, srid)
        ∧ sliceFrom data (16 * ls.length + 9) = .ok rest
        ∧ readMultiLineStringElement data = (.ok ls, rest)
        ∧ plainElements n rest = true) := by
  cases data with
  | nil =>
    left
    exact ⟨⟨_, by simp only [ScanLineStringFuel, unmarshalByteOrderType_nil]; rfl⟩, _, _, rfl⟩
  | cons b rest =>
    cases ho : orderOfMarker b with
    | none =>
      simp only [plainElements, ho] at h
      exact absurd h (by decide)
    | some order =>
      simp only [plainElements, ho] at h
      by_cases h4 : rest.length < 4
      · left
        obtain ⟨e, he⟩ := readByteOrderType_short b rest order ho h4
        exact ⟨⟨.wkbcommon_ErrNotWKB,
            by simp only [ScanLineStringFuel, unmarshalByteOrderType_short b rest order ho h4]⟩,
          e, [], by simp only [readMultiLineStringElement, he]⟩
      · rw [if_neg h4] at h
        by_cases hflag : unmarshalUint32 order rest / ewkbType % 2 = 1
        · rw [if_pos hflag] at h
          exact absurd h (by decide)
        · rw [if_neg hflag] at h
          have hbuf := unmarshalByteOrderType_plain b rest order ho h4 hflag
          have hstr := readByteOrderType_plain b rest order ho h4 hflag
          by_cases hmls : unmarshalUint32 order rest = multiLineStringType
          · rw [if_pos hmls] at h
            exact absurd h (by decide)
          · rw [if_neg hmls] at h
            by_cases hls : unmarshalUint32 order rest = lineStringType
            · rw [if_neg (not_not.mpr hls)] at h
              have hrange : ¬ (unmarshalUint32 order rest < 1 ∨ 7 < unmarshalUint32 order rest) := by
                rw [hls]; decide
              rw [if_neg hrange, hls] at hbuf
              rw [hls] at hstr
              by_cases hc : (rest.drop 4).length < 4
              · left
                obtain ⟨e, he⟩ := readUint32_short order (rest.drop 4) hc
                refine ⟨⟨.wkbcommon_ErrNotWKB, ?_⟩, e, [], ?_⟩
                · simp only [ScanLineStringFuel, hbuf, if_true, unmarshalLineString,
                    unmarshalPoints, hc]
                · simp only [readMultiLineStringElement, hstr, ne_eq, not_true_eq_false,
                    if_false, readLineString, he]
              · rw [if_neg hc] at h
                have hnum := readUint32_of_length order (rest.drop 4) hc
                rw [List.drop_drop] at hnum
                have hl4 : (rest.drop 4).length = rest.length - 4 := List.length_drop _ _
                have hl8 : (rest.drop 8).length = rest.length - 8 := List.length_drop _ _
                have hpts := points_agree order (unmarshalUint32 order (rest.drop 4))
                  (rest.drop 8) []
                by_cases hp : (rest.drop 8).length < 16 * unmarshalUint32 order (rest.drop 4)
                · left
                  obtain ⟨⟨e, he⟩, e', r, hr⟩ := hpts.1 hp
                  refine ⟨⟨e, ?_⟩, e', r, ?_⟩
                  · simp only [ScanLineStringFuel, hbuf, if_true, unmarshalLineString,
                      unmarshalPoints, hc, if_false, List.drop_drop, he]
                  · simp only [readMultiLineStringElement, hstr, ne_eq, not_true_eq_false,
                      if_false, readLineString, hnum, hr]
                · rw [if_neg hp] at h
                  right
                  obtain ⟨ps, hlen, hu, hr⟩ := hpts.2 (by omega)
                  rw [List.nil_append, List.drop_drop] at hr
                  refine ⟨ps, 0, rest.drop (8 + 16 * unmarshalUint32 order (rest.drop 4)),
                    ?_, ?_, ?_, h⟩
                  · simp only [ScanLineStringFuel, hbuf, if_true, unmarshalLineString,
                      unmarshalPoints, hc, if_false, List.drop_drop, hu]
                  · unfold sliceFrom
                    rw [if_pos (by rw [List.length_cons, hlen]; omega), hlen,
                      show 16 * unmarshalUint32 order (rest.drop 4) + 9
                        = (8 + 16 * unmarshalUint32 order (rest.drop 4)) + 1 from by ring,
                      List.drop_succ_cons]
                  · simp only [readMultiLineStringElement, hstr, ne_eq, not_true_eq_false,
                      if_false, readLineString, hnum, hr]
            · rw [if_pos hls] at h
              left
              refine ⟨?_, .errors_New "expect multilines to contains lines, did not find a line",
                rest.drop 4, by simp only [readMultiLineStringElement, hstr, ne_eq, hls,
                  not_false_eq_true, if_true]⟩
              by_cases hk : unmarshalUint32 order rest < 1 ∨ 7 < unmarshalUint32 order rest
              · rw [if_pos hk] at hbuf
                exact ⟨.wkbcommon_ErrUnsupportedGeometry, by simp only [ScanLineStringFuel, hbuf]⟩
              · rw [if_neg hk] at hbuf
                exact ⟨.wkbcommon_ErrIncorrectGeometry,
                  by simp only [ScanLineStringFuel, hbuf, hls, hmls, if_false]⟩

end wkbcommon

namespace wkbcommon

open orb

/-- The element loops of the two decoders on the same bytes, when the elements
are plain: both fail, or both return the same sequence. -/
theorem elements_agree (fuel : Nat) :
    ∀ (n : Nat) (data : List Nat) (acc : List LineString), plainElements n data = true →
      ((∃ e, unmarshalElements (ScanLineStringFuel (fuel + 1))
            (fun ls => 16 * ls.length + 9) n data acc = .error e)
        ∧ ∃ e r, readElements readMultiLineStringElement n data acc = (.error e, r))
      ∨ (∃ m r, unmarshalElements (ScanLineStringFuel (fuel + 1))
            (fun ls => 16 * ls.length + 9) n data acc = .ok m
          ∧ readElements readMultiLineStringElement n data acc = (.ok m, r)) := by
  intro n
  induction n with
  | zero =>
    intro data acc _
    exact Or.inr ⟨acc, data, rfl, rfl⟩
  | succ n ih =>
    intro data acc h
    rcases element_agree fuel n data h with ⟨⟨e, he⟩, e', r, hr⟩ | ⟨ls, srid, rest, hs, hsl, hr, hrest⟩
    · exact Or.inl ⟨⟨e, by simp only [unmarshalElements, he]⟩,
        e', r, by simp only [readElements, hr]⟩
    · rcases ih rest (acc ++ [ls]) hrest with ⟨⟨e, he⟩, e', r, hr'⟩ | ⟨m, r, hm, hr'⟩
      · exact Or.inl ⟨⟨e, by simp only [unmarshalElements, hs, hsl, he]⟩,
          e', r, by simp only [readElements, hr, hr']⟩
      · exact Or.inr ⟨m, r, by simp only [unmarshalElements, hs, hsl, hm],
          by simp only [readElements, hr, hr']⟩

end wkbcommon

namespace wkbcommon

open orb

/-- C20, amended: for every outer byte order and every payload in which each
element the decoders reach starts with an order marker 0 or 1 and has a type
code that carries no identifier flag and is not that of a MultiLineString, the
buffer decoder `unmarshalMultiLineString` and the stream decoder
`readMultiLineString` agree: either both fail, or both succeed and return
equal MultiLineStrings. -/
theorem multiLineString_decoders_agree (outer : byteOrder) (data : List Nat)
    (h : plainElements (unmarshalUint32 outer data) (data.drop 4) = true) :
    ((∃ e, unmarshalMultiLineString data.length outer data = .error e)
      ∧ ∃ e r, readMultiLineString data outer = (.error e, r))
    ∨ (∃ m r, unmarshalMultiLineString data.length outer data = .ok m
        ∧ readMultiLineString data outer = (.ok m, r)) := by
  by_cases h4 : data.length < 4
  · left
    obtain ⟨e, he⟩ := readUint32_short outer data h4
    exact ⟨⟨.wkbcommon_ErrNotWKB,
        by simp only [unmarshalMultiLineString, unmarshalMultiLineStringWith, h4, if_true]⟩,
      e, [], by simp only [readMultiLineString, he]⟩
  · obtain ⟨k, hk⟩ : ∃ k, data.length = k + 1 := ⟨data.length - 1, by omega⟩
    have hnum := readUint32_of_length outer data h4
    rcases elements_agree k (unmarshalUint32 outer data) (data.drop 4) [] h with
      ⟨⟨e, he⟩, e', r, hr⟩ | ⟨m, r, hm, hr⟩
    · left
      refine ⟨⟨e, ?_⟩, e', r, ?_⟩
      · rw [hk]
        simp only [unmarshalMultiLineString, unmarshalMultiLineStringWith, h4, if_false, he]
      · simp only [readMultiLineString, hnum, hr]
    · right
      refine ⟨m, r, ?_, ?_⟩
      · rw [hk]
        simp only [unmarshalMultiLineString, unmarshalMultiLineStringWith, h4, if_false, hm]
      · simp only [readMultiLineString, hnum, hr]

/-- The witness of C20: a little-endian MultiLineString of a big-endian
LineString of one point and a little-endian empty LineString. -/
theorem multiLineString_decoders_agree_witness :
    plainElements
        (unmarshalUint32 .littleEndian
          [2, 0, 0, 0, 0, 0, 0, 0, 2, 0, 0, 0, 1, 0, 0, 0, 0, 0, 0, 0, 1,
            0, 0, 0, 0, 0, 0, 0, 2, 1, 2, 0, 0, 0, 0, 0, 0, 0])
        (List.drop 4
          [2, 0, 0, 0, 0, 0, 0, 0, 2, 0, 0, 0, 1, 0, 0, 0, 0, 0, 0, 0, 1,
            0, 0, 0, 0, 0, 0, 0, 2, 1, 2, 0, 0, 0, 0, 0, 0, 0]) = true
    ∧ (((∃ e, unmarshalMultiLineString 38 .littleEndian
            [2, 0, 0, 0, 0, 0, 0, 0, 2, 0, 0, 0, 1, 0, 0, 0, 0, 0, 0, 0, 1,
              0, 0, 0, 0, 0, 0, 0, 2, 1, 2, 0, 0, 0, 0, 0, 0, 0] = .error e)
        ∧ ∃ e r, readMultiLineString
            [2, 0, 0, 0, 0, 0, 0, 0, 2, 0, 0, 0, 1, 0, 0, 0, 0, 0, 0, 0, 1,
              0, 0, 0, 0, 0, 0, 0, 2, 1, 2, 0, 0, 0, 0, 0, 0, 0] .littleEndian = (.error e, r))
      ∨ (∃ m r, unmarshalMultiLineString 38 .littleEndian
            [2, 0, 0, 0, 0, 0, 0, 0, 2, 0, 0, 0, 1, 0, 0, 0, 0, 0, 0, 0, 1,
              0, 0, 0, 0, 0, 0, 0, 2, 1, 2, 0, 0, 0, 0, 0, 0, 0] = .ok m
          ∧ readMultiLineString
            [2, 0, 0, 0, 0, 0, 0, 0, 2, 0, 0, 0, 1, 0, 0, 0, 0, 0, 0, 0, 1,
              0, 0, 0, 0, 0, 0, 0, 2, 1, 2, 0, 0, 0, 0, 0, 0, 0] .littleEndian = (.ok m, r)))
    ∧ unmarshalMultiLineString 38 .littleEndian
        [2, 0, 0, 0, 0, 0, 0, 0, 2, 0, 0, 0, 1, 0, 0, 0, 0, 0, 0, 0, 1,
          0, 0, 0, 0, 0, 0, 0, 2, 1, 2, 0, 0, 0, 0, 0, 0, 0] = .ok [[⟨1, 2⟩], []] :=
  ⟨rfl,
    multiLineString_decoders_agree .littleEndian
      [2, 0, 0, 0, 0, 0, 0, 0, 2, 0, 0, 0, 1, 0, 0, 0, 0, 0, 0, 0, 1,
        0, 0, 0, 0, 0, 0, 0, 2, 1, 2, 0, 0, 0, 0, 0, 0, 0] rfl,
    rfl⟩

end wkbcommon

/-! ## `mapCommonError` -/

namespace ewkb

open orb

theorem mapCommonError_not_sentinel (e : Err) : (mapCommonError e).isCommonSentinel = false := by
  cases e <;> rfl

theorem mapCommonError_of_not_sentinel (e : Err) (h : e.isCommonSentinel = false) :
    mapCommonError e = e := by
  cases e <;> first | rfl | exact absurd h (by decide)

theorem UnmarshalValues_eq (data : List Nat) :
    UnmarshalValues data
      = match Unmarshal data with
        | .error err => (none, 0, some err)
        | .ok (g, srid) => (some g, srid, none) := by
  unfold UnmarshalValues Unmarshal
  cases wkbcommon.Unmarshal data with
  | error e => rfl
  | ok r => rfl

/-- C21: `mapCommonError` sends each of the four sentinel errors of `wkbcommon`
to the error of `ewkb` of the same meaning and returns every other error
unchanged; what it returns is never a sentinel of `wkbcommon`. So `Unmarshal`
and `Decoder.Decode` either succeed or return a nil geometry, the identifier 0
and an error that is no sentinel of `wkbcommon`; on the empty input `Unmarshal`
returns `ErrNotEWKB` and `Decode` the unchanged `io.EOF`. -/
theorem mapCommonError_sentinels :
    mapCommonError .wkbcommon_ErrUnsupportedDataType = .ErrUnsupportedDataType
    ∧ mapCommonError .wkbcommon_ErrNotWKB = .ErrNotEWKB
    ∧ mapCommonError .wkbcommon_ErrIncorrectGeometry = .ErrIncorrectGeometry
    ∧ mapCommonError .wkbcommon_ErrUnsupportedGeometry = .ErrUnsupportedGeometry
    ∧ (∀ e : Err, e.isCommonSentinel = false → mapCommonError e = e)
    ∧ (∀ e : Err, (mapCommonError e).isCommonSentinel = false)
    ∧ (∀ data : List Nat,
        (∃ g srid, UnmarshalValues data = (some g, srid, none))
        ∨ ∃ e, e.isCommonSentinel = false ∧ UnmarshalValues data = (none, 0, some e))
    ∧ (∀ r : List Nat,
        (∃ g, (Decode r).1 = (some g, 0, none))
        ∨ ∃ e, e.isCommonSentinel = false ∧ (Decode r).1 = (none, 0, some e))
    ∧ UnmarshalValues [] = (none, 0, some .ErrNotEWKB)
    ∧ (Decode []).1 = (none, 0, some .io_EOF) := by
  refine ⟨rfl, rfl, rfl, rfl, mapCommonError_of_not_sentinel, mapCommonError_not_sentinel,
    ?_, ?_, rfl, rfl⟩
  · intro data
    unfold UnmarshalValues
    cases wkbcommon.Unmarshal data with
    | error e => exact Or.inr ⟨_, mapCommonError_not_sentinel e, rfl⟩
    | ok r => exact Or.inl ⟨r.1, r.2, rfl⟩
  · intro r
    unfold Decode
    cases h : wkbcommon.Decode r with
    | mk res r' =>
      cases res with
      | error e => exact Or.inr ⟨_, mapCommonError_not_sentinel e, rfl⟩
      | ok g => exact Or.inl ⟨g, rfl⟩

end ewkb

/-! ## `readMultiLineString` on an element that is no LineString -/

namespace wkbcommon

open orb

/-- The element loop of the stream readers, split: once the first `k` elements
are read, the loop over `k + m` elements goes on with the other `m`. -/
theorem readElements_add {α : Type} (readOne : List Nat → Except Err α × List Nat) (m : Nat) :
    ∀ (k : Nat) (r : List Nat) (acc xs : List α) (r1 : List Nat),
      readElements readOne k r acc = (.ok xs, r1) →
      readElements readOne (k + m) r acc = readElements readOne m r1 xs := by
  intro k
  induction k with
  | zero =>
    intro r acc xs r1 h
    rw [readElements] at h
    injection h with h1 h2
    injection h1 with h1
    rw [Nat.zero_add, h1, h2]
  | succ k ih =>
    intro r acc xs r1 h
    rw [Nat.add_right_comm, readElements]
    rw [readElements] at h
    cases h1 : readOne r with
    | mk res r' =>
      cases res with
      | error e =>
        rw [h1] at h
        injection h with h _
        exact absurd h (by simp)
      | ok a =>
        rw [h1] at h
        exact ih r' (acc ++ [a]) xs r1 h

/-- C22: for every stream in which, after `k` elements read as LineStrings and
within the declared count, an element's header names a type other than
LineString, `readMultiLineString` fails at that element with the error it makes
by `errors.New`, which is no sentinel of the package, returns no
MultiLineString, and leaves the reader right behind the header of the
element. -/
theorem readMultiLineString_wrong_element (outer : byteOrder) (data r0 r1 r2 : List Nat)
    (n k : Nat) (lines : MultiLineString) (o : byteOrder) (typ : Nat)
    (hnum : readUint32 data outer = (.ok n, r0)) (hk : k < n)
    (hpre : readElements readMultiLineStringElement k r0 [] = (.ok lines, r1))
    (hhead : readByteOrderType r1 = (.ok (o, typ), r2)) (htyp : typ ≠ lineStringType) :
    readMultiLineString data outer
      = (.error (.errors_New "expect multilines to contains lines, did not find a line"), r2)
    ∧ (Err.errors_New
        "expect multilines to contains lines, did not find a line").isCommonSentinel = false := by
  refine ⟨?_, rfl⟩
  obtain ⟨m, rfl⟩ : ∃ m, n = k + (m + 1) := ⟨n - k - 1, by omega⟩
  have hel : readMultiLineStringElement r1
      = (.error (.errors_New "expect multilines to contains lines, did not find a line"), r2) := by
    simp only [readMultiLineStringElement, hhead, ne_eq, htyp, not_false_eq_true, if_true]
  have hsplit := readElements_add readMultiLineStringElement (m + 1) k r0 [] lines r1 hpre
  simp only [readMultiLineString, hnum]
  rw [hsplit, readElements, hel]

/-- The witness of C22: a MultiLineString of two elements, a LineString of one
point and then a Point. -/
theorem readMultiLineString_wrong_element_witness :
    readUint32
        [2, 0, 0, 0, 1, 2, 0, 0, 0, 1, 0, 0, 0, 1, 0, 0, 0, 0, 0, 0, 0, 2, 0, 0, 0, 0, 0, 0, 0,
          1, 1, 0, 0, 0, 3, 0, 0, 0, 0, 0, 0, 0, 4, 0, 0, 0, 0, 0, 0, 0] .littleEndian
      = (.ok 2,
          [1, 2, 0, 0, 0, 1, 0, 0, 0, 1, 0, 0, 0, 0, 0, 0, 0, 2, 0, 0, 0, 0, 0, 0, 0,
            1, 1, 0, 0, 0, 3, 0, 0, 0, 0, 0, 0, 0, 4, 0, 0, 0, 0, 0, 0, 0])
    ∧ readElements readMultiLineStringElement 1
        [1, 2, 0, 0, 0, 1, 0, 0, 0, 1, 0, 0, 0, 0, 0, 0, 0, 2, 0, 0, 0, 0, 0, 0, 0,
          1, 1, 0, 0, 0, 3, 0, 0, 0, 0, 0, 0, 0, 4, 0, 0, 0, 0, 0, 0, 0] []
      = (.ok [[⟨1, 2⟩]], [1, 1, 0, 0, 0, 3, 0, 0, 0, 0, 0, 0, 0, 4, 0, 0, 0, 0, 0, 0, 0])
    ∧ readByteOrderType [1, 1, 0, 0, 0, 3, 0, 0, 0, 0, 0, 0, 0, 4, 0, 0, 0, 0, 0, 0, 0]
      = (.ok (.littleEndian, pointType), [3, 0, 0, 0, 0, 0, 0, 0, 4, 0, 0, 0, 0, 0, 0, 0])
    ∧ readMultiLineString
        [2, 0, 0, 0, 1, 2, 0, 0, 0, 1, 0, 0, 0, 1, 0, 0, 0, 0, 0, 0, 0, 2, 0, 0, 0, 0, 0, 0, 0,
          1, 1, 0, 0, 0, 3, 0, 0, 0, 0, 0, 0, 0, 4, 0, 0, 0, 0, 0, 0, 0] .littleEndian
      = (.error (.errors_New "expect multilines to contains lines, did not find a line"),
          [3, 0, 0, 0, 0, 0, 0, 0, 4, 0, 0, 0, 0, 0, 0, 0]) :=
  ⟨rfl, rfl, rfl,
    (readMultiLineString_wrong_element .littleEndian
      [2, 0, 0, 0, 1, 2, 0, 0, 0, 1, 0, 0, 0, 1, 0, 0, 0, 0, 0, 0, 0, 2, 0, 0, 0, 0, 0, 0, 0,
        1, 1, 0, 0, 0, 3, 0, 0, 0, 0, 0, 0, 0, 4, 0, 0, 0, 0, 0, 0, 0]
      [1, 2, 0, 0, 0, 1, 0, 0, 0, 1, 0, 0, 0, 0, 0, 0, 0, 2, 0, 0, 0, 0, 0, 0, 0,
        1, 1, 0, 0, 0, 3, 0, 0, 0, 0, 0, 0, 0, 4, 0, 0, 0, 0, 0, 0, 0]
      [1, 1, 0, 0, 0, 3, 0, 0, 0, 0, 0, 0, 0, 4, 0, 0, 0, 0, 0, 0, 0]
      [3, 0, 0, 0, 0, 0, 0, 0, 4, 0, 0, 0, 0, 0, 0, 0]
      2 1 [[⟨1, 2⟩]] .littleEndian pointType (by rfl) (by decide) (by rfl) (by rfl)
      (by decide)).1⟩

end wkbcommon

/-! ## `Scan`: the identifier of a scanner that is used again, and destinations
the type switch does not know -/

namespace ewkb

open orb

/-- The scanner after `Scan`: either Valid is true, or it is the scanner before
the call with Geometry nil and Valid false. -/
theorem Scan_scanner (Bound : Geometry → Bound) (s : GeometryScanner) (d : ScanInput) :
    (Scan Bound s d).2.Valid = true
    ∨ (Scan Bound s d).2 = { s with Geometry := none, Valid := false } := by
  cases d with
  | nil => exact Or.inr rfl
  | other => exact Or.inr rfl
  | bytes data =>
    cases data with
    | none => exact Or.inr rfl
    | some data =>
      simp only [Scan]
      cases hh : hexStage data with
      | error e => exact Or.inr rfl
      | ok data' =>
        simp only
        obtain ⟨g, srid, geo, valid⟩ := s
        cases g <;> simp only
        all_goals first
          | exact Or.inr rfl
          | exact Or.inr trivial
          | (split <;> first
              | exact Or.inr rfl
              | exact Or.inl rfl
              | (split <;> first
                  | exact Or.inr rfl
                  | exact Or.inl rfl))

/-- C23: `Scan` never clears SRID. For every scanner and every input on which
`Scan` finishes with Valid = false, a null input, an input that is no byte
slice, or any failure of the hex stage or of the decode, the SRID field holds
the value it had before the call. -/
theorem Scan_keeps_SRID (Bound : Geometry → Bound) (s : GeometryScanner) (d : ScanInput)
    (h : (Scan Bound s d).2.Valid = false) :
    (Scan Bound s d).2.SRID = s.SRID := by
  rcases Scan_scanner Bound s d with hv | he
  · rw [hv] at h
    exact absurd h (by decide)
  · rw [he]

/-- The witness of C23: a scanner that has scanned a Point with identifier 4326
is used again on a null input; afterwards Valid is false and SRID is still
4326, the identifier of the earlier row. -/
theorem Scan_keeps_SRID_witness :
    (Scan (fun _ => ⟨⟨0, 0⟩, ⟨0, 0⟩⟩) (Scanner .nil)
        (.bytes (some [1, 1, 0, 0, 32, 230, 16, 0, 0,
          1, 0, 0, 0, 0, 0, 0, 0, 2, 0, 0, 0, 0, 0, 0, 0]))).2.SRID = 4326
    ∧ (Scan (fun _ => ⟨⟨0, 0⟩, ⟨0, 0⟩⟩)
        (Scan (fun _ => ⟨⟨0, 0⟩, ⟨0, 0⟩⟩) (Scanner .nil)
          (.bytes (some [1, 1, 0, 0, 32, 230, 16, 0, 0,
            1, 0, 0, 0, 0, 0, 0, 0, 2, 0, 0, 0, 0, 0, 0, 0]))).2 .nil).2.Valid = false
    ∧ (Scan (fun _ => ⟨⟨0, 0⟩, ⟨0, 0⟩⟩)
        (Scan (fun _ => ⟨⟨0, 0⟩, ⟨0, 0⟩⟩) (Scanner .nil)
          (.bytes (some [1, 1, 0, 0, 32, 230, 16, 0, 0,
            1, 0, 0, 0, 0, 0, 0, 0, 2, 0, 0, 0, 0, 0, 0, 0]))).2 .nil).2.SRID
      = (Scan (fun _ => ⟨⟨0, 0⟩, ⟨0, 0⟩⟩) (Scanner .nil)
          (.bytes (some [1, 1, 0, 0, 32, 230, 16, 0, 0,
            1, 0, 0, 0, 0, 0, 0, 0, 2, 0, 0, 0, 0, 0, 0, 0]))).2.SRID :=
  ⟨by rfl, by rfl,
    Scan_keeps_SRID (fun _ => ⟨⟨0, 0⟩, ⟨0, 0⟩⟩)
      (Scan (fun _ => ⟨⟨0, 0⟩, ⟨0, 0⟩⟩) (Scanner .nil)
        (.bytes (some [1, 1, 0, 0, 32, 230, 16, 0, 0,
          1, 0, 0, 0, 0, 0, 0, 0, 2, 0, 0, 0, 0, 0, 0, 0]))).2 .nil (by rfl)⟩

/-- C24: for every scanner whose destination is non-nil and none of the nine
pointers of the type switch, `Scan` of any non-nil byte sequence that passes
the hex stage returns `ErrIncorrectGeometry` and, whatever the bytes are, hands
them to no decoder; Valid is false, Geometry nil, and the other fields keep
their values. `Scan` of a null input, nil or a nil byte slice, returns no
error. -/
theorem Scan_other_destination (Bound : Geometry → Bound) (s : GeometryScanner)
    (data data' : List Nat) (hg : s.g = .other) (hhex : hexStage data = .ok data') :
    Scan Bound s (.bytes (some data))
      = (some .ErrIncorrectGeometry, { s with Geometry := none, Valid := false })
    ∧ ScanCalls s (.bytes (some data)) = []
    ∧ Scan Bound s .nil = (none, { s with Geometry := none, Valid := false })
    ∧ Scan Bound s (.bytes none) = (none, { s with Geometry := none, Valid := false }) := by
  obtain ⟨g, srid, geo, valid⟩ := s
  simp only at hg
  subst hg
  refine ⟨?_, ?_, rfl, rfl⟩
  · simp only [Scan, hhex]
  · simp only [ScanCalls, hhex]

/-- The witness of C24: the encoding of a Point, which every decoder accepts,
scanned into a destination the type switch does not know. -/
theorem Scan_other_destination_witness :
    (Scanner .other).g = .other
    ∧ hexStage [1, 1, 0, 0, 0, 1, 0, 0, 0, 0, 0, 0, 0, 2, 0, 0, 0, 0, 0, 0, 0]
      = .ok [1, 1, 0, 0, 0, 1, 0, 0, 0, 0, 0, 0, 0, 2, 0, 0, 0, 0, 0, 0, 0]
    ∧ Unmarshal [1, 1, 0, 0, 0, 1, 0, 0, 0, 0, 0, 0, 0, 2, 0, 0, 0, 0, 0, 0, 0]
      = .ok (.point ⟨1, 2⟩, 0)
    ∧ (Scan (fun _ => ⟨⟨0, 0⟩, ⟨0, 0⟩⟩) (Scanner .other)
        (.bytes (some [1, 1, 0, 0, 0, 1, 0, 0, 0, 0, 0, 0, 0, 2, 0, 0, 0, 0, 0, 0, 0]))
      = (some .ErrIncorrectGeometry,
          { Scanner .other with Geometry := none, Valid := false })
    ∧ ScanCalls (Scanner .other)
        (.bytes (some [1, 1, 0, 0, 0, 1, 0, 0, 0, 0, 0, 0, 0, 2, 0, 0, 0, 0, 0, 0, 0])) = []
    ∧ Scan (fun _ => ⟨⟨0, 0⟩, ⟨0, 0⟩⟩) (Scanner .other) .nil
      = (none, { Scanner .other with Geometry := none, Valid := false })
    ∧ Scan (fun _ => ⟨⟨0, 0⟩, ⟨0, 0⟩⟩) (Scanner .other) (.bytes none)
      = (none, { Scanner .other with Geometry := none, Valid := false })) :=
  ⟨rfl, by rfl, by rfl,
    Scan_other_destination (fun _ => ⟨⟨0, 0⟩, ⟨0, 0⟩⟩) (Scanner .other)
      [1, 1, 0, 0, 0, 1, 0, 0, 0, 0, 0, 0, 0, 2, 0, 0, 0, 0, 0, 0, 0]
      [1, 1, 0, 0, 0, 1, 0, 0, 0, 0, 0, 0, 0, 2, 0, 0, 0, 0, 0, 0, 0] rfl (by rfl)⟩

end ewkb

/-! ## A vendor prefix that looks like the hex escape -/

namespace ewkb

open orb

/-- A 4-byte prefix that begins with backslash and `x`, in front of any valid
encoding: `Scan` takes the input for hex text, and the order marker of the
encoding, which is no hexadecimal digit, makes the hex stage fail, whatever the
scanner is. -/
theorem Scan_hex_in_front (Bound : Geometry → Bound) (s : GeometryScanner) (c d : Nat)
    (g : Geometry) (srid : Int) (os : List wkbcommon.byteOrder) (b : List Nat)
    (hb : Marshal (some g) srid os = .ok (some b)) :
    ∃ e, Scan Bound s (.bytes (some (92 :: 120 :: c :: d :: b)))
        = (some (.fmt_Errorf "thought the data was hex, but it is not: %v" e),
            { s with Geometry := none, Valid := false }) := by
  rw [Marshal_some] at hb
  injection hb with hb
  injection hb with hb
  subst hb
  obtain ⟨rest, hrest⟩ := wkbcommon.Encode_marker (os.headD DefaultByteOrder) g srid
  rw [hrest]
  have hbad : ¬ hexWellFormed
      (c :: d :: (os.headD DefaultByteOrder).marker :: rest) := by
    intro hw
    have key : ∀ o : wkbcommon.byteOrder, reverseHexTable o.marker = 255 := by
      intro o
      cases o <;> rfl
    have hm := hw.2 (os.headD DefaultByteOrder).marker (by simp)
    rw [key] at hm
    omega
  obtain ⟨e, he, _⟩ := hexStage_malformed _ (List.cons_ne_nil _ _) hbad
  exact ⟨e, by simp only [Scan, he]⟩

/-- C4 fails on the code: a 4-byte prefix that begins with backslash and `x`
sends the input to the hex stage instead of the decoder. In front of the
encoding of the Point (1, 2), the prefix 92, 120, 0, 0 (the identifier 30812
as MySQL writes it) and the prefix backslash, `x`, `0`, `0` both make `Scan`
return the wrapped hex error and leave Valid = false, while `Scan` of the
encoding alone succeeds with that Point and the identifier 0. -/
theorem Scan_vendor_bytes_hex :
    Marshal (some (.point ⟨1, 2⟩)) 0 []
      = .ok (some [1, 1, 0, 0, 0, 1, 0, 0, 0, 0, 0, 0, 0, 2, 0, 0, 0, 0, 0, 0, 0])
    ∧ Scan (fun _ => ⟨⟨0, 0⟩, ⟨0, 0⟩⟩) (Scanner .nil)
        (.bytes (some ([92, 120, 0, 0]
          ++ [1, 1, 0, 0, 0, 1, 0, 0, 0, 0, 0, 0, 0, 2, 0, 0, 0, 0, 0, 0, 0])))
      = (some (.fmt_Errorf "thought the data was hex, but it is not: %v"
          (.hex_InvalidByteError 0)), ⟨.nil, 0, none, false⟩)
    ∧ Scan (fun _ => ⟨⟨0, 0⟩, ⟨0, 0⟩⟩) (Scanner .nil)
        (.bytes (some ([92, 120, 48, 48]
          ++ [1, 1, 0, 0, 0, 1, 0, 0, 0, 0, 0, 0, 0, 2, 0, 0, 0, 0, 0, 0, 0])))
      = (some (.fmt_Errorf "thought the data was hex, but it is not: %v"
          (.hex_InvalidByteError 1)), ⟨.nil, 0, none, false⟩)
    ∧ Scan (fun _ => ⟨⟨0, 0⟩, ⟨0, 0⟩⟩) (Scanner .nil)
        (.bytes (some [1, 1, 0, 0, 0, 1, 0, 0, 0, 0, 0, 0, 0, 2, 0, 0, 0, 0, 0, 0, 0]))
      = (none, ⟨.nil, 0, some (.geometry (.point ⟨1, 2⟩)), true⟩) :=
  ⟨rfl, rfl, rfl, rfl⟩

end ewkb
